import Mathlib

/-!
# FraudFinder: embedded-evidence storage

A shallow embedding of the evidence storage code of FraudFinder
(`src/src/utils.cpp`, `src/src/database.cpp`, `src/src/fraud_entry.cpp`)
together with theorems about it.

Conventions of the embedding:

* a `std::string` is a list of characters (`Str`), one `Char` per C++ `char`;
* a `std::vector<unsigned char>` is a list of bytes (`Bytes`);
* `size_t` positions are natural numbers and `std::string::npos` is `none`;
* `while` and `for` loops are recursive functions on an explicit iteration budget;
* the file system and the SQLite table are explicit state; what the host decides
  (whether `mkdir` succeeds, whether a stream opens, what reaches the disk) is a
  parameter of type `Host`, and what SQLite decides is a parameter of type `SqlFault`.
-/

namespace FraudFinder

/-! ## Strings and bytes -/

/-- A `std::string`: the sequence of its `char`s. -/
abbrev Str := List Char

/-- An `unsigned char`. -/
abbrev Byte := Fin 256

/-- A `std::vector<unsigned char>`. -/
abbrev Bytes := List Byte

/-- Position of the first character satisfying `p` (`none` is `npos`). -/
def findFirst (p : Char → Bool) : Str → Option Nat
  | [] => none
  | c :: cs => if p c then some 0 else (findFirst p cs).map (· + 1)

/-- Position of the last character satisfying `p` (`none` is `npos`). -/
def findLast (p : Char → Bool) : Str → Option Nat
  | [] => none
  | c :: cs =>
    match findLast p cs with
    | some i => some (i + 1)
    | none => if p c then some 0 else none

/-- The member function `std::string::find_first_not_of(set)`. -/
def find_first_not_of (s set : Str) : Option Nat := findFirst (fun c => !set.contains c) s

/-- The member function `std::string::find_last_not_of(set)`. -/
def find_last_not_of (s set : Str) : Option Nat := findLast (fun c => !set.contains c) s

/-- The member function `std::string::find_last_of(set)`. -/
def find_last_of (s set : Str) : Option Nat := findLast (fun c => set.contains c) s

/-- The value of `std::string::npos` as a `size_t`. -/
def npos : Nat := 2 ^ 64 - 1

/-- The member function `std::string::substr(pos, len)`. -/
def substr (s : Str) (pos len : Nat) : Str := (s.drop pos).take len

/-- The member function `std::string::substr(pos)`. -/
def substrFrom (s : Str) (pos : Nat) : Str := s.drop pos

/-- The text a `const char*` obtained from `c_str()` denotes: the characters before the
first NUL. -/
def c_str (s : Str) : Str := s.takeWhile (fun c => c != Char.ofNat 0)

/-- Decimal digits of a natural number, as `std::to_string` prints them. -/
def natDigits (n : Nat) : Str := Nat.toDigits 10 n

/-- The function `std::to_string` on a signed integer. -/
def to_string (n : Int) : Str :=
  if n < 0 then '-' :: natDigits n.natAbs else natDigits n.natAbs

/-- The function `std::iscntrl` in the C locale: codes 0 to 31 and 127, and no `char`
outside the ASCII range. -/
def iscntrl (c : Char) : Bool := c.toNat < 32 || c.toNat == 127

/-! ## `utils.cpp` -/

namespace Utils

/-- The whitespace set `" \t\n\r\f\v"` of `Trim`. -/
def whitespace : Str :=
  [' ', Char.ofNat 9, Char.ofNat 10, Char.ofNat 13, Char.ofNat 12, Char.ofNat 11]

/-- Function `Utils::Trim` (utils.cpp:40). -/
def Trim (str : Str) : Str :=
  match find_first_not_of str whitespace with
  | none => []
  | some start =>
    match find_last_not_of str whitespace with
    | none => substr str start (npos - start + 1)
    | some last => substr str start (last - start + 1)

/-- The characters `<>:"/\|?*` that `SanitizeFilename` replaces. -/
def invalidChars : Str :=
  ['<', '>', ':', Char.ofNat 34, '/', Char.ofNat 92, '|', '?', '*']

/-- The algorithm `std::replace(first, last, old, new)` on a string. -/
def replace (s : Str) (old new : Char) : Str := s.map (fun c => if c = old then new else c)

/-- The loop `while (!s.empty() && s.front() == '.') s.erase(0, 1)`. -/
def stripLeadingDots : Nat → Str → Str
  | 0, s => s
  | fuel + 1, s =>
    match s with
    | [] => s
    | c :: cs => if c = '.' then stripLeadingDots fuel cs else s

/-- The loop `while (!s.empty() && s.back() == '.') s.pop_back()`. -/
def stripTrailingDots : Nat → Str → Str
  | 0, s => s
  | fuel + 1, s => if s.getLast? = some '.' then stripTrailingDots fuel s.dropLast else s

/-- The fallback literal `"unnamed_file"`. -/
def unnamed_file : Str := "unnamed_file".toList

/-- Function `Utils::SanitizeFilename` (utils.cpp:521). Both dot loops run at most once per
character, so the length of the string is budget enough. -/
def SanitizeFilename (filename : Str) : Str :=
  let sanitized := invalidChars.foldl (fun s c => replace s c '_') filename
  let sanitized := sanitized.filter (fun c => !iscntrl c)
  let sanitized := Trim sanitized
  let sanitized := if sanitized.isEmpty then unnamed_file else sanitized
  let sanitized := if sanitized.length > 200 then substr sanitized 0 200 else sanitized
  let sanitized := stripLeadingDots sanitized.length sanitized
  let sanitized := stripTrailingDots sanitized.length sanitized
  if sanitized.isEmpty then unnamed_file else sanitized

/-- Membership in the whitespace set of `Trim`. -/
def isSpace (c : Char) : Bool := whitespace.contains c

/-- Membership in the set of characters that `SanitizeFilename` replaces. -/
def isInvalid (c : Char) : Bool := invalidChars.contains c

/-- What the replacement loop of `SanitizeFilename` does to one character. -/
def scrub (c : Char) : Char := if isInvalid c then '_' else c

/-- The string after the replacement loop and the removal of control characters. -/
def cleaned (x : Str) : Str := (x.map scrub).filter (fun c => !iscntrl c)

/-- The test `c == '.'` of the two dot loops. -/
def isDot (c : Char) : Bool := c == '.'

/-- A string without its leading and trailing dots. -/
def stripDots (s : Str) : Str := (s.dropWhile isDot).rdropWhile isDot

/-- The fallback of `SanitizeFilename` on an empty string. -/
def orUnnamed (s : Str) : Str := if s.isEmpty then unnamed_file else s

/-- The truncation of `SanitizeFilename` to 200 characters. -/
def cut200 (s : Str) : Str := if s.length > 200 then s.take 200 else s

/-- The replacement as the specification words it: invalid characters and control
characters alike become an underscore. -/
def specReplace (name : Str) : Str :=
  name.map (fun c => if isInvalid c || iscntrl c then '_' else c)

end Utils

/-- The ten decimal digit characters. -/
def digitChars : Str := "0123456789".toList

/-! ## The host and the file system -/

/-- The regular files and the directories of the file system, by path. -/
structure FileSystem where
  /-- Contents of the regular file at a path, when there is one. -/
  file : Str → Option Bytes
  /-- Whether a path names a directory. -/
  isDir : Str → Bool

/-- What the host decides and the program only observes. -/
structure Host where
  /-- Whether `mkdir(path, 0755)` succeeds. -/
  mkdirOk : Str → Bool
  /-- Whether a `std::ofstream` on the path opens. -/
  openOutOk : Str → Bool
  /-- Whether `read` on an open input stream of the path delivers the bytes asked for. -/
  readOk : Str → Bool
  /-- The bytes found in the file after the given bytes were written to the path and the
  stream was closed (the same bytes when the disk does not fail). -/
  disk : Str → Bytes → Bytes
  /-- The text `put_time(localtime(t), "%Y-%m-%d %H:%M:%S")` of a time point. -/
  localtimeText : Int → Str
  /-- Whether an output stream on the path is still good after `dst << src.rdbuf()` has
  inserted the given bytes, of which there is at least one: false when the write fails
  during the copy (a full device), true also when the bytes only reach the buffer of the
  stream and are lost when it is closed. -/
  insertOk : Str → Bytes → Bool
  /-- The characters that `sqlite3_step` reads through a pointer that was bound with
  `SQLITE_STATIC` to the characters of a `std::string` which held the given text and was
  destroyed before the step: the same text when the freed memory has not been overwritten,
  any other characters when it has. -/
  freed : Str → Str

/-- The file system after the file at `path` has been given the contents `data`. -/
def FileSystem.write (fs : FileSystem) (path : Str) (data : Bytes) : FileSystem :=
  { fs with file := fun p => if p = path then some data else fs.file p }

/-- The function `std::remove(path)`: the file system without the file at `path`. -/
def FileSystem.remove (fs : FileSystem) (path : Str) : FileSystem :=
  { fs with file := fun p => if p = path then none else fs.file p }

/-- The file system after `mkdir(path)` succeeded. -/
def FileSystem.mkdir (fs : FileSystem) (path : Str) : FileSystem :=
  { fs with isDir := fun p => if p = path then true else fs.isDir p }

namespace Utils

/-- Function `Utils::FileExists` (utils.cpp:72): an input stream on the path is good. -/
def FileExists (fs : FileSystem) (path : Str) : Bool := (fs.file (c_str path)).isSome

/-- Function `Utils::GetFileSize` (utils.cpp:435). -/
def GetFileSize (fs : FileSystem) (filename : Str) : Int :=
  match fs.file (c_str filename) with
  | none => -1
  | some contents => (contents.length : Int)

/-- Function `Utils::DirectoryExists` (utils.cpp:483). -/
def DirectoryExists (fs : FileSystem) (path : Str) : Bool := fs.isDir (c_str path)

/-- Function `Utils::CreateDirectoryIfNotExists` (utils.cpp:370). -/
def CreateDirectoryIfNotExists (h : Host) (fs : FileSystem) (path : Str) : Bool × FileSystem :=
  if DirectoryExists fs path then (true, fs)
  else if h.mkdirOk (c_str path) then (true, fs.mkdir (c_str path))
  else (false, fs)

/-- The function `::tolower` in the C locale. -/
def tolower (c : Char) : Char :=
  if 65 ≤ c.toNat ∧ c.toNat ≤ 90 then Char.ofNat (c.toNat + 32) else c

/-- Function `Utils::GetFileExtension` (utils.cpp:417). -/
def GetFileExtension (filename : Str) : Str :=
  match find_last_of filename ['.'] with
  | none => []
  | some dotPos => (substrFrom filename (dotPos + 1)).map tolower

/-- The split of `GetUniqueFilename` (utils.cpp:570-579): the name before the last dot
and the extension from that dot on. -/
def splitName (filename : Str) : Str × Str :=
  match find_last_of filename ['.'] with
  | some dotPos => (substr filename 0 dotPos, substrFrom filename dotPos)
  | none => (filename, [])

/-- The candidate `name + "_" + tag + extension` of `GetUniqueFilename`. -/
def variation (filename tag : Str) : Str :=
  (splitName filename).1 ++ "_".toList ++ tag ++ (splitName filename).2

/-- The loop `for (int i = 1; i <= 999; ++i)` of `GetUniqueFilename`, from `i` on with
`fuel` iterations left: the first candidate that does not exist. -/
def numberedLoop (fs : FileSystem) (directory filename : Str) : Nat → Nat → Option Str
  | _, 0 => none
  | i, fuel + 1 =>
    let newFilename := variation filename (to_string (i : Int))
    let fullPath := directory ++ "/".toList ++ newFilename
    if !FileExists fs fullPath then some newFilename
    else numberedLoop fs directory filename (i + 1) fuel

/-- Function `Utils::GetUniqueFilename` (utils.cpp:562); `now` is the value of
`std::time(nullptr)`. -/
def GetUniqueFilename (fs : FileSystem) (now : Int) (directory filename : Str) : Str :=
  let fullPath := directory ++ "/".toList ++ filename
  if !FileExists fs fullPath then filename
  else
    match numberedLoop fs directory filename 1 999 with
    | some newFilename => newFilename
    | none => variation filename (to_string now)

/-- The clock value of the crowded directory: 30 October 2025. -/
def crowdedNow : Int := 1761800000

/-- The paths of the numbered files `a_1`, ..., `a_999` of the directory `d`. -/
def crowdedPaths : List Str := (List.range 999).map (fun k => "d/a_".toList ++ natDigits (k + 1))

/-- A file system whose directory `d` holds `a`, `a_1`, ..., `a_999` and `a_1761800000`. -/
def crowded : FileSystem :=
  { file := fun p =>
      if p = "d/a".toList ∨ p = "d/a_1761800000".toList ∨ p ∈ crowdedPaths then some [] else none
    isDir := fun p => p == "d".toList }

end Utils

/-! ## `fraud_entry.h` -/

/-- The enumeration `FraudType` (fraud_entry.h:8). -/
inductive FraudType where
  | SCAM | PHISHING | IDENTITY_THEFT | INVESTMENT_FRAUD | ROMANCE_SCAM | TECH_SUPPORT_SCAM
  | OTHER
  deriving DecidableEq, Repr

/-- The enumeration `Platform` (fraud_entry.h:18). -/
inductive Platform where
  | DISCORD | TELEGRAM | WHATSAPP | EMAIL | PHONE | WEBSITE | SOCIAL_MEDIA | OTHER
  deriving DecidableEq, Repr

/-- The enumeration `Severity` (fraud_entry.h:29). -/
inductive Severity where
  | LOW | MEDIUM | HIGH | CRITICAL
  deriving DecidableEq, Repr

/-- The cast `static_cast<int>` of a `FraudType`. -/
def FraudType.toInt : FraudType → Int
  | .SCAM => 1 | .PHISHING => 2 | .IDENTITY_THEFT => 3 | .INVESTMENT_FRAUD => 4
  | .ROMANCE_SCAM => 5 | .TECH_SUPPORT_SCAM => 6 | .OTHER => 7

/-- The cast `static_cast<int>` of a `Platform`. -/
def Platform.toInt : Platform → Int
  | .DISCORD => 1 | .TELEGRAM => 2 | .WHATSAPP => 3 | .EMAIL => 4 | .PHONE => 5
  | .WEBSITE => 6 | .SOCIAL_MEDIA => 7 | .OTHER => 8

/-- The cast `static_cast<int>` of a `Severity`. -/
def Severity.toInt : Severity → Int
  | .LOW => 1 | .MEDIUM => 2 | .HIGH => 3 | .CRITICAL => 4

/-- The struct `FraudEntry` (fraud_entry.h:36); `date_reported` is a time point in
seconds. -/
structure FraudEntry where
  id : Int
  identifier : Str
  description : Str
  fraud_type : FraudType
  platform : Platform
  severity : Severity
  evidence_path : Str
  reporter_name : Str
  date_reported : Int
  is_verified : Bool
  notes : Str

/-! ## `database.cpp` -/

/-- One row of the table `fraud_entries` (database.cpp:30); a nullable column is an
`Option`. -/
structure Row where
  id : Int
  identifier : Str
  description : Str
  fraud_type : Int
  platform : Int
  severity : Int
  evidence_path : Option Str
  evidence_blob : Option Bytes
  evidence_filename : Option Str
  evidence_mime_type : Option Str
  evidence_size : Option Int
  reporter_name : Option Str
  date_reported : Str
  is_verified : Option Int
  notes : Option Str
  deriving DecidableEq

/-- The state of a connected `Database`: the rows of `fraud_entries`, the largest id the
AUTOINCREMENT key has handed out, and `lastError_`. -/
structure Database where
  rows : List Row
  seq : Int
  lastError_ : Str
  deriving DecidableEq

/-- What SQLite does with one statement: it runs, or `sqlite3_prepare_v2` fails, or
`sqlite3_step` fails, each failure with its `sqlite3_errmsg`. -/
inductive SqlFault where
  | ok
  | prepare (errmsg : Str)
  | step (errmsg : Str)

/-- The database of a fresh file: an empty table. -/
def Database.empty : Database := { rows := [], seq := 0, lastError_ := [] }

/-- Function `Database::SetError` (database.cpp:641). -/
def Database.SetError (db : Database) (error : Str) : Database :=
  { db with lastError_ := error }

/-- The ceiling `50 * 1024 * 1024` of `ReadImageFile`. -/
def maxSize : Int := 50 * 1024 * 1024

/-- Function `Database::ReadImageFile` (database.cpp:56). -/
def ReadImageFile (h : Host) (fs : FileSystem) (filePath : Str) : Bytes :=
  match fs.file (c_str filePath) with
  | none => []
  | some contents =>
    let fileSize : Int := contents.length
    if fileSize > maxSize then []
    else if !h.readOk (c_str filePath) then []
    else contents

/-- Function `Database::GetMimeType` (database.cpp:293). -/
def GetMimeType (filename : Str) : Str :=
  let extension := Utils.GetFileExtension filename
  if extension = "jpg".toList ∨ extension = "jpeg".toList then "image/jpeg".toList
  else if extension = "png".toList then "image/png".toList
  else if extension = "gif".toList then "image/gif".toList
  else if extension = "bmp".toList then "image/bmp".toList
  else if extension = "tiff".toList ∨ extension = "tif".toList then "image/tiff".toList
  else if extension = "webp".toList then "image/webp".toList
  else if extension = "ico".toList then "image/x-icon".toList
  else "application/octet-stream".toList

/-- The cast `static_cast<int>` of a `size_t`: the value modulo 2^32, read as a signed
32-bit integer. -/
def static_cast_int (n : Nat) : Int :=
  if n % 2 ^ 32 < 2 ^ 31 then ((n % 2 ^ 32 : Nat) : Int) else ((n % 2 ^ 32 : Nat) : Int) - 2 ^ 32

/-- The values bound to the columns `evidence_blob`, `evidence_filename`,
`evidence_mime_type` and `evidence_size`. -/
structure Evidence where
  blob : Option Bytes
  filename : Option Str
  mime_type : Option Str
  size : Option Int

/-- The file name that ingestion computes and binds to `evidence_filename`
(database.cpp:124-126, 336-338): the text after the last slash or backslash of the evidence
path. -/
def storedFilename (evidence_path : Str) : Str :=
  match find_last_of evidence_path ['/', Char.ofNat 92] with
  | some lastSlash => substrFrom evidence_path (lastSlash + 1)
  | none => evidence_path

/-- The block "Handle image BLOB" of `AddEntry` (database.cpp:117-149) and of
`UpdateEntry` (database.cpp:330-356), which differ only in what they print. The blob is
bound with `SQLITE_TRANSIENT`, which copies it. The file name and the MIME type are
block-local strings bound with `SQLITE_STATIC` (database.cpp:125-131, 337-342) and
destroyed at the end of the block, before `sqlite3_step` (database.cpp:156, 363): the text
that is stored is what the host finds in their freed memory at the step. -/
def bindEvidence (h : Host) (fs : FileSystem) (evidence_path : Str) : Evidence :=
  if !evidence_path.isEmpty && Utils.FileExists fs evidence_path then
    let imageData := ReadImageFile h fs evidence_path
    if !imageData.isEmpty then
      let filename := storedFilename evidence_path
      let mimeType := GetMimeType evidence_path
      { blob := some (imageData.take (static_cast_int imageData.length).toNat)
        filename := some (h.freed (c_str filename))
        mime_type := some (h.freed (c_str mimeType))
        size := some (imageData.length : Int) }
    else { blob := none, filename := none, mime_type := none, size := none }
  else { blob := none, filename := none, mime_type := none, size := none }

/-- The row that the INSERT statement of `AddEntry` (database.cpp:95-154) adds: the next
id of the AUTOINCREMENT key and the bound values. The date is bound with `SQLITE_STATIC` to
the characters of the temporary that `TimeToString` returns (database.cpp:152), which is
destroyed before `sqlite3_step` (database.cpp:156). -/
def insertedRow (h : Host) (fs : FileSystem) (db : Database) (entry : FraudEntry) : Row :=
  { id := db.seq + 1
    identifier := c_str entry.identifier
    description := c_str entry.description
    fraud_type := entry.fraud_type.toInt
    platform := entry.platform.toInt
    severity := entry.severity.toInt
    evidence_path := some (c_str entry.evidence_path)
    evidence_blob := (bindEvidence h fs entry.evidence_path).blob
    evidence_filename := (bindEvidence h fs entry.evidence_path).filename
    evidence_mime_type := (bindEvidence h fs entry.evidence_path).mime_type
    evidence_size := (bindEvidence h fs entry.evidence_path).size
    reporter_name := some (c_str entry.reporter_name)
    date_reported := h.freed (c_str (h.localtimeText entry.date_reported))
    is_verified := some (if entry.is_verified then 1 else 0)
    notes := some (c_str entry.notes) }

/-- Function `Database::AddEntry` (database.cpp:94): the result and the database
afterwards. -/
def AddEntry (h : Host) (fs : FileSystem) (db : Database) (entry : FraudEntry)
    (fault : SqlFault) : Bool × Database :=
  match fault with
  | .prepare errmsg =>
    (false, db.SetError ("Failed to prepare statement: ".toList ++ errmsg))
  | .step errmsg => (false, db.SetError ("Failed to insert entry: ".toList ++ errmsg))
  | .ok =>
    (true, { db with rows := db.rows ++ [insertedRow h fs db entry], seq := db.seq + 1 })

/-- The assignment list of the UPDATE statement of `UpdateEntry` (database.cpp:309)
applied to one row. -/
def updateRow (ev : Evidence) (entry : FraudEntry) (r : Row) : Row :=
  { r with
    identifier := c_str entry.identifier
    description := c_str entry.description
    fraud_type := entry.fraud_type.toInt
    platform := entry.platform.toInt
    severity := entry.severity.toInt
    evidence_path := some (c_str entry.evidence_path)
    evidence_blob := ev.blob
    evidence_filename := ev.filename
    evidence_mime_type := ev.mime_type
    evidence_size := ev.size
    reporter_name := some (c_str entry.reporter_name)
    is_verified := some (if entry.is_verified then 1 else 0)
    notes := some (c_str entry.notes) }

/-- Function `Database::UpdateEntry` (database.cpp:307): the result and the database afterwards. -/
def UpdateEntry (h : Host) (fs : FileSystem) (db : Database) (id : Int) (entry : FraudEntry)
    (fault : SqlFault) : Bool × Database :=
  match fault with
  | .prepare errmsg =>
    (false, db.SetError ("Failed to prepare update statement: ".toList ++ errmsg))
  | .step errmsg => (false, db.SetError ("Failed to update entry: ".toList ++ errmsg))
  | .ok =>
    let ev := bindEvidence h fs entry.evidence_path
    let changes := (db.rows.filter (fun r => r.id == id)).length
    (decide (changes > 0),
      { db with rows := db.rows.map (fun r => if r.id == id then updateRow ev entry r else r) })

/-- Function `Database::DeleteEntry` (database.cpp:374): the result and the database afterwards. -/
def DeleteEntry (db : Database) (id : Int) (fault : SqlFault) : Bool × Database :=
  match fault with
  | .prepare errmsg =>
    (false, db.SetError ("Failed to prepare delete statement: ".toList ++ errmsg))
  | .step errmsg => (false, db.SetError ("Failed to delete entry: ".toList ++ errmsg))
  | .ok =>
    let changes := (db.rows.filter (fun r => r.id == id)).length
    (decide (changes > 0), { db with rows := db.rows.filter (fun r => !(r.id == id)) })

/-- The extension chosen from the stored MIME type (database.cpp:216-222). -/
def mimeExtension (mimeType : Str) : Str :=
  if mimeType = "image/jpeg".toList then ".jpg".toList
  else if mimeType = "image/png".toList then ".png".toList
  else if mimeType = "image/gif".toList then ".gif".toList
  else if mimeType = "image/bmp".toList then ".bmp".toList
  else if mimeType = "image/tiff".toList then ".tiff".toList
  else if mimeType = "image/webp".toList then ".webp".toList
  else ".bin".toList

/-- The file name `filename + extension` that `ExtractImageToTempFile` derives for an entry
from the C strings `filenamePtr` and `mimeTypePtr` of the stored file name and MIME type,
`none` being the null pointer (database.cpp:196-230). -/
def derivedName (entryId : Int) (filenamePtr mimeTypePtr : Option Str) : Str :=
  let fe : Str × Str :=
    match filenamePtr with
    | some fullFilename =>
      if fullFilename.length > 0 then
        match find_last_of fullFilename ['.'] with
        | some lastDot =>
          if lastDot > 0 then
            (Utils.SanitizeFilename (substr fullFilename 0 lastDot), substrFrom fullFilename lastDot)
          else (Utils.SanitizeFilename fullFilename, [])
        | none => (Utils.SanitizeFilename fullFilename, [])
      else ([], [])
    | none => ([], [])
  let filename := fe.1
  let extension := fe.2
  let extension :=
    if extension.isEmpty then
      match mimeTypePtr with
      | some mimeType => mimeExtension mimeType
      | none => ".bin".toList
    else extension
  let filename := if filename.isEmpty then "evidence_".toList ++ to_string entryId else filename
  filename ++ extension

/-- What `ExtractImageToTempFile` leaves behind: its result, the out-parameter
`tempFilePath`, the database and the file system. -/
structure Extracted where
  ok : Bool
  tempFilePath : Str
  db : Database
  fs : FileSystem

/-- Function `Database::ExtractImageToTempFile` (database.cpp:167); `now` is the clock read by
`GetUniqueFilename` and `tempFilePath` the caller's string. -/
def ExtractImageToTempFile (h : Host) (fs : FileSystem) (db : Database) (now : Int)
    (entryId : Int) (tempFilePath : Str) (fault : SqlFault) : Extracted :=
  match fault with
  | .prepare errmsg =>
    { ok := false, tempFilePath := tempFilePath, fs := fs
      db := db.SetError ("Failed to prepare extract statement: ".toList ++ errmsg) }
  | .step _ =>
    { ok := false, tempFilePath := tempFilePath, fs := fs
      db := db.SetError ("No BLOB data found for entry ID: ".toList ++ to_string entryId) }
  | .ok =>
    match db.rows.find? (fun r => r.id == entryId && r.evidence_blob.isSome) with
    | none =>
      { ok := false, tempFilePath := tempFilePath, fs := fs
        db := db.SetError ("No BLOB data found for entry ID: ".toList ++ to_string entryId) }
    | some r =>
      let blobData : Bytes := r.evidence_blob.getD []
      let blobSize : Int := blobData.length
      if blobSize > 0 then
        let tempDir := "temp_evidence".toList
        let made := Utils.CreateDirectoryIfNotExists h fs tempDir
        if !made.1 then
          { ok := false, tempFilePath := tempFilePath, fs := made.2
            db := db.SetError ("Failed to create temp directory: ".toList ++ tempDir) }
        else
          let fs := made.2
          let name := derivedName entryId (r.evidence_filename.map c_str) (r.evidence_mime_type.map c_str)
          let tempFilePath := tempDir ++ "/".toList ++ Utils.GetUniqueFilename fs now tempDir name
          if h.openOutOk (c_str tempFilePath) then
            let fs := fs.write (c_str tempFilePath) (h.disk (c_str tempFilePath) blobData)
            if Utils.GetFileSize fs tempFilePath = blobSize then
              { ok := true, tempFilePath := tempFilePath, fs := fs, db := db }
            else
              { ok := false, tempFilePath := tempFilePath, fs := fs.remove (c_str tempFilePath)
                db := db.SetError ("File size mismatch after writing: ".toList ++ tempFilePath) }
          else
            { ok := false, tempFilePath := tempFilePath, fs := fs
              db := db.SetError ("Failed to create temp file: ".toList ++ tempFilePath) }
      else
        { ok := false, tempFilePath := tempFilePath, fs := fs
          db := db.SetError ("Invalid BLOB data for entry ID: ".toList ++ to_string entryId) }

/-- The database states reachable from the empty table by `AddEntry`, `UpdateEntry` and
`DeleteEntry`, whatever the host, the file system, the arguments and SQLite do. -/
inductive Reachable : Database → Prop where
  | empty : Reachable Database.empty
  | add (h : Host) (fs : FileSystem) (db : Database) (entry : FraudEntry) (fault : SqlFault) :
      Reachable db → Reachable (AddEntry h fs db entry fault).2
  | update (h : Host) (fs : FileSystem) (db : Database) (id : Int) (entry : FraudEntry)
      (fault : SqlFault) : Reachable db → Reachable (UpdateEntry h fs db id entry fault).2
  | delete (db : Database) (id : Int) (fault : SqlFault) :
      Reachable db → Reachable (DeleteEntry db id fault).2

/-! ## Vocabulary of the theorems -/

/-- All four evidence columns of a row are null. -/
def Row.noEvidence (r : Row) : Prop :=
  r.evidence_blob = none ∧ r.evidence_filename = none ∧ r.evidence_mime_type = none ∧
    r.evidence_size = none

/-- All four evidence columns of a row hold a value. -/
def Row.fullEvidence (r : Row) : Prop :=
  r.evidence_blob ≠ none ∧ r.evidence_filename ≠ none ∧ r.evidence_mime_type ≠ none ∧
    r.evidence_size ≠ none

/-- A row whose evidence columns are all null, or hold a non-empty blob of at most 50 MiB,
its length, a file name and a MIME type. -/
def Row.sound (r : Row) : Prop :=
  r.noEvidence ∨
    ∃ P : Bytes, r.evidence_blob = some P ∧ P ≠ [] ∧ (P.length : Int) ≤ maxSize ∧
      r.evidence_size = some (P.length : Int) ∧ r.evidence_filename ≠ none ∧
      r.evidence_mime_type ≠ none

/-- A host on which nothing fails. -/
def steadyHost : Host :=
  { mkdirOk := fun _ => true
    openOutOk := fun _ => true
    readOk := fun _ => true
    disk := fun _ data => data
    localtimeText := fun _ => "2025-10-30 12:00:00".toList
    insertOk := fun _ _ => true
    freed := fun text => text }

/-- An entry with the given evidence path. -/
def sampleEntry (evidence_path : Str) : FraudEntry :=
  { id := 0
    identifier := "scammer#1".toList
    description := "fake shop".toList
    fraud_type := FraudType.SCAM
    platform := Platform.DISCORD
    severity := Severity.HIGH
    evidence_path := evidence_path
    reporter_name := "op".toList
    date_reported := 1761800000
    is_verified := false
    notes := [] }

/-- A file system whose only file is `photo.png`, with the given contents. -/
def photoFs (contents : Bytes) : FileSystem :=
  { file := fun p => if p = "photo.png".toList then some contents else none
    isDir := fun _ => false }

/-! ## Vocabulary of the naming and MIME theorems -/

namespace Utils

/-- Function `Utils::ToLowerCase` (utils.cpp:48). -/
def ToLowerCase (str : Str) : Str := str.map tolower

/-- A file system in which `temp_evidence` holds exactly `photo.png`. -/
def tempPhotoFs : FileSystem :=
  { file := fun p => if p = "temp_evidence/photo.png".toList then some [] else none
    isDir := fun p => p == "temp_evidence".toList }

end Utils

/-- The pair `(filename, extension)` that `ExtractImageToTempFile` computes from the stored
file name before its fallbacks (database.cpp:196-211). -/
def nameParts (filenamePtr : Option Str) : Str × Str :=
  match filenamePtr with
  | some fullFilename =>
    if fullFilename.length > 0 then
      match find_last_of fullFilename ['.'] with
      | some lastDot =>
        if lastDot > 0 then
          (Utils.SanitizeFilename (substr fullFilename 0 lastDot), substrFrom fullFilename lastDot)
        else (Utils.SanitizeFilename fullFilename, [])
      | none => (Utils.SanitizeFilename fullFilename, [])
    else ([], [])
  | none => ([], [])

/-- The extension that `ExtractImageToTempFile` derives from the stored MIME type when the
file name gave none (database.cpp:214-225). -/
def mimeFallback (mimeTypePtr : Option Str) : Str :=
  match mimeTypePtr with
  | some mimeType => mimeExtension mimeType
  | none => ".bin".toList

/-- The stem of the derived name: the sanitized name, or `evidence_<entryId>` when there is
none (database.cpp:228-230). -/
def derivedStem (entryId : Int) (filenamePtr : Option Str) : Str :=
  if (nameParts filenamePtr).1.isEmpty then "evidence_".toList ++ to_string entryId
  else (nameParts filenamePtr).1

/-- The extension of the derived name: the one of the file name, or the one from the MIME
type. -/
def derivedExtension (filenamePtr mimeTypePtr : Option Str) : Str :=
  if (nameParts filenamePtr).2.isEmpty then mimeFallback mimeTypePtr
  else (nameParts filenamePtr).2

/-- The MIME types that the fallback of `ExtractImageToTempFile` recognises. -/
def recognisedMimes : List Str :=
  ["image/jpeg".toList, "image/png".toList, "image/gif".toList, "image/bmp".toList,
    "image/tiff".toList, "image/webp".toList]

/-- The text after the last dot of a file name, in the words of the specification: the
longest dot-free end of the name, and nothing when the name has no dot. -/
def afterLastDot (filename : Str) : Str :=
  if '.' ∈ filename then (filename.reverse.takeWhile (fun c => c != '.')).reverse else []

/-- The fixed table of the specification, extension to MIME type. -/
def specMimeTable : List (Str × Str) :=
  [("jpg".toList, "image/jpeg".toList), ("jpeg".toList, "image/jpeg".toList),
    ("png".toList, "image/png".toList), ("gif".toList, "image/gif".toList),
    ("bmp".toList, "image/bmp".toList), ("tiff".toList, "image/tiff".toList),
    ("tif".toList, "image/tiff".toList), ("webp".toList, "image/webp".toList),
    ("ico".toList, "image/x-icon".toList)]

/-- The lookup of the specification: the table entry of an extension, and
`application/octet-stream` for an extension that has none. -/
def specMime (extension : Str) : Str :=
  match specMimeTable.find? (fun p => p.1 == extension) with
  | some p => p.2
  | none => "application/octet-stream".toList

/-- A host whose disk keeps only the first byte of what is written. -/
def faultyDiskHost : Host :=
  { mkdirOk := fun _ => true
    openOutOk := fun _ => true
    readOk := fun _ => true
    disk := fun _ data => data.take 1
    localtimeText := fun _ => "2025-10-30 12:00:00".toList
    insertOk := fun _ _ => true
    freed := fun text => text }

/-- A file system whose only file is named `.ico`. -/
def icoFs : FileSystem :=
  { file := fun p => if p = ".ico".toList then some [0, 0, 1, 0] else none
    isDir := fun _ => false }

/-- A row with the given id, blob, stored file name and stored MIME type. -/
def evidenceRow (id : Int) (blob : Option Bytes) (filename mime_type : Option Str) : Row :=
  { id := id
    identifier := "scammer#1".toList
    description := "fake shop".toList
    fraud_type := 1
    platform := 1
    severity := 3
    evidence_path := some []
    evidence_blob := blob
    evidence_filename := filename
    evidence_mime_type := mime_type
    evidence_size := blob.map (fun b => (b.length : Int))
    reporter_name := some []
    date_reported := "2025-10-30 12:00:00".toList
    is_verified := some 0
    notes := some [] }

/-- A table whose only entry, 7, carries a three-byte blob named `scan` of type
`image/png`. -/
def scanDb : Database :=
  { rows := [evidenceRow 7 (some [1, 2, 3]) (some "scan".toList) (some "image/png".toList)]
    seq := 7
    lastError_ := [] }

/-! ## Export, queries and input checks -/

namespace Utils

/-- Function `Utils::CopyFile` (utils.cpp:406). The destination is truncated when its
stream opens, before the source is read; the result is the state of the destination stream
after `dst << src.rdbuf()` (utils.cpp:413-414), which has failed when the source delivered
no character and when the write failed during the copy. What the file holds afterwards is
what the disk kept, whatever the result. -/
def CopyFile (h : Host) (fs : FileSystem) (source destination : Str) : Bool × FileSystem :=
  match fs.file (c_str source) with
  | none => (false, fs)
  | some _ =>
    if h.openOutOk (c_str destination) then
      let fs := fs.write (c_str destination) []
      let data : Bytes :=
        if h.readOk (c_str source) then (fs.file (c_str source)).getD [] else []
      if data.isEmpty then (false, fs)
      else
        (h.insertOk (c_str destination) data,
          fs.write (c_str destination) (h.disk (c_str destination) data))
    else (false, fs)

/-- The function `std::isdigit` in the C locale. -/
def isdigit (c : Char) : Bool := 48 ≤ c.toNat && c.toNat ≤ 57

/-- The loop `for (size_t i = start; i < str.length(); ++i)` of `IsNumber`, from `i` on
with `fuel` iterations left. -/
def digitsLoop (str : Str) : Nat → Nat → Bool
  | _, 0 => true
  | i, fuel + 1 =>
    if i < str.length then
      if !isdigit (str.getD i (Char.ofNat 0)) then false else digitsLoop str (i + 1) fuel
    else true

/-- Function `Utils::IsNumber` (utils.cpp:54); the loop runs at most once per character. -/
def IsNumber (str : Str) : Bool :=
  if str.isEmpty then false
  else
    let start : Nat := if str.head? = some '-' then 1 else 0
    digitsLoop str start str.length

end Utils

/-- The cast `static_cast<FraudType>` of a code from 1 to 7 (`IntToFraudType` casts no
other value). -/
def castFraudType (value : Int) : FraudType :=
  if value = 1 then .SCAM else if value = 2 then .PHISHING
  else if value = 3 then .IDENTITY_THEFT else if value = 4 then .INVESTMENT_FRAUD
  else if value = 5 then .ROMANCE_SCAM else if value = 6 then .TECH_SUPPORT_SCAM
  else .OTHER

/-- The cast `static_cast<Platform>` of a code from 1 to 8 (`IntToPlatform` casts no other
value). -/
def castPlatform (value : Int) : Platform :=
  if value = 1 then .DISCORD else if value = 2 then .TELEGRAM
  else if value = 3 then .WHATSAPP else if value = 4 then .EMAIL
  else if value = 5 then .PHONE else if value = 6 then .WEBSITE
  else if value = 7 then .SOCIAL_MEDIA else .OTHER

/-- The cast `static_cast<Severity>` of a code from 1 to 4 (`IntToSeverity` casts no other
value). -/
def castSeverity (value : Int) : Severity :=
  if value = 1 then .LOW else if value = 2 then .MEDIUM
  else if value = 3 then .HIGH else .CRITICAL

/-- Function `FraudEntry::IntToFraudType` (fraud_entry.cpp:48). -/
def IntToFraudType (value : Int) : FraudType :=
  if value ≥ 1 ∧ value ≤ 7 then castFraudType value else .OTHER

/-- Function `FraudEntry::IntToPlatform` (fraud_entry.cpp:55). -/
def IntToPlatform (value : Int) : Platform :=
  if value ≥ 1 ∧ value ≤ 8 then castPlatform value else .OTHER

/-- Function `FraudEntry::IntToSeverity` (fraud_entry.cpp:62). -/
def IntToSeverity (value : Int) : Severity :=
  if value ≥ 1 ∧ value ≤ 4 then castSeverity value else .LOW

/-- Function `Database::RowToFraudEntry` (database.cpp:611) on a row of the result; `now`
is the value of `Utils::Now()`. The column `date_reported` is never null, so the entry
always gets `now`. -/
def RowToFraudEntry (now : Int) (r : Row) : FraudEntry :=
  { id := r.id
    identifier := c_str r.identifier
    description := c_str r.description
    fraud_type := IntToFraudType r.fraud_type
    platform := IntToPlatform r.platform
    severity := IntToSeverity r.severity
    evidence_path := (r.evidence_path.map c_str).getD []
    reporter_name := (r.reporter_name.map c_str).getD []
    date_reported := now
    is_verified := decide (r.is_verified.getD 0 ≠ 0)
    notes := (r.notes.map c_str).getD [] }

/-- Function `Database::GetEntryById` (database.cpp:396): the entry, when there is one,
and the database afterwards. -/
def GetEntryById (db : Database) (now : Int) (id : Int) (fault : SqlFault) :
    Option FraudEntry × Database :=
  match fault with
  | .prepare errmsg =>
    (none, db.SetError ("Failed to prepare select statement: ".toList ++ errmsg))
  | .step _ => (none, db)
  | .ok => ((db.rows.find? (fun r => r.id == id)).map (RowToFraudEntry now), db)

/-- Function `Database::HasEmbeddedImage` (database.cpp:262). -/
def HasEmbeddedImage (db : Database) (entryId : Int) (fault : SqlFault) : Bool :=
  match fault with
  | .prepare _ => false
  | .step _ => false
  | .ok => (db.rows.find? (fun r => r.id == entryId && r.evidence_blob.isSome)).isSome

/-- What `ExportEmbeddedImage` leaves behind: its result, the database and the file
system. -/
structure Exported where
  ok : Bool
  db : Database
  fs : FileSystem

/-- Function `Database::ExportEmbeddedImage` (database.cpp:277). -/
def ExportEmbeddedImage (h : Host) (fs : FileSystem) (db : Database) (now : Int)
    (entryId : Int) (outputPath : Str) (fault : SqlFault) : Exported :=
  let x := ExtractImageToTempFile h fs db now entryId [] fault
  if x.ok then
    let copied := Utils.CopyFile h x.fs x.tempFilePath outputPath
    if copied.1 then
      { ok := true, db := x.db, fs := copied.2.remove (c_str x.tempFilePath) }
    else
      { ok := false
        db := x.db.SetError ("Failed to copy extracted image to: ".toList ++ outputPath)
        fs := copied.2.remove (c_str x.tempFilePath) }
  else { ok := false, db := x.db, fs := x.fs }

/-- A host whose disk keeps only the first byte of what is written to `out.png` and
everything of what is written elsewhere. The bytes inserted into a stream reach its buffer,
so the stream stays good; the loss happens when the stream is closed. -/
def shortOutputHost : Host :=
  { mkdirOk := fun _ => true
    openOutOk := fun _ => true
    readOk := fun _ => true
    disk := fun p data => if p = "out.png".toList then data.take 1 else data
    localtimeText := fun _ => "2025-10-30 12:00:00".toList
    insertOk := fun _ _ => true
    freed := fun text => text }

/-- A host on which every write to `out.png` fails during the copy and leaves the file
empty. -/
def fullDeviceHost : Host :=
  { mkdirOk := fun _ => true
    openOutOk := fun _ => true
    readOk := fun _ => true
    disk := fun p data => if p = "out.png".toList then [] else data
    localtimeText := fun _ => "2025-10-30 12:00:00".toList
    insertOk := fun p _ => !(p == "out.png".toList)
    freed := fun text => text }

/-- A host on which the memory of a destroyed string that held `photo.png` holds the nine
characters `x.y/photo` by the time `sqlite3_step` reads it, and on which nothing else
fails. -/
def reusedMemoryHost : Host :=
  { mkdirOk := fun _ => true
    openOutOk := fun _ => true
    readOk := fun _ => true
    disk := fun _ data => data
    localtimeText := fun _ => "2025-10-30 12:00:00".toList
    insertOk := fun _ _ => true
    freed := fun text => if text = "photo.png".toList then "x.y/photo".toList else text }

/-- A file system whose only file is `scans/photo.png`, with the given contents. -/
def scansFs (data : Bytes) : FileSystem :=
  { file := fun p => if p = "scans/photo.png".toList then some data else none
    isDir := fun _ => false }

/-- A character that is neither one of `<>:"/\|?*` nor a control character. -/
def safeChar (c : Char) : Prop := Utils.isInvalid c = false ∧ iscntrl c = false

/-- A character that is neither a slash nor a backslash. -/
def notSeparator (c : Char) : Prop := c ≠ '/' ∧ c ≠ Char.ofNat 92

/-- A well-formed decimal integer in the words of the specification: an optional leading
minus sign followed by one or more decimal digits. -/
def wellFormedInteger (s : Str) : Prop :=
  ∃ digits : Str, digits ≠ [] ∧ (∀ c ∈ digits, Utils.isdigit c = true) ∧
    (s = digits ∨ s = '-' :: digits)

end FraudFinder
namespace FraudFinder

/-! ## Positions in strings -/

theorem findFirst_eq_none {p : Char → Bool} {s : Str} :
    findFirst p s = none ↔ ∀ c ∈ s, p c = false := by
  induction s with
  | nil => simp [findFirst]
  | cons a t ih =>
    by_cases ha : p a = true
    · simp [findFirst, ha]
    · simp [findFirst, ha, ih]

theorem findFirst_drop {p : Char → Bool} {s : Str} {i : Nat} (h : findFirst p s = some i) :
    s.drop i = s.dropWhile (fun c => !p c) ∧ i ≤ s.length := by
  induction s generalizing i with
  | nil => simp [findFirst] at h
  | cons a t ih =>
    by_cases ha : p a = true
    · simp [findFirst, ha] at h
      subst h
      simp [List.dropWhile, ha]
    · simp only [findFirst, ha] at h
      cases hf : findFirst p t with
      | none => simp [hf] at h
      | some j =>
        simp [hf] at h
        subst h
        have := ih hf
        simp [List.dropWhile, ha, this.1, this.2]

theorem findLast_eq_none {p : Char → Bool} {s : Str} :
    findLast p s = none ↔ ∀ c ∈ s, p c = false := by
  induction s with
  | nil => simp [findLast]
  | cons a t ih =>
    cases hf : findLast p t with
    | some j =>
      have : ¬ ∀ c ∈ t, p c = false := fun hall => by simp [ih.2 hall] at hf
      simp only [findLast, hf]
      constructor
      · intro h; cases h
      · intro h; exact absurd (fun c hc => h c (List.mem_cons_of_mem _ hc)) this
    | none =>
      have hall := ih.1 hf
      by_cases ha : p a = true
      · simp [findLast, hf, ha]
      · simp [findLast, hf, ha]; exact hall

theorem findLast_append_some {p : Char → Bool} (a : Str) {b : Str} {e : Nat}
    (h : findLast p b = some e) : findLast p (a ++ b) = some (e + a.length) := by
  induction a with
  | nil => simpa using h
  | cons x t ih => simp [findLast, ih]; omega

theorem findLast_concat (p : Char → Bool) (l : Str) (a : Char) :
    findLast p (l ++ [a]) = if p a then some l.length else findLast p l := by
  induction l with
  | nil => by_cases ha : p a = true <;> simp [findLast, ha]
  | cons x t ih =>
    by_cases ha : p a = true
    · simp [findLast, ih, ha]
    · simp [findLast, ih, ha]

theorem findLast_take {p : Char → Bool} {s : Str} {e : Nat} (h : findLast p s = some e) :
    s.take (e + 1) = s.rdropWhile (fun c => !p c) ∧ e < s.length := by
  induction s using List.reverseRecOn generalizing e with
  | nil => simp [findLast] at h
  | append_singleton l a ih =>
    rw [findLast_concat] at h
    by_cases ha : p a = true
    · simp [ha] at h
      subst h
      rw [List.rdropWhile_concat_neg _ _ _ (by simp [ha])]
      simp
    · simp [ha] at h
      have := ih h
      rw [List.rdropWhile_concat_pos _ _ _ (by simp [ha])]
      rw [← this.1]
      refine ⟨?_, by simp; omega⟩
      rw [List.take_append_of_le_length (by omega)]

end FraudFinder

namespace FraudFinder
namespace Utils

/-! ## `Trim` -/

theorem Trim_eq (s : Str) : Trim s = (s.dropWhile isSpace).rdropWhile isSpace := by
  have hq : (fun c => !(fun c => !whitespace.contains c) c) = isSpace := by
    funext c; simp [isSpace]
  unfold Trim find_first_not_of find_last_not_of
  cases hf : findFirst (fun c => !whitespace.contains c) s with
  | none =>
    have hall := findFirst_eq_none.1 hf
    have : s.dropWhile isSpace = [] := by
      rw [List.dropWhile_eq_nil_iff]
      intro x hx; simpa [isSpace] using hall x hx
    simp [this]
  | some start =>
    obtain ⟨hdrop, hle⟩ := findFirst_drop hf
    rw [hq] at hdrop
    have hne : s.dropWhile isSpace ≠ [] := by
      intro h0
      rw [List.dropWhile_eq_nil_iff] at h0
      have : findFirst (fun c => !whitespace.contains c) s = none :=
        findFirst_eq_none.2 (fun c hc => by simpa [isSpace] using h0 c hc)
      rw [this] at hf; cases hf
    have hlast : ∃ e, findLast (fun c => !whitespace.contains c) (s.dropWhile isSpace) = some e := by
      cases hl : findLast (fun c => !whitespace.contains c) (s.dropWhile isSpace) with
      | some e => exact ⟨e, rfl⟩
      | none =>
        exfalso
        have hall := findLast_eq_none.1 hl
        have h0 := List.head_dropWhile_not isSpace s hne
        have := hall _ (List.head_mem hne)
        simp [isSpace] at this h0
        exact h0 this
    obtain ⟨e, he⟩ := hlast
    have hs : s = s.take start ++ s.dropWhile isSpace := by
      rw [← hdrop, List.take_append_drop]
    have hfl : findLast (fun c => !whitespace.contains c) s = some (e + start) := by
      have := findLast_append_some (s.take start) he
      rw [← hs] at this
      simpa [Nat.min_eq_left hle] using this
    rw [hfl]
    obtain ⟨htake, _⟩ := findLast_take he
    rw [hq] at htake
    simp only [substr]
    rw [hdrop, ← htake]
    congr 1
    omega

theorem Trim_length_le (s : Str) : (Trim s).length ≤ s.length := by
  rw [Trim_eq]
  exact le_trans ( List.rdropWhile_prefix _ _).length_le (List.dropWhile_sublist _).length_le

theorem mem_of_mem_Trim {s : Str} {c : Char} (h : c ∈ Trim s) : c ∈ s := by
  rw [Trim_eq] at h
  exact (List.dropWhile_sublist _).subset (( List.rdropWhile_prefix _ _).subset h)

/-! ## `SanitizeFilename`: the stages -/

theorem foldl_replace (set : Str) (new : Char) (s : Str) :
    set.foldl (fun s c => replace s c new) s = s.map (fun c => if set.contains c then new else c) := by
  induction set generalizing s with
  | nil => simp
  | cons a t ih =>
    rw [List.foldl_cons, ih]
    simp only [replace, List.map_map]
    apply List.map_congr_left
    intro c _
    by_cases hca : c = a
    · subst hca; simp
    · have hac : ¬ a = c := fun h => hca h.symm
      simp [hca, List.contains_cons]

theorem stripLeadingDots_eq (fuel : Nat) (s : Str) (h : s.length ≤ fuel) :
    stripLeadingDots fuel s = s.dropWhile isDot := by
  induction fuel generalizing s with
  | zero =>
    have : s = [] := List.length_eq_zero.1 (Nat.le_zero.1 h)
    subst this; simp [stripLeadingDots]
  | succ n ih =>
    cases s with
    | nil => simp [stripLeadingDots]
    | cons c cs =>
      by_cases hc : c = '.'
      · simp [stripLeadingDots, hc, List.dropWhile, isDot]
        exact ih cs (by simpa using h)
      · rw [List.dropWhile_cons_of_neg (by simp [isDot, hc])]
        simp [stripLeadingDots, hc]

theorem stripTrailingDots_eq (fuel : Nat) (s : Str) (h : s.length ≤ fuel) :
    stripTrailingDots fuel s = s.rdropWhile isDot := by
  induction fuel generalizing s with
  | zero =>
    have : s = [] := List.length_eq_zero.1 (Nat.le_zero.1 h)
    subst this; simp [stripTrailingDots]
  | succ n ih =>
    induction s using List.reverseRecOn with
    | nil => simp [stripTrailingDots]
    | append_singleton l a _ =>
      by_cases ha : a = '.'
      · subst ha
        have hl : (l ++ ['.']).getLast? = some '.' := by simp
        simp only [stripTrailingDots, hl, if_true, List.dropLast_concat]
        rw [List.rdropWhile_concat_pos _ _ _ (by simp [isDot])]
        exact ih l (by simp at h; omega)
      · have hl : ¬ ((l ++ [a]).getLast? = some '.') := by simpa using ha
        simp only [stripTrailingDots, hl, if_false]
        rw [List.rdropWhile_concat_neg _ _ _ (by simp [isDot, ha])]

theorem SanitizeFilename_eq (x : Str) :
    SanitizeFilename x = orUnnamed (stripDots (cut200 (orUnnamed (Trim (cleaned x))))) := by
  have h1 : invalidChars.foldl (fun s c => replace s c '_') x = x.map scrub := by
    rw [foldl_replace]; rfl
  unfold SanitizeFilename
  simp only [h1]
  rw [stripTrailingDots_eq _ _ le_rfl, stripLeadingDots_eq _ _ le_rfl]
  simp [orUnnamed, cut200, stripDots, cleaned, substr]

/-! ## Dropping from both ends -/

theorem dropWhile_of_head {p : Char → Bool} {s : Str}
    (h : ∀ c, s.head? = some c → p c = false) : s.dropWhile p = s := by
  cases s with
  | nil => rfl
  | cons a t => exact List.dropWhile_cons_of_neg (by simp [h a rfl])

theorem rdropWhile_of_last {p : Char → Bool} {s : Str}
    (h : ∀ c, s.getLast? = some c → p c = false) : s.rdropWhile p = s := by
  induction s using List.reverseRecOn with
  | nil => simp
  | append_singleton l a _ =>
    exact List.rdropWhile_concat_neg _ _ _ (by simp [h a (by simp)])

theorem head?_dropWhile_false (p : Char → Bool) (s : Str) :
    ∀ c, (s.dropWhile p).head? = some c → p c = false := by
  intro c hc
  have := List.head?_dropWhile_not p s
  rw [hc] at this
  exact this

theorem getLast?_rdropWhile_false (p : Char → Bool) (s : Str) :
    ∀ c, (s.rdropWhile p).getLast? = some c → p c = false := by
  intro c hc
  induction s using List.reverseRecOn with
  | nil => simp at hc
  | append_singleton l a ih =>
    by_cases ha : p a = true
    · rw [List.rdropWhile_concat_pos _ _ _ ha] at hc
      exact ih hc
    · rw [List.rdropWhile_concat_neg _ _ _ ha] at hc
      simp at hc
      subst hc
      simpa using ha

theorem head?_eq_of_initial {l₁ l₂ : Str} (h : l₁ <+: l₂) (hne : l₁ ≠ []) :
    l₁.head? = l₂.head? := by
  obtain ⟨t, rfl⟩ := h
  cases l₁ with
  | nil => exact absurd rfl hne
  | cons a u => rfl

theorem getLast?_eq_of_final {l₁ l₂ : Str} (h : l₁ <:+ l₂) (hne : l₁ ≠ []) :
    l₁.getLast? = l₂.getLast? := by
  obtain ⟨t, rfl⟩ := h
  rw [List.getLast?_append_of_ne_nil _ hne]

theorem stripDots_length_le (s : Str) : (stripDots s).length ≤ s.length :=
  le_trans ( List.rdropWhile_prefix _ _).length_le (List.dropWhile_sublist _).length_le

theorem mem_of_mem_stripDots {s : Str} {c : Char} (h : c ∈ stripDots s) : c ∈ s :=
  (List.dropWhile_sublist _).subset (( List.rdropWhile_prefix _ _).subset h)

theorem stripDots_head (s : Str) : (stripDots s).head? ≠ some '.' := by
  intro h
  have hne : stripDots s ≠ [] := by intro h0; rw [h0] at h; cases h
  have h1 := head?_eq_of_initial ( List.rdropWhile_prefix isDot (s.dropWhile isDot)) hne
  have := head?_dropWhile_false isDot s '.' (by rw [← h1]; exact h)
  simp [isDot] at this

theorem stripDots_last (s : Str) : (stripDots s).getLast? ≠ some '.' := by
  intro h
  have := getLast?_rdropWhile_false isDot (s.dropWhile isDot) '.' h
  simp [isDot] at this

theorem stripDots_of_ends {s : Str} (hh : s.head? ≠ some '.') (hl : s.getLast? ≠ some '.') :
    stripDots s = s := by
  unfold stripDots
  rw [dropWhile_of_head, rdropWhile_of_last]
  · intro c hc
    by_cases h : c = '.'
    · subst h; exact absurd hc hl
    · simp [isDot, h]
  · intro c hc
    by_cases h : c = '.'
    · subst h; exact absurd hc hh
    · simp [isDot, h]

theorem stripDots_of_all_dots {s : Str} (h : ∀ c ∈ s, c = '.') : stripDots s = [] := by
  unfold stripDots
  have : s.dropWhile isDot = [] := by
    rw [List.dropWhile_eq_nil_iff]
    intro x hx; simp [isDot, h x hx]
  simp [this]

theorem all_dots_of_stripDots_nil {s : Str} (h : stripDots s = []) : ∀ c ∈ s, c = '.' := by
  unfold stripDots at h
  rw [List.rdropWhile_eq_nil_iff] at h
  by_cases h0 : s.dropWhile isDot = []
  · rw [List.dropWhile_eq_nil_iff] at h0
    intro c hc; simpa [isDot] using h0 c hc
  · exfalso
    have h1 := List.head_dropWhile_not isDot s h0
    have h2 := h _ (List.head_mem h0)
    simp [h2] at h1

theorem Trim_of_ends {s : Str} (hh : ∀ c, s.head? = some c → isSpace c = false)
    (hl : ∀ c, s.getLast? = some c → isSpace c = false) : Trim s = s := by
  rw [Trim_eq, dropWhile_of_head hh, rdropWhile_of_last hl]

theorem Trim_length_lt {s : Str} {c : Char} (hc : isSpace c = true)
    (h : s.head? = some c ∨ s.getLast? = some c) : (Trim s).length < s.length := by
  rw [Trim_eq]
  have hpre := ( List.rdropWhile_prefix isSpace (s.dropWhile isSpace)).length_le
  rcases h with h | h
  · cases s with
    | nil => cases h
    | cons a t =>
      simp at h
      subst h
      rw [List.dropWhile_cons_of_pos hc] at hpre ⊢
      have := (List.dropWhile_sublist isSpace (l := t)).length_le
      simp; omega
  · by_cases h0 : s.dropWhile isSpace = []
    · have hs : s ≠ [] := by intro h1; rw [h1] at h; cases h
      rw [h0]
      simpa using List.length_pos.2 hs
    · have hsuf := List.dropWhile_suffix (l := s) isSpace
      have hlast := getLast?_eq_of_final hsuf h0
      rw [h] at hlast
      have hlen := (List.dropWhile_sublist isSpace (l := s)).length_le
      have hlt : ((s.dropWhile isSpace).rdropWhile isSpace).length < (s.dropWhile isSpace).length := by
        generalize s.dropWhile isSpace = v at hlast h0
        induction v using List.reverseRecOn with
        | nil => exact absurd rfl h0
        | append_singleton l a _ =>
          simp at hlast
          subst hlast
          rw [List.rdropWhile_concat_pos _ _ _ hc]
          have := ( List.rdropWhile_prefix isSpace l).length_le
          simp; omega
      omega

/-! ## `SanitizeFilename`: what the result looks like -/

theorem isSpace_cases {c : Char} (h : isSpace c = true) : c = ' ' ∨ iscntrl c = true := by
  simp only [isSpace, whitespace, List.contains_cons, List.contains_nil, Bool.or_false,
    Bool.or_eq_true, beq_iff_eq] at h
  rcases h with h | h | h | h | h | h
  · exact Or.inl h
  all_goals (subst h; exact Or.inr (by decide))

theorem unnamed_file_good : ∀ c ∈ unnamed_file, isInvalid c = false ∧ iscntrl c = false := by
  decide

theorem scrub_good (a : Char) : isInvalid (scrub a) = false := by
  unfold scrub
  by_cases h : isInvalid a = true
  · rw [if_pos h]; decide
  · rw [if_neg h]; simpa using h

theorem cleaned_good {x : Str} {c : Char} (h : c ∈ cleaned x) :
    isInvalid c = false ∧ iscntrl c = false := by
  simp only [cleaned, List.mem_filter, List.mem_map] at h
  obtain ⟨⟨a, _, rfl⟩, h2⟩ := h
  exact ⟨scrub_good a, by simpa using h2⟩

theorem cleaned_of_good {y : Str} (h : ∀ c ∈ y, isInvalid c = false ∧ iscntrl c = false) :
    cleaned y = y := by
  have h1 : y.map scrub = y := by
    conv_rhs => rw [← List.map_id y]
    apply List.map_congr_left
    intro c hc
    simp [scrub, (h c hc).1]
  unfold cleaned
  rw [h1, List.filter_eq_self]
  intro c hc
  simp [(h c hc).2]

theorem mem_orUnnamed {s : Str} {c : Char} (h : c ∈ orUnnamed s) : c ∈ unnamed_file ∨ c ∈ s := by
  unfold orUnnamed at h
  split at h
  · exact Or.inl h
  · exact Or.inr h

theorem mem_of_mem_cut200 {s : Str} {c : Char} (h : c ∈ cut200 s) : c ∈ s := by
  unfold cut200 at h
  split at h
  · exact List.mem_of_mem_take h
  · exact h

theorem cut200_length (s : Str) : (cut200 s).length ≤ 200 ∧ (cut200 s).length ≤ s.length := by
  unfold cut200
  split
  · simp
  · omega

theorem SanitizeFilename_good {x : Str} {c : Char} (h : c ∈ SanitizeFilename x) :
    isInvalid c = false ∧ iscntrl c = false := by
  rw [SanitizeFilename_eq] at h
  rcases mem_orUnnamed h with h | h
  · exact unnamed_file_good c h
  · rcases mem_orUnnamed (mem_of_mem_cut200 (mem_of_mem_stripDots h)) with h | h
    · exact unnamed_file_good c h
    · exact cleaned_good (mem_of_mem_Trim h)

theorem SanitizeFilename_cases (x : Str) :
    SanitizeFilename x = unnamed_file ∨
      (SanitizeFilename x = stripDots (cut200 (orUnnamed (Trim (cleaned x)))) ∧
        stripDots (cut200 (orUnnamed (Trim (cleaned x)))) ≠ []) := by
  rw [SanitizeFilename_eq]
  generalize stripDots (cut200 (orUnnamed (Trim (cleaned x)))) = v
  cases v with
  | nil => left; rfl
  | cons a t => right; exact ⟨rfl, by simp⟩

theorem SanitizeFilename_of_ends (x : Str) (hne : cleaned x ≠ [])
    (hlen : (cleaned x).length ≤ 200)
    (hh : ∀ c, (cleaned x).head? = some c → isSpace c = false ∧ c ≠ '.')
    (hl : ∀ c, (cleaned x).getLast? = some c → isSpace c = false ∧ c ≠ '.') :
    SanitizeFilename x = cleaned x := by
  rw [SanitizeFilename_eq, Trim_of_ends (fun c hc => (hh c hc).1) (fun c hc => (hl c hc).1)]
  have h1 : orUnnamed (cleaned x) = cleaned x := by
    unfold orUnnamed; rw [if_neg]; simpa using hne
  have h2 : cut200 (cleaned x) = cleaned x := by
    unfold cut200; rw [if_neg]; omega
  have h3 : stripDots (cleaned x) = cleaned x :=
    stripDots_of_ends (fun h => (hh _ h).2 rfl) (fun h => (hl _ h).2 rfl)
  rw [h1, h2, h3, h1]

theorem SanitizeFilename_ne_nil (x : Str) : SanitizeFilename x ≠ [] := by
  rcases SanitizeFilename_cases x with h | ⟨h, hne⟩
  · rw [h]; decide
  · rw [h]; exact hne

theorem SanitizeFilename_length_le (x : Str) : (SanitizeFilename x).length ≤ 200 := by
  rcases SanitizeFilename_cases x with h | ⟨h, _⟩
  · rw [h]; decide
  · rw [h]
    exact le_trans (stripDots_length_le _) (cut200_length _).1

theorem SanitizeFilename_head (x : Str) : (SanitizeFilename x).head? ≠ some '.' := by
  rcases SanitizeFilename_cases x with h | ⟨h, _⟩
  · rw [h]; decide
  · rw [h]; exact stripDots_head _

theorem SanitizeFilename_last (x : Str) : (SanitizeFilename x).getLast? ≠ some '.' := by
  rcases SanitizeFilename_cases x with h | ⟨h, _⟩
  · rw [h]; decide
  · rw [h]; exact stripDots_last _

theorem SanitizeFilename_of_nothing (x : Str) (h : stripDots (Trim (cleaned x)) = []) :
    SanitizeFilename x = unnamed_file := by
  rw [SanitizeFilename_eq]
  by_cases h0 : Trim (cleaned x) = []
  · rw [h0]; decide
  · have h1 : orUnnamed (Trim (cleaned x)) = Trim (cleaned x) := by
      unfold orUnnamed; rw [if_neg]; simpa using h0
    rw [h1]
    have hall := all_dots_of_stripDots_nil h
    rw [stripDots_of_all_dots (fun c hc => hall c (mem_of_mem_cut200 hc))]
    rfl

theorem SanitizeFilename_fixed {y : Str}
    (hgood : ∀ c ∈ y, isInvalid c = false ∧ iscntrl c = false) (hne : y ≠ [])
    (hlen : y.length ≤ 200) (hh : y.head? ≠ some '.') (hl : y.getLast? ≠ some '.')
    (hsh : y.head? ≠ some ' ') (hsl : y.getLast? ≠ some ' ') : SanitizeFilename y = y := by
  have hc := cleaned_of_good hgood
  have key : ∀ c, c ∈ y → (c = ' ' → False) → (c = '.' → False) →
      isSpace c = false ∧ c ≠ '.' := by
    intro c hcy h1 h2
    refine ⟨?_, fun h => h2 h⟩
    by_contra hs
    rcases isSpace_cases (by simpa using hs) with h | h
    · exact h1 h
    · rw [(hgood c hcy).2] at h; cases h
  have := SanitizeFilename_of_ends y (by rwa [hc]) (by rwa [hc])
    (by
      rw [hc]; intro c h
      exact key c (List.mem_of_mem_head? h) (fun e => hsh (e ▸ h)) (fun e => hh (e ▸ h)))
    (by
      rw [hc]; intro c h
      exact key c (List.mem_of_mem_getLast? h) (fun e => hsl (e ▸ h)) (fun e => hl (e ▸ h)))
  rw [this, hc]

theorem SanitizeFilename_shrinks {y : Str}
    (hgood : ∀ c ∈ y, isInvalid c = false ∧ iscntrl c = false)
    (h : y.head? = some ' ' ∨ y.getLast? = some ' ') : SanitizeFilename y ≠ y := by
  intro heq
  rcases SanitizeFilename_cases y with hu | ⟨hs, _⟩
  · rw [hu] at heq
    rw [← heq] at h
    revert h; decide
  · have h1 : (Trim y).length < y.length := Trim_length_lt (c := ' ') (by decide) h
    by_cases h0 : Trim y = []
    · have : SanitizeFilename y = unnamed_file :=
        SanitizeFilename_of_nothing y (by rw [cleaned_of_good hgood, h0]; rfl)
      rw [this] at heq
      rw [← heq] at h
      revert h; decide
    · have h2 : orUnnamed (Trim y) = Trim y := by
        unfold orUnnamed; rw [if_neg]; simpa using h0
      rw [cleaned_of_good hgood, h2] at hs
      have h3 := stripDots_length_le (cut200 (Trim y))
      have h4 := (cut200_length (Trim y)).2
      have : (SanitizeFilename y).length < y.length := by rw [hs]; omega
      rw [heq] at this
      exact lt_irrefl _ this

theorem scrub_edge {a : Char} (h1 : isSpace a = false) (h2 : a ≠ '.') (h3 : iscntrl a = false) :
    isSpace (scrub a) = false ∧ scrub a ≠ '.' ∧ iscntrl (scrub a) = false := by
  unfold scrub
  by_cases h : isInvalid a = true
  · rw [if_pos h]; decide
  · rw [if_neg h]; exact ⟨h1, h2, h3⟩

theorem cleaned_length_le (x : Str) : (cleaned x).length ≤ x.length := by
  unfold cleaned
  exact le_trans (List.length_filter_le _ _) (by simp)

theorem cleaned_append (x y : Str) : cleaned (x ++ y) = cleaned x ++ cleaned y := by
  simp [cleaned]

/-- C6 (as stated, refuted): `SanitizeFilename` is not idempotent; on `". a"` the first
pass strips the dot after trimming and leaves `" a"`, which the second pass trims to
`"a"`. -/
theorem SanitizeFilename_not_idempotent :
    SanitizeFilename ". a".toList = " a".toList ∧
      SanitizeFilename (SanitizeFilename ". a".toList) = "a".toList ∧
      SanitizeFilename (SanitizeFilename ". a".toList) ≠ SanitizeFilename ". a".toList := by
  decide

theorem SanitizeFilename_no_space {x : Str} (hx : ∀ c ∈ x, c ≠ ' ') :
    ∀ c ∈ SanitizeFilename x, c ≠ ' ' := by
  have hu : ∀ c ∈ unnamed_file, c ≠ ' ' := by decide
  intro c h
  rw [SanitizeFilename_eq] at h
  rcases mem_orUnnamed h with h | h
  · exact hu c h
  · rcases mem_orUnnamed (mem_of_mem_cut200 (mem_of_mem_stripDots h)) with h | h
    · exact hu c h
    · have hc := mem_of_mem_Trim h
      simp only [cleaned, List.mem_filter, List.mem_map] at hc
      obtain ⟨⟨a, ha, rfl⟩, _⟩ := hc
      unfold scrub
      by_cases hi : isInvalid a = true
      · rw [if_pos hi]; decide
      · rw [if_neg hi]; exact hx a ha

/-- C6 (amended): a second pass of `SanitizeFilename` changes nothing exactly when the
result of the first pass neither begins nor ends with a space; in particular it changes
nothing when the input contains no space. -/
theorem SanitizeFilename_idempotent_iff (x : Str) :
    (SanitizeFilename (SanitizeFilename x) = SanitizeFilename x ↔
      ((SanitizeFilename x).head? ≠ some ' ' ∧ (SanitizeFilename x).getLast? ≠ some ' ')) ∧
      ((∀ c ∈ x, c ≠ ' ') → SanitizeFilename (SanitizeFilename x) = SanitizeFilename x) := by
  have hfix : ((SanitizeFilename x).head? ≠ some ' ' ∧ (SanitizeFilename x).getLast? ≠ some ' ') →
      SanitizeFilename (SanitizeFilename x) = SanitizeFilename x := fun h =>
    SanitizeFilename_fixed (fun c hm => SanitizeFilename_good hm)
      (SanitizeFilename_ne_nil x) (SanitizeFilename_length_le x) (SanitizeFilename_head x)
      (SanitizeFilename_last x) h.1 h.2
  refine ⟨⟨?_, hfix⟩, ?_⟩
  · intro h
    by_contra hc
    have : (SanitizeFilename x).head? = some ' ' ∨ (SanitizeFilename x).getLast? = some ' ' := by
      by_contra hn
      push_neg at hn
      exact hc hn
    exact SanitizeFilename_shrinks (fun c hm => SanitizeFilename_good hm) this h
  · intro hx
    have hns := SanitizeFilename_no_space hx
    exact hfix ⟨fun h => hns _ (List.mem_of_mem_head? h) rfl,
      fun h => hns _ (List.mem_of_mem_getLast? h) rfl⟩

/-- An instance of C6 (amended): `"a b"` is stable under a second pass. -/
theorem SanitizeFilename_idempotent_iff_witness :
    SanitizeFilename (SanitizeFilename "a b".toList) = SanitizeFilename "a b".toList :=
  (SanitizeFilename_idempotent_iff "a b".toList).1.2 (by decide)

/-- C7 (as stated, refuted): the name `a\x01b` meets the conditions of the claim, yet its
control character is removed, not replaced: the result is `ab`, one character shorter. -/
theorem SanitizeFilename_removes_control :
    (['a', Char.ofNat 1, 'b'] : Str).length ≤ 200 ∧
      isSpace 'a' = false ∧ isSpace 'b' = false ∧
      SanitizeFilename ['a', Char.ofNat 1, 'b'] = ['a', 'b'] ∧
      SanitizeFilename ['a', Char.ofNat 1, 'b'] ≠ specReplace ['a', Char.ofNat 1, 'b'] ∧
      (SanitizeFilename ['a', Char.ofNat 1, 'b']).length ≠
        (['a', Char.ofNat 1, 'b'] : Str).length := by
  decide

/-- C7 (amended): for a non-empty name of at most 200 characters that neither begins nor
ends with whitespace, a dot or a control character, `SanitizeFilename` returns the name
with each of `<>:"/\|?*` replaced by an underscore and each control character removed;
when the name has no control character the result is the replaced name and has the length
of the input. -/
theorem SanitizeFilename_replaces (name : Str) (hne : name ≠ []) (hlen : name.length ≤ 200)
    (hh : ∀ c, name.head? = some c → isSpace c = false ∧ c ≠ '.' ∧ iscntrl c = false)
    (hl : ∀ c, name.getLast? = some c → isSpace c = false ∧ c ≠ '.' ∧ iscntrl c = false) :
    SanitizeFilename name = (name.map scrub).filter (fun c => !iscntrl c) ∧
      ((∀ c ∈ name, iscntrl c = false) →
        SanitizeFilename name = name.map scrub ∧
          (SanitizeFilename name).length = name.length) := by
  have hhead : ∃ a, (cleaned name).head? = some a ∧ isSpace a = false ∧ a ≠ '.' := by
    cases name with
    | nil => exact absurd rfl hne
    | cons a t =>
      obtain ⟨h1, h2, h3⟩ := hh a rfl
      obtain ⟨e1, e2, e3⟩ := scrub_edge h1 h2 h3
      refine ⟨scrub a, ?_, e1, e2⟩
      simp [cleaned, e3]
  have hlast : ∃ b, (cleaned name).getLast? = some b ∧ isSpace b = false ∧ b ≠ '.' := by
    rcases List.eq_nil_or_concat name with h | ⟨l, b, h⟩
    · exact absurd h hne
    · rw [List.concat_eq_append] at h
      subst h
      obtain ⟨h1, h2, h3⟩ := hl b (by simp)
      obtain ⟨e1, e2, e3⟩ := scrub_edge h1 h2 h3
      refine ⟨scrub b, ?_, e1, e2⟩
      rw [cleaned_append]
      simp [cleaned, e3]
  obtain ⟨a, ha, ha1, ha2⟩ := hhead
  obtain ⟨b, hb, hb1, hb2⟩ := hlast
  have hmain : SanitizeFilename name = cleaned name := by
    apply SanitizeFilename_of_ends
    · intro h0; rw [h0] at ha; cases ha
    · exact le_trans (cleaned_length_le name) hlen
    · intro c hc; rw [ha] at hc; cases hc; exact ⟨ha1, ha2⟩
    · intro c hc; rw [hb] at hc; cases hc; exact ⟨hb1, hb2⟩
  refine ⟨hmain, ?_⟩
  intro hno
  have hf : (name.map scrub).filter (fun c => !iscntrl c) = name.map scrub := by
    rw [List.filter_eq_self]
    intro c hc
    obtain ⟨d, hd, rfl⟩ := List.mem_map.1 hc
    have := hno d hd
    unfold scrub
    by_cases h : isInvalid d = true
    · rw [if_pos h]; decide
    · rw [if_neg h]; simp [this]
  have h2 : SanitizeFilename name = name.map scrub := by rw [hmain]; exact hf
  exact ⟨h2, by rw [h2]; simp⟩

/-- An instance of C7 (amended): `re:port?.png` becomes `re_port_.png`. -/
theorem SanitizeFilename_replaces_witness :
    SanitizeFilename "re:port?.png".toList = "re_port_.png".toList ∧
      (SanitizeFilename "re:port?.png".toList).length = "re:port?.png".toList.length := by
  have h := SanitizeFilename_replaces "re:port?.png".toList (by decide) (by decide)
    (by intro c hc; simp at hc; subst hc; decide)
    (by intro c hc; simp at hc; subst hc; decide)
  have h2 := h.2 (by decide)
  exact ⟨h2.1.trans (by decide), h2.2⟩

/-- C8: the result of `SanitizeFilename` is never empty, has at most 200 characters and
neither begins nor ends with a dot; when nothing is left after replacing, removing control
characters, trimming and stripping dots, as for the empty string and for `...`, the result
is `unnamed_file`. -/
theorem SanitizeFilename_shape (x : Str) :
    SanitizeFilename x ≠ [] ∧ (SanitizeFilename x).length ≤ 200 ∧
      (SanitizeFilename x).head? ≠ some '.' ∧ (SanitizeFilename x).getLast? ≠ some '.' ∧
      (stripDots (Trim (cleaned x)) = [] → SanitizeFilename x = unnamed_file) ∧
      SanitizeFilename [] = unnamed_file ∧ SanitizeFilename "...".toList = unnamed_file :=
  ⟨SanitizeFilename_ne_nil x, SanitizeFilename_length_le x, SanitizeFilename_head x,
    SanitizeFilename_last x, SanitizeFilename_of_nothing x, by decide, by decide⟩

/-- An instance of C8: nothing is left of `" .. "`, so the result is `unnamed_file`. -/
theorem SanitizeFilename_shape_witness :
    stripDots (Trim (cleaned " .. ".toList)) = [] ∧
      SanitizeFilename " .. ".toList = unnamed_file :=
  ⟨by decide, (SanitizeFilename_shape " .. ".toList).2.2.2.2.1 (by decide)⟩

end Utils
/-! ## Decimal digits -/

theorem digitChar_mem : ∀ d, d < 10 → Nat.digitChar d ∈ digitChars := by decide

theorem toDigitsCore_mem (fuel n : Nat) (acc : Str) (hacc : ∀ c ∈ acc, c ∈ digitChars) :
    ∀ c ∈ Nat.toDigitsCore 10 fuel n acc, c ∈ digitChars := by
  induction fuel generalizing n acc with
  | zero => simpa [Nat.toDigitsCore] using hacc
  | succ f ih =>
    have hcons : ∀ c ∈ Nat.digitChar (n % 10) :: acc, c ∈ digitChars := by
      intro c hc
      rcases List.mem_cons.1 hc with h | h
      · rw [h]; exact digitChar_mem _ (Nat.mod_lt _ (by decide))
      · exact hacc c h
    simp only [Nat.toDigitsCore]
    split
    · exact hcons
    · exact ih _ _ hcons

theorem natDigits_mem (n : Nat) : ∀ c ∈ natDigits n, c ∈ digitChars :=
  toDigitsCore_mem _ _ [] (by simp)

theorem to_string_mem (n : Int) : ∀ c ∈ to_string n, c = '-' ∨ c ∈ digitChars := by
  intro c hc
  unfold to_string at hc
  split at hc
  · rcases List.mem_cons.1 hc with h | h
    · exact Or.inl h
    · exact Or.inr (natDigits_mem _ c h)
  · exact Or.inr (natDigits_mem _ c hc)

theorem to_string_natCast (k : Nat) : to_string (k : Int) = natDigits k := by
  simp [to_string]

theorem c_str_of_no_nul {s : Str} (h : ∀ c ∈ s, c ≠ Char.ofNat 0) : c_str s = s := by
  unfold c_str
  rw [List.takeWhile_eq_self_iff]
  intro c hc
  simpa using h c hc

end FraudFinder

namespace FraudFinder
namespace Utils

/-! ## `GetUniqueFilename` -/

theorem numberedLoop_some {fs : FileSystem} {directory filename : Str} {i fuel : Nat} {r : Str}
    (h : numberedLoop fs directory filename i fuel = some r) :
    FileExists fs (directory ++ "/".toList ++ r) = false := by
  induction fuel generalizing i with
  | zero => simp [numberedLoop] at h
  | succ n ih =>
    simp only [numberedLoop] at h
    split at h
    · rename_i hfree
      cases h
      simpa using hfree
    · exact ih h

theorem numberedLoop_none {fs : FileSystem} {directory filename : Str} {i fuel : Nat}
    (h : numberedLoop fs directory filename i fuel = none) :
    ∀ k, i ≤ k → k < i + fuel →
      FileExists fs (directory ++ "/".toList ++ variation filename (to_string (k : Int))) = true := by
  induction fuel generalizing i with
  | zero => intro k h1 h2; omega
  | succ n ih =>
    simp only [numberedLoop] at h
    split at h
    · cases h
    · rename_i htaken
      intro k h1 h2
      rcases Nat.eq_or_lt_of_le h1 with e | lt
      · subst e; simpa using htaken
      · exact ih h k lt (by omega)

theorem numberedLoop_of_taken {fs : FileSystem} {directory filename : Str} {i fuel : Nat}
    (h : ∀ k, i ≤ k → k < i + fuel →
      FileExists fs (directory ++ "/".toList ++ variation filename (to_string (k : Int))) = true) :
    numberedLoop fs directory filename i fuel = none := by
  induction fuel generalizing i with
  | zero => rfl
  | succ n ih =>
    simp only [numberedLoop]
    rw [h i le_rfl (by omega)]
    simp only [Bool.not_true, Bool.false_eq_true, if_false]
    exact ih (fun k h1 h2 => h k (by omega) (by omega))

theorem crowded_numbered (k : Nat) (h1 : 1 ≤ k) (h2 : k < 1 + 999) :
    FileExists crowded ("d".toList ++ "/".toList ++ variation "a".toList (to_string (k : Int))) =
      true := by
  have hv : "d".toList ++ "/".toList ++ variation "a".toList (to_string (k : Int)) =
      "d/a_".toList ++ natDigits k := by
    have hs : splitName "a".toList = ("a".toList, []) := by decide
    rw [to_string_natCast]
    simp only [variation, hs, List.append_nil]
    rfl
  have hc : c_str ("d/a_".toList ++ natDigits k) = "d/a_".toList ++ natDigits k := by
    apply c_str_of_no_nul
    intro c hc
    have hp : ∀ c ∈ "d/a_".toList, c ≠ Char.ofNat 0 := by decide
    have hd : ∀ c ∈ digitChars, c ≠ Char.ofNat 0 := by decide
    rcases List.mem_append.1 hc with h | h
    · exact hp c h
    · exact hd c (natDigits_mem k c h)
  have hm : "d/a_".toList ++ natDigits k ∈ crowdedPaths := by
    refine List.mem_map.2 ⟨k - 1, List.mem_range.2 (by omega), ?_⟩
    rw [Nat.sub_add_cancel h1]
  rw [hv]
  simp only [FileExists, hc, crowded]
  rw [if_pos (Or.inr (Or.inr hm))]
  rfl

/-- C9 (as stated, refuted): in a directory that holds `a`, `a_1`, ..., `a_999` and
`a_1761800000`, asking for `a` at clock value 1761800000 returns `a_1761800000`, the name
of an existing file. -/
theorem GetUniqueFilename_collides :
    GetUniqueFilename crowded crowdedNow "d".toList "a".toList = "a_1761800000".toList ∧
      FileExists crowded
        ("d".toList ++ "/".toList ++ GetUniqueFilename crowded crowdedNow "d".toList "a".toList) =
        true := by
  have h0 : FileExists crowded ("d".toList ++ "/".toList ++ "a".toList) = true := by decide
  have h1 : numberedLoop crowded "d".toList "a".toList 1 999 = none :=
    numberedLoop_of_taken crowded_numbered
  have h2 : GetUniqueFilename crowded crowdedNow "d".toList "a".toList = "a_1761800000".toList := by
    simp only [GetUniqueFilename, h0, h1]
    decide
  rw [h2]
  exact ⟨rfl, by decide⟩

/-- C9 (amended): the name returned by `GetUniqueFilename` is not the name of an existing
file of the directory whenever the desired name, one of its numbered variations 1 to 999 or
its timestamp variation is free; this holds for every file system, so also after earlier
calls whose names were created. -/
theorem GetUniqueFilename_fresh (fs : FileSystem) (now : Int) (directory filename : Str)
    (h : FileExists fs (directory ++ "/".toList ++ filename) = false ∨
      (∃ k : Nat, 1 ≤ k ∧ k ≤ 999 ∧
        FileExists fs (directory ++ "/".toList ++ variation filename (to_string (k : Int))) =
          false) ∨
      FileExists fs (directory ++ "/".toList ++ variation filename (to_string now)) = false) :
    FileExists fs (directory ++ "/".toList ++ GetUniqueFilename fs now directory filename) =
      false := by
  unfold GetUniqueFilename
  by_cases h0 : FileExists fs (directory ++ "/".toList ++ filename) = true
  · simp only [h0, Bool.not_true, Bool.false_eq_true, if_false]
    cases hl : numberedLoop fs directory filename 1 999 with
    | some r => exact numberedLoop_some hl
    | none =>
      rcases h with h | ⟨k, k1, k2, hk⟩ | h
      · rw [h0] at h; cases h
      · rw [numberedLoop_none hl k k1 (by omega)] at hk; cases hk
      · exact h
  · have h0f : FileExists fs (directory ++ "/".toList ++ filename) = false := by
      simpa using h0
    simp only [h0f, Bool.not_false, if_true]

/-- An instance of C9 (amended): with `photo.png` taken and `photo_1.png` free in
`temp_evidence`, the returned name `photo_1.png` is free. -/
theorem GetUniqueFilename_fresh_witness :
    FileExists
        { file := fun p => if p = "temp_evidence/photo.png".toList then some [] else none
          isDir := fun _ => false }
        ("temp_evidence".toList ++ "/".toList ++
          GetUniqueFilename
            { file := fun p => if p = "temp_evidence/photo.png".toList then some [] else none
              isDir := fun _ => false }
            0 "temp_evidence".toList "photo.png".toList) = false :=
  GetUniqueFilename_fresh _ 0 "temp_evidence".toList "photo.png".toList
    (Or.inr (Or.inl ⟨1, by decide, by decide, by decide⟩))

/-- C10: when no file with the desired name exists in the directory, `GetUniqueFilename`
returns the desired name unchanged. -/
theorem GetUniqueFilename_unchanged (fs : FileSystem) (now : Int) (directory filename : Str)
    (h : FileExists fs (directory ++ "/".toList ++ filename) = false) :
    GetUniqueFilename fs now directory filename = filename := by
  simp only [GetUniqueFilename, h, Bool.not_false, if_true]

/-- An instance of C10: in an empty directory `photo.png` is returned as it is. -/
theorem GetUniqueFilename_unchanged_witness :
    GetUniqueFilename { file := fun _ => none, isDir := fun _ => false } 0
      "temp_evidence".toList "photo.png".toList = "photo.png".toList :=
  GetUniqueFilename_unchanged _ 0 "temp_evidence".toList "photo.png".toList (by decide)

end Utils
/-! ## Ingestion -/

theorem static_cast_int_of_lt {n : Nat} (h : n < 2 ^ 31) : static_cast_int n = (n : Int) := by
  have h1 : n % 2 ^ 32 = n := Nat.mod_eq_of_lt (by omega)
  unfold static_cast_int
  rw [h1, if_pos h]

theorem ReadImageFile_cases (h : Host) (fs : FileSystem) (filePath : Str) :
    ReadImageFile h fs filePath = [] ∨
      (fs.file (c_str filePath) = some (ReadImageFile h fs filePath) ∧
        ((ReadImageFile h fs filePath).length : Int) ≤ maxSize) := by
  unfold ReadImageFile
  cases hf : fs.file (c_str filePath) with
  | none => left; rfl
  | some contents =>
    simp only
    by_cases h1 : (contents.length : Int) > maxSize
    · left; rw [if_pos h1]
    · rw [if_neg h1]
      by_cases h2 : h.readOk (c_str filePath) = true
      · right
        simp only [h2, Bool.not_true, Bool.false_eq_true, if_false]
        exact ⟨trivial, by omega⟩
      · left
        simp [h2]

theorem ReadImageFile_of_file {h : Host} {fs : FileSystem} {filePath : Str} {P : Bytes}
    (hsrc : fs.file (c_str filePath) = some P) (hlen : (P.length : Int) ≤ maxSize)
    (hread : h.readOk (c_str filePath) = true) : ReadImageFile h fs filePath = P := by
  unfold ReadImageFile
  rw [hsrc]
  simp only
  rw [if_neg (by omega)]
  simp [hread]

theorem ReadImageFile_oversize {h : Host} {fs : FileSystem} {filePath : Str} {P : Bytes}
    (hsrc : fs.file (c_str filePath) = some P) (hlen : (P.length : Int) > maxSize) :
    ReadImageFile h fs filePath = [] := by
  unfold ReadImageFile
  rw [hsrc]
  simp only
  rw [if_pos hlen]

theorem bindEvidence_of_data {h : Host} {fs : FileSystem} {path : Str}
    (hne : path ≠ []) (hex : Utils.FileExists fs path = true)
    (hdata : ReadImageFile h fs path ≠ []) :
    bindEvidence h fs path =
      { blob := some (ReadImageFile h fs path)
        filename := some (h.freed (c_str (storedFilename path)))
        mime_type := some (h.freed (c_str (GetMimeType path)))
        size := some ((ReadImageFile h fs path).length : Int) } := by
  have hlen : (ReadImageFile h fs path).length < 2 ^ 31 := by
    rcases ReadImageFile_cases h fs path with h0 | ⟨_, h1⟩
    · exact absurd h0 hdata
    · unfold maxSize at h1; omega
  have hp : path.isEmpty = false := by
    cases path with
    | nil => exact absurd rfl hne
    | cons a t => rfl
  have hd : (ReadImageFile h fs path).isEmpty = false := by
    cases hr : ReadImageFile h fs path with
    | nil => exact absurd hr hdata
    | cons a t => rfl
  unfold bindEvidence
  simp only [hp, hex, hd, Bool.not_false, Bool.and_self, if_true]
  rw [static_cast_int_of_lt hlen, Int.toNat_ofNat, List.take_length]

theorem bindEvidence_of_no_data {h : Host} {fs : FileSystem} {path : Str}
    (hdata : ReadImageFile h fs path = []) :
    bindEvidence h fs path = { blob := none, filename := none, mime_type := none, size := none } := by
  unfold bindEvidence
  split
  · simp [hdata]
  · rfl

theorem bindEvidence_of_no_path {h : Host} {fs : FileSystem} {path : Str}
    (hp : path = [] ∨ Utils.FileExists fs path = false) :
    bindEvidence h fs path = { blob := none, filename := none, mime_type := none, size := none } := by
  unfold bindEvidence
  rcases hp with hp | hp
  · subst hp; rfl
  · simp [hp]

theorem bindEvidence_cases (h : Host) (fs : FileSystem) (path : Str) :
    bindEvidence h fs path = { blob := none, filename := none, mime_type := none, size := none } ∨
      ∃ P fn mt, fs.file (c_str path) = some P ∧ P ≠ [] ∧ (P.length : Int) ≤ maxSize ∧
        bindEvidence h fs path =
          { blob := some P, filename := some fn, mime_type := some mt,
            size := some (P.length : Int) } := by
  by_cases hne : path = []
  · exact Or.inl (bindEvidence_of_no_path (Or.inl hne))
  · by_cases hex : Utils.FileExists fs path = true
    · by_cases hdata : ReadImageFile h fs path = []
      · exact Or.inl (bindEvidence_of_no_data hdata)
      · right
        rcases ReadImageFile_cases h fs path with h0 | ⟨h1, h2⟩
        · exact absurd h0 hdata
        · exact ⟨_, _, _, h1, hdata, h2, bindEvidence_of_data hne hex hdata⟩
    · exact Or.inl (bindEvidence_of_no_path (Or.inr (by simpa using hex)))

/-! ## The table -/

theorem AddEntry_ok (h : Host) (fs : FileSystem) (db : Database) (entry : FraudEntry) :
    AddEntry h fs db entry .ok =
      (true, { db with rows := db.rows ++ [insertedRow h fs db entry], seq := db.seq + 1 }) :=
  rfl

theorem evidence_sound (h : Host) (fs : FileSystem) (path : Str) (r : Row)
    (h1 : r.evidence_blob = (bindEvidence h fs path).blob)
    (h2 : r.evidence_filename = (bindEvidence h fs path).filename)
    (h3 : r.evidence_mime_type = (bindEvidence h fs path).mime_type)
    (h4 : r.evidence_size = (bindEvidence h fs path).size) : r.sound := by
  rcases bindEvidence_cases h fs path with hb | ⟨P, fn, mt, _, hP, hlen, hb⟩
  · left
    rw [hb] at h1 h2 h3 h4
    exact ⟨h1, h2, h3, h4⟩
  · right
    rw [hb] at h1 h2 h3 h4
    exact ⟨P, h1, hP, hlen, h4, by rw [h2]; simp, by rw [h3]; simp⟩

theorem mem_UpdateEntry {h : Host} {fs : FileSystem} {db : Database} {id : Int}
    {entry : FraudEntry} {fault : SqlFault} {r : Row}
    (hr : r ∈ (UpdateEntry h fs db id entry fault).2.rows) :
    r ∈ db.rows ∨
      ∃ r0 ∈ db.rows, r0.id = id ∧ r = updateRow (bindEvidence h fs entry.evidence_path) entry r0 := by
  cases fault with
  | prepare e => exact Or.inl hr
  | step e => exact Or.inl hr
  | ok =>
    simp only [UpdateEntry, List.mem_map] at hr
    obtain ⟨r0, hm, he⟩ := hr
    by_cases hid : r0.id = id
    · right
      refine ⟨r0, hm, hid, ?_⟩
      rw [← he]; simp [hid]
    · left
      have : (r0.id == id) = false := by simpa using hid
      rw [this] at he
      simp at he
      rw [← he]; exact hm

theorem mem_AddEntry {h : Host} {fs : FileSystem} {db : Database}
    {entry : FraudEntry} {fault : SqlFault} {r : Row}
    (hr : r ∈ (AddEntry h fs db entry fault).2.rows) :
    r ∈ db.rows ∨ r = insertedRow h fs db entry := by
  cases fault with
  | prepare e => exact Or.inl hr
  | step e => exact Or.inl hr
  | ok =>
    rw [AddEntry_ok] at hr
    simpa using hr

theorem mem_DeleteEntry {db : Database} {id : Int} {fault : SqlFault} {r : Row}
    (hr : r ∈ (DeleteEntry db id fault).2.rows) : r ∈ db.rows := by
  cases fault with
  | prepare e => exact hr
  | step e => exact hr
  | ok =>
    simp only [DeleteEntry] at hr
    exact List.mem_of_mem_filter hr

theorem seq_AddEntry (h : Host) (fs : FileSystem) (db : Database) (entry : FraudEntry)
    (fault : SqlFault) : db.seq ≤ (AddEntry h fs db entry fault).2.seq := by
  cases fault with
  | prepare e => exact le_rfl
  | step e => exact le_rfl
  | ok => rw [AddEntry_ok]; simp

theorem seq_UpdateEntry (h : Host) (fs : FileSystem) (db : Database) (id : Int)
    (entry : FraudEntry) (fault : SqlFault) : (UpdateEntry h fs db id entry fault).2.seq = db.seq := by
  cases fault <;> rfl

theorem seq_DeleteEntry (db : Database) (id : Int) (fault : SqlFault) :
    (DeleteEntry db id fault).2.seq = db.seq := by
  cases fault <;> rfl

theorem Reachable.rows_sound {db : Database} (hdb : Reachable db) : ∀ r ∈ db.rows, r.sound := by
  induction hdb with
  | empty => intro r hr; cases hr
  | add h fs db entry fault _ ih =>
    intro r hr
    rcases mem_AddEntry hr with h0 | h0
    · exact ih r h0
    · subst h0
      exact evidence_sound h fs entry.evidence_path _ rfl rfl rfl rfl
  | update h fs db id entry fault _ ih =>
    intro r hr
    rcases mem_UpdateEntry hr with h0 | ⟨r0, _, _, h0⟩
    · exact ih r h0
    · subst h0
      exact evidence_sound h fs entry.evidence_path _ rfl rfl rfl rfl
  | delete db id fault _ ih =>
    intro r hr
    exact ih r (mem_DeleteEntry hr)

theorem Reachable.ids_le_seq {db : Database} (hdb : Reachable db) : ∀ r ∈ db.rows, r.id ≤ db.seq := by
  induction hdb with
  | empty => intro r hr; cases hr
  | add h fs db entry fault _ ih =>
    intro r hr
    have hs := seq_AddEntry h fs db entry fault
    rcases mem_AddEntry hr with h0 | h0
    · exact le_trans (ih r h0) hs
    · subst h0
      cases fault with
      | prepare e => exact absurd hr (fun hr => by
          have := ih _ hr
          simp [insertedRow] at this)
      | step e => exact absurd hr (fun hr => by
          have := ih _ hr
          simp [insertedRow] at this)
      | ok => rw [AddEntry_ok]; simp [insertedRow]
  | update h fs db id entry fault _ ih =>
    intro r hr
    rw [seq_UpdateEntry]
    rcases mem_UpdateEntry hr with h0 | ⟨r0, hm, _, h0⟩
    · exact ih r h0
    · subst h0
      exact ih r0 hm
  | delete db id fault _ ih =>
    intro r hr
    rw [seq_DeleteEntry]
    exact ih r (mem_DeleteEntry hr)

/-! ## Extraction -/

theorem CreateDirectoryIfNotExists_ok {h : Host} {fs : FileSystem} {path : Str}
    (hdir : fs.isDir (c_str path) = true ∨ h.mkdirOk (c_str path) = true) :
    (Utils.CreateDirectoryIfNotExists h fs path).1 = true := by
  unfold Utils.CreateDirectoryIfNotExists Utils.DirectoryExists
  by_cases h1 : fs.isDir (c_str path) = true
  · simp [h1]
  · rcases hdir with h2 | h2
    · exact absurd h2 h1
    · simp [h1, h2]

theorem ExtractImageToTempFile_ok {h : Host} {fs : FileSystem} {db : Database} {now : Int}
    {entryId : Int} {tmp : Str} {r : Row} {P : Bytes}
    (hfind : db.rows.find? (fun r => r.id == entryId && r.evidence_blob.isSome) = some r)
    (hblob : r.evidence_blob = some P) (hP : P ≠ [])
    (hdir : fs.isDir "temp_evidence".toList = true ∨ h.mkdirOk "temp_evidence".toList = true)
    (hopen : ∀ p, h.openOutOk p = true) (hdisk : ∀ p data, h.disk p data = data) :
    (ExtractImageToTempFile h fs db now entryId tmp .ok).ok = true ∧
      (ExtractImageToTempFile h fs db now entryId tmp .ok).fs.file
        (c_str (ExtractImageToTempFile h fs db now entryId tmp .ok).tempFilePath) = some P := by
  have hc : c_str "temp_evidence".toList = "temp_evidence".toList := by decide
  have hmade : (Utils.CreateDirectoryIfNotExists h fs "temp_evidence".toList).1 = true :=
    CreateDirectoryIfNotExists_ok (by rw [hc]; exact hdir)
  have hpos : ((P.length : Nat) : Int) > 0 := by
    have := List.length_pos.2 hP
    omega
  unfold ExtractImageToTempFile
  simp only [hfind, hblob, Option.getD_some, hpos, if_true, hmade, Bool.not_true,
    Bool.false_eq_true, if_false, hopen, hdisk]
  simp [Utils.GetFileSize, FileSystem.write]

theorem find?_append_new {rows : List Row} {row : Row} {entryId : Int}
    (hold : ∀ r ∈ rows, r.id ≠ entryId) (hid : row.id = entryId)
    (hblob : row.evidence_blob.isSome = true) :
    (rows ++ [row]).find? (fun r => r.id == entryId && r.evidence_blob.isSome) = some row := by
  rw [List.find?_append]
  have : rows.find? (fun r => r.id == entryId && r.evidence_blob.isSome) = none := by
    rw [List.find?_eq_none]
    intro r hr
    simp [hold r hr]
  rw [this]
  simp [hid, hblob]

/-! ## The evidence claims -/

theorem photoFs_file (P : Bytes) :
    (photoFs P).file (c_str (sampleEntry "photo.png".toList).evidence_path) = some P := by
  have hc : c_str (sampleEntry "photo.png".toList).evidence_path = "photo.png".toList := by decide
  rw [hc]
  simp [photoFs]

theorem photo_row_blob (P : Bytes) (hP : P ≠ []) (hlen : P.length ≤ 52428800) :
    (insertedRow steadyHost (photoFs P) Database.empty
      (sampleEntry "photo.png".toList)).evidence_blob = some P := by
  have hsrc := photoFs_file P
  have hread : ReadImageFile steadyHost (photoFs P) (sampleEntry "photo.png".toList).evidence_path
      = P := ReadImageFile_of_file hsrc (by unfold maxSize; omega) rfl
  have hex : Utils.FileExists (photoFs P) (sampleEntry "photo.png".toList).evidence_path = true := by
    simp only [Utils.FileExists, hsrc]; rfl
  have hb := bindEvidence_of_data (h := steadyHost) (by decide) hex (by rw [hread]; exact hP)
  rw [hread] at hb
  simp only [insertedRow, hb]

/-- C1 (as stated, refuted): an empty source file is not embedded. `ReadImageFile` returns
its empty buffer, `AddEntry` takes that for a failed read and stores null, and extraction
fails with "No BLOB data found". -/
theorem roundtrip_fails_on_empty_file :
    (AddEntry steadyHost (photoFs []) Database.empty (sampleEntry "photo.png".toList) .ok).1 = true ∧
      (AddEntry steadyHost (photoFs []) Database.empty
        (sampleEntry "photo.png".toList) .ok).2.rows.map (fun r => r.evidence_blob) = [none] ∧
      (ExtractImageToTempFile steadyHost (photoFs [])
        (AddEntry steadyHost (photoFs []) Database.empty (sampleEntry "photo.png".toList) .ok).2
        1761800000 1 [] .ok).ok = false ∧
      (ExtractImageToTempFile steadyHost (photoFs [])
        (AddEntry steadyHost (photoFs []) Database.empty (sampleEntry "photo.png".toList) .ok).2
        1761800000 1 [] .ok).db.lastError_ = "No BLOB data found for entry ID: 1".toList := by
  decide

/-- C1 (amended): for every payload of 1 to 52,428,800 bytes, on a host where the read,
the temporary directory, the output stream and the disk do not fail, `AddEntry` with a
source file of that payload succeeds, and `ExtractImageToTempFile` for the new entry
succeeds and leaves a file with exactly the payload at the returned path. -/
theorem ingest_extract_roundtrip (h : Host) (fs fs2 : FileSystem) (db : Database)
    (entry : FraudEntry) (now : Int) (tmp : Str) (P : Bytes)
    (hdb : Reachable db) (hpath : entry.evidence_path ≠ [])
    (hsrc : fs.file (c_str entry.evidence_path) = some P)
    (hmin : 1 ≤ P.length) (hmax : P.length ≤ 52428800)
    (hread : h.readOk (c_str entry.evidence_path) = true)
    (hdir : fs2.isDir "temp_evidence".toList = true ∨ h.mkdirOk "temp_evidence".toList = true)
    (hopen : ∀ p, h.openOutOk p = true) (hdisk : ∀ p data, h.disk p data = data) :
    (AddEntry h fs db entry .ok).1 = true ∧
      (ExtractImageToTempFile h fs2 (AddEntry h fs db entry .ok).2 now (db.seq + 1) tmp .ok).ok =
        true ∧
      (ExtractImageToTempFile h fs2 (AddEntry h fs db entry .ok).2 now (db.seq + 1) tmp .ok).fs.file
        (c_str (ExtractImageToTempFile h fs2 (AddEntry h fs db entry .ok).2 now
          (db.seq + 1) tmp .ok).tempFilePath) = some P := by
  have hP : P ≠ [] := by
    intro h0; rw [h0] at hmin; simp at hmin
  have hread2 : ReadImageFile h fs entry.evidence_path = P :=
    ReadImageFile_of_file hsrc (by unfold maxSize; omega) hread
  have hex : Utils.FileExists fs entry.evidence_path = true := by
    simp [Utils.FileExists, hsrc]
  have hbind := bindEvidence_of_data hpath hex (by rw [hread2]; exact hP)
  rw [hread2] at hbind
  have hblob : (insertedRow h fs db entry).evidence_blob = some P := by
    simp [insertedRow, hbind]
  have hfind := @find?_append_new db.rows (insertedRow h fs db entry) (db.seq + 1)
    (fun r hr => by have := hdb.ids_le_seq r hr; omega) rfl (by rw [hblob]; rfl)
  refine ⟨rfl, ?_⟩
  rw [AddEntry_ok]
  exact ExtractImageToTempFile_ok hfind hblob hP hdir hopen hdisk

/-- An instance of C1 (amended): a three-byte `photo.png` added to the empty table comes
back byte for byte at `temp_evidence/photo.png`. -/
theorem ingest_extract_roundtrip_witness :
    (ExtractImageToTempFile steadyHost (photoFs [1, 2, 3])
        (AddEntry steadyHost (photoFs [1, 2, 3]) Database.empty
          (sampleEntry "photo.png".toList) .ok).2 0 (Database.empty.seq + 1) [] .ok).ok = true ∧
      (ExtractImageToTempFile steadyHost (photoFs [1, 2, 3])
        (AddEntry steadyHost (photoFs [1, 2, 3]) Database.empty
          (sampleEntry "photo.png".toList) .ok).2 0 (Database.empty.seq + 1) [] .ok).fs.file
        (c_str (ExtractImageToTempFile steadyHost (photoFs [1, 2, 3])
          (AddEntry steadyHost (photoFs [1, 2, 3]) Database.empty
            (sampleEntry "photo.png".toList) .ok).2 0 (Database.empty.seq + 1) []
              .ok).tempFilePath) = some [1, 2, 3] :=
  (ingest_extract_roundtrip steadyHost (photoFs [1, 2, 3]) (photoFs [1, 2, 3]) Database.empty
    (sampleEntry "photo.png".toList) 0 [] [1, 2, 3] Reachable.empty (by decide) (by decide)
    (by decide) (by decide) rfl (Or.inr rfl) (fun _ => rfl) (fun _ _ => rfl)).2

/-- C2: when the source file is larger than 52,428,800 bytes, `ReadImageFile` yields no
bytes, the row that `AddEntry` inserts has null in all four evidence columns, and every row
that `UpdateEntry` updates gets null in all four. -/
theorem oversize_is_rejected (h : Host) (fs : FileSystem) (db : Database) (id : Int)
    (entry : FraudEntry) (P : Bytes)
    (hsrc : fs.file (c_str entry.evidence_path) = some P) (hbig : P.length > 52428800) :
    ReadImageFile h fs entry.evidence_path = [] ∧
      (∃ r, (AddEntry h fs db entry .ok).2.rows = db.rows ++ [r] ∧ r.noEvidence) ∧
      (∀ r ∈ (UpdateEntry h fs db id entry .ok).2.rows, r.id = id → r.noEvidence) := by
  have hread : ReadImageFile h fs entry.evidence_path = [] :=
    ReadImageFile_oversize hsrc (by unfold maxSize; omega)
  have hbind := bindEvidence_of_no_data hread
  refine ⟨hread, ⟨insertedRow h fs db entry, rfl, ?_⟩, ?_⟩
  · simp [Row.noEvidence, insertedRow, hbind]
  · intro r hr hid
    simp only [UpdateEntry, List.mem_map] at hr
    obtain ⟨r0, _, he⟩ := hr
    by_cases h0 : r0.id = id
    · simp [h0] at he
      rw [← he]
      simp [Row.noEvidence, updateRow, hbind]
    · have hf : (r0.id == id) = false := by simpa using h0
      simp [hf] at he
      rw [← he] at hid
      exact absurd hid h0

/-- An instance of C2: a `photo.png` of 52,428,801 bytes is not read. -/
theorem oversize_is_rejected_witness :
    (List.replicate 52428801 (0 : Byte)).length > 52428800 ∧
      ReadImageFile steadyHost (photoFs (List.replicate 52428801 0))
        (sampleEntry "photo.png".toList).evidence_path = [] :=
  ⟨by rw [List.length_replicate]; decide,
    (oversize_is_rejected steadyHost (photoFs (List.replicate 52428801 0))
      Database.empty 1 (sampleEntry "photo.png".toList) (List.replicate 52428801 0)
      (photoFs_file _) (by rw [List.length_replicate]; decide)).1⟩

/-- C3 (code at the failing input): entry 1 carries the blob of `photo.png`; after
`UpdateEntry` with an empty evidence path all four evidence columns of entry 1 are null,
although the branch is commented "Keep existing BLOB if no new image provided". -/
theorem UpdateEntry_without_path_erases_blob :
    (AddEntry steadyHost (photoFs [1, 2, 3]) Database.empty
        (sampleEntry "photo.png".toList) .ok).2.rows.map
        (fun r => (r.id, r.evidence_blob)) = [(1, some [1, 2, 3])] ∧
      (UpdateEntry steadyHost (photoFs [1, 2, 3])
        (AddEntry steadyHost (photoFs [1, 2, 3]) Database.empty
          (sampleEntry "photo.png".toList) .ok).2 1 (sampleEntry []) .ok).1 = true ∧
      (UpdateEntry steadyHost (photoFs [1, 2, 3])
        (AddEntry steadyHost (photoFs [1, 2, 3]) Database.empty
          (sampleEntry "photo.png".toList) .ok).2 1 (sampleEntry []) .ok).2.rows.map
        (fun r => (r.id, r.evidence_blob)) = [(1, none)] ∧
      (UpdateEntry steadyHost (photoFs [1, 2, 3])
        (AddEntry steadyHost (photoFs [1, 2, 3]) Database.empty
          (sampleEntry "photo.png".toList) .ok).2 1 (sampleEntry []) .ok).2.rows.map
        (fun r => (r.evidence_filename, r.evidence_mime_type, r.evidence_size)) =
        [(none, none, none)] := by
  decide

/-- C4: in every state reachable from the empty table by `AddEntry`, `UpdateEntry` and
`DeleteEntry`, each row has its four evidence columns all null or all non-null. -/
theorem evidence_columns_all_or_none (db : Database) (hdb : Reachable db) :
    ∀ r ∈ db.rows, r.noEvidence ∨ r.fullEvidence := by
  intro r hr
  rcases hdb.rows_sound r hr with h0 | ⟨P, h1, _, _, h4, h2, h3⟩
  · exact Or.inl h0
  · exact Or.inr ⟨by rw [h1]; simp, h2, h3, by rw [h4]; simp⟩

/-- An instance of C4: the row of a table that holds one entry with `photo.png`. -/
theorem evidence_columns_all_or_none_witness :
    (insertedRow steadyHost (photoFs [1, 2, 3]) Database.empty
        (sampleEntry "photo.png".toList)).noEvidence ∨
      (insertedRow steadyHost (photoFs [1, 2, 3]) Database.empty
        (sampleEntry "photo.png".toList)).fullEvidence :=
  evidence_columns_all_or_none
    (AddEntry steadyHost (photoFs [1, 2, 3]) Database.empty (sampleEntry "photo.png".toList) .ok).2
    (Reachable.add _ _ _ _ _ Reachable.empty) _ (List.mem_singleton.2 rfl)

/-- C5: in every reachable state a row that carries a blob has `evidence_size` equal to the
byte length of the blob; and the blob of a row that `AddEntry` inserts or `UpdateEntry`
updates is the contents of the source file, so that the stored size is the length of the
source file. -/
theorem evidence_size_is_blob_length (db : Database) (hdb : Reachable db) :
    (∀ r ∈ db.rows, ∀ b, r.evidence_blob = some b → r.evidence_size = some (b.length : Int)) ∧
      (∀ (h : Host) (fs : FileSystem) (entry : FraudEntry) (r : Row) (b : Bytes),
        (AddEntry h fs db entry .ok).2.rows = db.rows ++ [r] → r.evidence_blob = some b →
          fs.file (c_str entry.evidence_path) = some b ∧
            r.evidence_size = some (b.length : Int)) ∧
      (∀ (h : Host) (fs : FileSystem) (id : Int) (entry : FraudEntry) (r : Row) (b : Bytes),
        r ∈ (UpdateEntry h fs db id entry .ok).2.rows → r.id = id → r.evidence_blob = some b →
          fs.file (c_str entry.evidence_path) = some b ∧
            r.evidence_size = some (b.length : Int)) := by
  have key : ∀ (h : Host) (fs : FileSystem) (path : Str) (b : Bytes),
      (bindEvidence h fs path).blob = some b →
        fs.file (c_str path) = some b ∧ (bindEvidence h fs path).size = some (b.length : Int) := by
    intro h fs path b hb
    rcases bindEvidence_cases h fs path with h0 | ⟨P, fn, mt, hsrc, _, _, h0⟩
    · rw [h0] at hb; cases hb
    · rw [h0] at hb ⊢
      simp only [Option.some.injEq] at hb
      subst hb
      exact ⟨hsrc, rfl⟩
  refine ⟨?_, ?_, ?_⟩
  · intro r hr b hb
    rcases hdb.rows_sound r hr with h0 | ⟨P, h1, _, _, h4, _, _⟩
    · rw [h0.1] at hb; cases hb
    · rw [h1] at hb
      simp only [Option.some.injEq] at hb
      subst hb
      exact h4
  · intro h fs entry r b hrows hb
    rw [AddEntry_ok] at hrows
    have hr : r = insertedRow h fs db entry := by
      have := List.append_cancel_left hrows
      simpa using this.symm
    subst hr
    exact key h fs entry.evidence_path b hb
  · intro h fs id entry r b hr hid hb
    simp only [UpdateEntry, List.mem_map] at hr
    obtain ⟨r0, _, he⟩ := hr
    by_cases h0 : r0.id = id
    · simp [h0] at he
      subst he
      exact key h fs entry.evidence_path b hb
    · have hf : (r0.id == id) = false := by simpa using h0
      simp [hf] at he
      rw [← he] at hid
      exact absurd hid h0

/-- An instance of C5: a `photo.png` of 1024 bytes is stored with `evidence_size` 1024. -/
theorem evidence_size_is_blob_length_witness :
    (List.replicate 1024 (7 : Byte)).length = 1024 ∧
      (insertedRow steadyHost (photoFs (List.replicate 1024 7)) Database.empty
        (sampleEntry "photo.png".toList)).evidence_size = some ((1024 : Nat) : Int) := by
  have hne : List.replicate 1024 (7 : Byte) ≠ [] := by
    intro h
    have h1 := congrArg List.length h
    rw [List.length_replicate] at h1
    cases h1
  have h := ((evidence_size_is_blob_length Database.empty Reachable.empty).2.1 steadyHost
    (photoFs (List.replicate 1024 7)) (sampleEntry "photo.png".toList)
    (insertedRow steadyHost (photoFs (List.replicate 1024 7)) Database.empty
      (sampleEntry "photo.png".toList))
    (List.replicate 1024 7) (AddEntry_ok _ _ _ _ ▸ rfl)
    (photo_row_blob (List.replicate 1024 7) hne (by rw [List.length_replicate]; decide))).2
  rw [List.length_replicate] at h
  exact ⟨List.length_replicate _ _, h⟩

/-! ## Splitting at the last dot -/

theorem findLast_drop {p : Char → Bool} {s : Str} {i : Nat} (h : findLast p s = some i) :
    ∃ c rest, s.drop i = c :: rest ∧ p c = true ∧ ∀ x ∈ rest, p x = false := by
  induction s generalizing i with
  | nil => simp [findLast] at h
  | cons a t ih =>
    cases hf : findLast p t with
    | some j =>
      simp only [findLast, hf, Option.some.injEq] at h
      subst h
      simpa using ih hf
    | none =>
      simp only [findLast, hf] at h
      by_cases ha : p a = true
      · simp only [ha, if_true, Option.some.injEq] at h
        subst h
        exact ⟨a, t, rfl, ha, findLast_eq_none.1 hf⟩
      · simp [ha] at h

theorem findLast_dot_append (S e : Str) (he : '.' ∉ e) :
    findLast (fun c => ['.'].contains c) (S ++ '.' :: e) = some S.length := by
  have h0 : findLast (fun c => ['.'].contains c) e = none :=
    findLast_eq_none.2 (fun c hc => by
      have : c ≠ '.' := fun h => he (h ▸ hc)
      simp [this])
  have h1 : findLast (fun c => ['.'].contains c) ('.' :: e) = some 0 := by
    simp only [findLast, h0]
    rfl
  simpa using findLast_append_some S h1

theorem findLast_dot_none {f : Str} (h : '.' ∉ f) :
    findLast (fun c => ['.'].contains c) f = none :=
  findLast_eq_none.2 (fun c hc => by
    have : c ≠ '.' := fun e => h (e ▸ hc)
    simp [this])

theorem findLast_dot_split {f : Str} {i : Nat}
    (h : findLast (fun c => ['.'].contains c) f = some i) :
    ∃ e, f = f.take i ++ '.' :: e ∧ f.drop i = '.' :: e ∧ '.' ∉ e := by
  obtain ⟨c, rest, hd, hc, hr⟩ := findLast_drop h
  have hc2 : c = '.' := by simpa using hc
  subst hc2
  refine ⟨rest, ?_, hd, ?_⟩
  · rw [← hd, List.take_append_drop]
  · intro hm
    have := hr _ hm
    simp at this

namespace Utils

theorem splitName_append (S e : Str) (he : '.' ∉ e) :
    splitName (S ++ '.' :: e) = (S, '.' :: e) := by
  unfold splitName find_last_of
  rw [findLast_dot_append S e he]
  simp [substr, substrFrom]

theorem splitName_of_no_dot {f : Str} (h : '.' ∉ f) : splitName f = (f, []) := by
  unfold splitName find_last_of
  rw [findLast_dot_none h]

theorem splitName_spec (f : Str) :
    (splitName f).1 ++ (splitName f).2 = f ∧
      (('.' ∉ f ∧ (splitName f).2 = []) ∨ ∃ e, (splitName f).2 = '.' :: e ∧ '.' ∉ e) := by
  by_cases h : '.' ∈ f
  · cases hf : findLast (fun c => ['.'].contains c) f with
    | none =>
      have := findLast_eq_none.1 hf '.' h
      simp at this
    | some i =>
      obtain ⟨e, _, h2, h3⟩ := findLast_dot_split hf
      have hs : splitName f = (f.take i, f.drop i) := by
        unfold splitName find_last_of
        rw [hf]
        simp [substr, substrFrom]
      rw [hs]
      exact ⟨List.take_append_drop i f, Or.inr ⟨e, h2, h3⟩⟩
  · rw [splitName_of_no_dot h]
    exact ⟨by simp, Or.inl ⟨h, rfl⟩⟩

theorem numberedLoop_least {fs : FileSystem} {directory filename : Str} {i fuel : Nat} {r : Str}
    (h : numberedLoop fs directory filename i fuel = some r) :
    ∃ k, i ≤ k ∧ k < i + fuel ∧ r = variation filename (to_string (k : Int)) ∧
      FileExists fs (directory ++ "/".toList ++ variation filename (to_string (k : Int))) = false ∧
      ∀ j, i ≤ j → j < k →
        FileExists fs (directory ++ "/".toList ++ variation filename (to_string (j : Int))) =
          true := by
  induction fuel generalizing i with
  | zero => simp [numberedLoop] at h
  | succ n ih =>
    simp only [numberedLoop] at h
    split at h
    · rename_i hfree
      cases h
      exact ⟨i, le_rfl, by omega, rfl, by simpa using hfree, fun j h1 h2 => by omega⟩
    · rename_i htaken
      obtain ⟨k, k1, k2, hr, hf, hl⟩ := ih h
      refine ⟨k, by omega, by omega, hr, hf, ?_⟩
      intro j j1 j2
      rcases Nat.eq_or_lt_of_le j1 with e | lt
      · subst e; simpa using htaken
      · exact hl j lt j2

/-- C11: when the desired name is taken and one of the candidates 1 to 999 is free,
`GetUniqueFilename` returns the stem, an underscore, the least free number and the
extension, where stem and extension split the desired name at its last dot (the extension
starts with that dot and is empty when the name has no dot). -/
theorem GetUniqueFilename_numbered (fs : FileSystem) (now : Int) (directory filename : Str)
    (htaken : FileExists fs (directory ++ "/".toList ++ filename) = true)
    (hfree : ∃ k : Nat, 1 ≤ k ∧ k ≤ 999 ∧
      FileExists fs (directory ++ "/".toList ++ variation filename (to_string (k : Int))) =
        false) :
    (∃ k : Nat, 1 ≤ k ∧ k ≤ 999 ∧
      FileExists fs (directory ++ "/".toList ++ variation filename (to_string (k : Int))) =
        false ∧
      (∀ j : Nat, 1 ≤ j → j < k →
        FileExists fs (directory ++ "/".toList ++ variation filename (to_string (j : Int))) =
          true) ∧
      GetUniqueFilename fs now directory filename =
        (splitName filename).1 ++ "_".toList ++ to_string (k : Int) ++ (splitName filename).2) ∧
      (splitName filename).1 ++ (splitName filename).2 = filename ∧
      (('.' ∉ filename ∧ (splitName filename).2 = []) ∨
        ∃ e, (splitName filename).2 = '.' :: e ∧ '.' ∉ e) := by
  refine ⟨?_, splitName_spec filename⟩
  cases hl : numberedLoop fs directory filename 1 999 with
  | none =>
    obtain ⟨k, k1, k2, hk⟩ := hfree
    rw [numberedLoop_none hl k k1 (by omega)] at hk
    cases hk
  | some r =>
    obtain ⟨k, k1, k2, hr, hf, hleast⟩ := numberedLoop_least hl
    refine ⟨k, k1, by omega, hf, hleast, ?_⟩
    simp only [GetUniqueFilename, htaken, hl, Bool.not_true, Bool.false_eq_true, if_false]
    rw [hr]
    rfl

/-- An instance of C11: with `photo.png` present and `photo_1.png` absent in
`temp_evidence`, the name returned for `photo.png` is `photo_1.png`. -/
theorem GetUniqueFilename_numbered_witness :
    GetUniqueFilename tempPhotoFs 0 "temp_evidence".toList "photo.png".toList =
      "photo_1.png".toList := by
  obtain ⟨⟨k, k1, _, _, hleast, hr⟩, _⟩ :=
    GetUniqueFilename_numbered tempPhotoFs 0 "temp_evidence".toList "photo.png".toList
      (by decide) ⟨1, by decide, by decide, by decide⟩
  have hk : k = 1 := by
    by_contra hne
    have h1 := hleast 1 le_rfl (by omega)
    revert h1
    decide
  subst hk
  rw [hr]
  decide

end Utils

/-! ## MIME types -/

namespace Utils

theorem tolower_upper : ∀ n, n < 91 → 65 ≤ n →
    Char.ofNat (n + 32) ≠ '.' ∧ tolower (Char.ofNat (n + 32)) = Char.ofNat (n + 32) := by
  decide

theorem tolower_eq_dot (c : Char) : tolower c = '.' ↔ c = '.' := by
  unfold tolower
  by_cases h : 65 ≤ c.toNat ∧ c.toNat ≤ 90
  · rw [if_pos h]
    have h1 := (tolower_upper c.toNat (by omega) h.1).1
    constructor
    · intro e; exact absurd e h1
    · intro e
      subst e
      revert h
      decide
  · rw [if_neg h]

theorem tolower_idem (c : Char) : tolower (tolower c) = tolower c := by
  by_cases h : 65 ≤ c.toNat ∧ c.toNat ≤ 90
  · have h1 := (tolower_upper c.toNat (by omega) h.1).2
    have h2 : tolower c = Char.ofNat (c.toNat + 32) := by
      unfold tolower; rw [if_pos h]
    rw [h2, h1]
  · have h2 : tolower c = c := by
      unfold tolower; rw [if_neg h]
    rw [h2, h2]

theorem findLast_map_tolower (s : Str) :
    findLast (fun c => ['.'].contains c) (s.map tolower) =
      findLast (fun c => ['.'].contains c) s := by
  induction s with
  | nil => rfl
  | cons a t ih =>
    have ha : (['.'].contains (tolower a)) = (['.'].contains a) := by
      by_cases h : a = '.'
      · subst h; rfl
      · have h2 : tolower a ≠ '.' := fun e => h ((tolower_eq_dot a).1 e)
        simp [h, h2]
    simp only [List.map_cons, findLast, ih, ha]

theorem GetFileExtension_ToLowerCase (f : Str) :
    GetFileExtension (ToLowerCase f) = GetFileExtension f := by
  unfold GetFileExtension ToLowerCase find_last_of
  rw [findLast_map_tolower]
  cases findLast (fun c => ['.'].contains c) f with
  | none => rfl
  | some i =>
    simp only [substrFrom, ← List.map_drop, List.map_map]
    apply List.map_congr_left
    intro c _
    exact tolower_idem c

theorem GetFileExtension_eq (f : Str) : GetFileExtension f = ToLowerCase (afterLastDot f) := by
  unfold GetFileExtension find_last_of
  cases hf : findLast (fun c => ['.'].contains c) f with
  | none =>
    have hno : '.' ∉ f := by
      intro hm
      have := findLast_eq_none.1 hf '.' hm
      simp at this
    simp [afterLastDot, hno, ToLowerCase]
  | some i =>
    obtain ⟨e, h1, h2, h3⟩ := findLast_dot_split hf
    have hm : '.' ∈ f := by rw [h1]; simp
    have hd : f.drop (i + 1) = e := by
      rw [← List.drop_drop, h2]; rfl
    have hr : (f.reverse.takeWhile (fun c => c != '.')).reverse = e := by
      rw [h1, List.reverse_append, List.reverse_cons, List.append_assoc,
        List.takeWhile_append_of_pos (by
          intro a ha
          have : a ≠ '.' := fun h => h3 (h ▸ List.mem_reverse.1 ha)
          simpa using this)]
      simp
    simp only [afterLastDot, hm, if_true, hr, substrFrom, hd, ToLowerCase]

end Utils

theorem GetMimeType_eq_specMime (f : Str) :
    GetMimeType f = specMime (Utils.GetFileExtension f) := by
  unfold GetMimeType
  generalize Utils.GetFileExtension f = ext
  simp only
  by_cases h1 : ext = "jpg".toList
  · subst h1; decide
  by_cases h2 : ext = "jpeg".toList
  · subst h2; decide
  by_cases h3 : ext = "png".toList
  · subst h3; decide
  by_cases h4 : ext = "gif".toList
  · subst h4; decide
  by_cases h5 : ext = "bmp".toList
  · subst h5; decide
  by_cases h6 : ext = "tiff".toList
  · subst h6; decide
  by_cases h7 : ext = "tif".toList
  · subst h7; decide
  by_cases h8 : ext = "webp".toList
  · subst h8; decide
  by_cases h9 : ext = "ico".toList
  · subst h9; decide
  have hfind : specMimeTable.find? (fun p => p.1 == ext) = none := by
    rw [List.find?_eq_none]
    intro p hp
    simp only [specMimeTable, List.mem_cons, List.mem_singleton, List.not_mem_nil, or_false] at hp
    rcases hp with h | h | h | h | h | h | h | h | h <;> subst h <;>
      simp only [beq_iff_eq] <;> intro e <;> simp_all
  simp only [specMime, hfind]
  simp only [h1, h2, h3, h4, h5, h6, h7, h8, h9, or_self, if_false]

/-- C12: `GetMimeType` is the fixed table of the specification applied to the lower-cased
text after the last dot of the file name; hence it gives the same type for a name and for
its lower-cased form, and `report.JPG` resolves to `image/jpeg`. -/
theorem GetMimeType_table (f : Str) :
    GetMimeType f = specMime (Utils.ToLowerCase (afterLastDot f)) ∧
      GetMimeType f = GetMimeType (Utils.ToLowerCase f) ∧
      GetMimeType "report.JPG".toList = "image/jpeg".toList := by
  refine ⟨?_, ?_, by decide⟩
  · rw [GetMimeType_eq_specMime, Utils.GetFileExtension_eq]
  · rw [GetMimeType_eq_specMime, GetMimeType_eq_specMime, Utils.GetFileExtension_ToLowerCase]

/-! ## The derived file name -/

theorem derivedName_eq (entryId : Int) (filenamePtr mimeTypePtr : Option Str) :
    derivedName entryId filenamePtr mimeTypePtr =
      derivedStem entryId filenamePtr ++ derivedExtension filenamePtr mimeTypePtr := by
  unfold derivedName derivedStem derivedExtension nameParts mimeFallback
  rfl

theorem nameParts_none : nameParts none = ([], []) := rfl

theorem nameParts_nil : nameParts (some []) = ([], []) := rfl

theorem nameParts_stem_ext (S e : Str) (hS : S ≠ []) (he : '.' ∉ e) :
    nameParts (some (S ++ '.' :: e)) = (Utils.SanitizeFilename S, '.' :: e) := by
  have hlen : (S ++ '.' :: e).length > 0 := by simp
  have hpos : S.length > 0 := List.length_pos.2 hS
  unfold nameParts find_last_of
  simp only [hlen, if_true, findLast_dot_append S e he, hpos]
  simp [substr, substrFrom]

theorem nameParts_leading_dot (e : Str) (he : '.' ∉ e) :
    nameParts (some ('.' :: e)) = (Utils.SanitizeFilename ('.' :: e), []) := by
  have h := findLast_dot_append [] e he
  simp only [List.nil_append, List.length_nil] at h
  have hlen : ('.' :: e).length > 0 := by simp
  unfold nameParts find_last_of
  simp only [hlen, if_true, h, gt_iff_lt, lt_self_iff_false, if_false]

theorem nameParts_no_dot {f : Str} (hf : f ≠ []) (h : '.' ∉ f) :
    nameParts (some f) = (Utils.SanitizeFilename f, []) := by
  have hlen : f.length > 0 := List.length_pos.2 hf
  unfold nameParts find_last_of
  simp only [hlen, if_true, findLast_dot_none h]

theorem nameParts_stem_ne_nil {f : Str} (hf : f ≠ []) : (nameParts (some f)).1 ≠ [] := by
  have hlen : f.length > 0 := List.length_pos.2 hf
  unfold nameParts
  simp only [hlen, if_true]
  cases find_last_of f ['.'] with
  | none =>
    dsimp only
    exact Utils.SanitizeFilename_ne_nil f
  | some i =>
    by_cases hi : i > 0
    · simp only [hi, if_true]
      exact Utils.SanitizeFilename_ne_nil (substr f 0 i)
    · simp only [hi, if_false]
      exact Utils.SanitizeFilename_ne_nil f

theorem mimeExtension_recognised : ∀ m ∈ recognisedMimes, ∀ stem : Str,
    GetMimeType (stem ++ mimeExtension m) = m := by
  intro m hm stem
  have key : ∀ e : Str, '.' ∉ e → Utils.GetFileExtension (stem ++ '.' :: e) = e.map Utils.tolower := by
    intro e he
    unfold Utils.GetFileExtension find_last_of
    rw [findLast_dot_append stem e he]
    simp [substrFrom]
  simp only [recognisedMimes, List.mem_cons, List.mem_singleton, List.not_mem_nil, or_false] at hm
  rcases hm with h | h | h | h | h | h <;> subst h
  · have : mimeExtension "image/jpeg".toList = '.' :: "jpg".toList := by decide
    rw [this, GetMimeType_eq_specMime, key _ (by decide)]; decide
  · have : mimeExtension "image/png".toList = '.' :: "png".toList := by decide
    rw [this, GetMimeType_eq_specMime, key _ (by decide)]; decide
  · have : mimeExtension "image/gif".toList = '.' :: "gif".toList := by decide
    rw [this, GetMimeType_eq_specMime, key _ (by decide)]; decide
  · have : mimeExtension "image/bmp".toList = '.' :: "bmp".toList := by decide
    rw [this, GetMimeType_eq_specMime, key _ (by decide)]; decide
  · have : mimeExtension "image/tiff".toList = '.' :: "tiff".toList := by decide
    rw [this, GetMimeType_eq_specMime, key _ (by decide)]; decide
  · have : mimeExtension "image/webp".toList = '.' :: "webp".toList := by decide
    rw [this, GetMimeType_eq_specMime, key _ (by decide)]; decide

/-- C13 (code at the failing input): `GetMimeType` maps `ico` to `image/x-icon`, but the
fallback of extraction has no case for `image/x-icon` and chooses `.bin`, which
`GetMimeType` maps to `application/octet-stream`. A source file named `.ico` is stored with
that MIME type and no usable extension (on a host where the bound strings are intact at
the step), and its derived name is `ico.bin`. -/
theorem mimeExtension_misses_icon :
    GetMimeType "favicon.ico".toList = "image/x-icon".toList ∧
      mimeExtension "image/x-icon".toList = ".bin".toList ∧
      GetMimeType ("favicon".toList ++ mimeExtension "image/x-icon".toList) =
        "application/octet-stream".toList ∧
      (bindEvidence steadyHost icoFs ".ico".toList).filename = some ".ico".toList ∧
      (bindEvidence steadyHost icoFs ".ico".toList).mime_type = some "image/x-icon".toList ∧
      derivedName 7 (some ".ico".toList) (some "image/x-icon".toList) = "ico.bin".toList := by
  decide

/-- C14: for a stored MIME type that the fallback of extraction does not recognise, and for
a null MIME type, the extension derived from the MIME type is `.bin`, and it is the
extension of the derived name whenever the file name gave none. -/
theorem mimeFallback_bin (m : Str) (hm : m ∉ recognisedMimes) :
    mimeFallback (some m) = ".bin".toList ∧ mimeFallback none = ".bin".toList ∧
      ∀ (entryId : Int) (filenamePtr : Option Str), (nameParts filenamePtr).2 = [] →
        derivedName entryId filenamePtr (some m) =
            derivedStem entryId filenamePtr ++ ".bin".toList ∧
          derivedName entryId filenamePtr none =
            derivedStem entryId filenamePtr ++ ".bin".toList := by
  have h1 : mimeFallback (some m) = ".bin".toList := by
    simp only [recognisedMimes, List.mem_cons, List.mem_singleton, List.not_mem_nil, or_false,
      not_or] at hm
    obtain ⟨a, b, c, d, e, f⟩ := hm
    simp only [mimeFallback, mimeExtension, a, b, c, d, e, f, if_false]
  refine ⟨h1, rfl, ?_⟩
  intro entryId filenamePtr hext
  have hx : ∀ mt, derivedExtension filenamePtr mt = mimeFallback mt := by
    intro mt
    simp [derivedExtension, hext]
  rw [derivedName_eq, derivedName_eq, hx, hx, h1]
  exact ⟨rfl, rfl⟩

/-- An instance of C14: the stored type `application/octet-stream` of a file `notes` gives
the derived name `notes.bin`. -/
theorem mimeFallback_bin_witness :
    derivedName 7 (some "notes".toList) (some "application/octet-stream".toList) =
      "notes.bin".toList :=
  ((mimeFallback_bin "application/octet-stream".toList (by decide)).2.2 7
    (some "notes".toList) (by decide)).1.trans (by decide)

/-- C16 (as stated, refuted): for the stored name `.png`, whose last dot is its first
character, the derived name is `png.png` (the whole name sanitized, the extension taken
from the MIME type), not the sanitized empty stem followed by `.png`. -/
theorem derivedName_leading_dot :
    derivedName 7 (some ".png".toList) (some "image/png".toList) = "png.png".toList ∧
      Utils.SanitizeFilename [] ++ ".png".toList = "unnamed_file.png".toList ∧
      derivedName 7 (some ".png".toList) (some "image/png".toList) ≠
        Utils.SanitizeFilename [] ++ ".png".toList := by
  decide

/-- C16 (amended): for a stored name `stem.ext` whose last dot is not its first character
(`stem` non-empty, `ext` without a dot, empty or not), the derived name is
`SanitizeFilename(stem)` followed by the dot and `ext` unchanged; for a name whose last dot
is its first character the whole name is sanitized and the extension comes from the MIME
type. -/
theorem derivedName_keeps_extension (entryId : Int) (stem ext : Str) (mimeTypePtr : Option Str)
    (hext : '.' ∉ ext) :
    (stem ≠ [] →
      derivedName entryId (some (stem ++ '.' :: ext)) mimeTypePtr =
        Utils.SanitizeFilename stem ++ '.' :: ext) ∧
      derivedName entryId (some ('.' :: ext)) mimeTypePtr =
        Utils.SanitizeFilename ('.' :: ext) ++ mimeFallback mimeTypePtr := by
  constructor
  · intro hstem
    have hne : Utils.SanitizeFilename stem ≠ [] := Utils.SanitizeFilename_ne_nil stem
    rw [derivedName_eq]
    simp [derivedStem, derivedExtension, nameParts_stem_ext stem ext hstem hext, hne]
  · have hne : Utils.SanitizeFilename ('.' :: ext) ≠ [] := Utils.SanitizeFilename_ne_nil _
    rw [derivedName_eq]
    simp [derivedStem, derivedExtension, nameParts_leading_dot ext hext, hne]

/-- An instance of C16 (amended): `my:photo.JPG` gives `my_photo.JPG`. -/
theorem derivedName_keeps_extension_witness :
    derivedName 7 (some "my:photo.JPG".toList) (some "image/jpeg".toList) =
      "my_photo.JPG".toList :=
  ((derivedName_keeps_extension 7 "my:photo".toList "JPG".toList (some "image/jpeg".toList)
    (by decide)).1 (by decide)).trans (by decide)

/-- C17 (as stated, refuted): for the stored name `a.`, after whose last dot nothing
follows, the derived name is `a.` (the dot is kept as the extension), not the sanitized
whole name followed by the extension of the MIME type. -/
theorem derivedName_trailing_dot :
    derivedName 7 (some "a.".toList) (some "image/png".toList) = "a.".toList ∧
      Utils.SanitizeFilename "a.".toList ++ mimeFallback (some "image/png".toList) =
        "a.png".toList ∧
      derivedName 7 (some "a.".toList) (some "image/png".toList) ≠
        Utils.SanitizeFilename "a.".toList ++ mimeFallback (some "image/png".toList) := by
  decide

/-- C17 (amended): for a non-empty stored name that contains no dot, or whose only dot is
its first character, the derived name is `SanitizeFilename` of the whole name followed by
the extension derived from the stored MIME type, which is `.bin` for a null type. -/
theorem derivedName_from_mime (entryId : Int) (name : Str) (mimeTypePtr : Option Str)
    (hne : name ≠ [])
    (hdot : '.' ∉ name ∨ ∃ ext, name = '.' :: ext ∧ '.' ∉ ext) :
    derivedName entryId (some name) mimeTypePtr =
        Utils.SanitizeFilename name ++ mimeFallback mimeTypePtr ∧
      mimeFallback none = ".bin".toList := by
  refine ⟨?_, rfl⟩
  have hs : Utils.SanitizeFilename name ≠ [] := Utils.SanitizeFilename_ne_nil name
  have hp : nameParts (some name) = (Utils.SanitizeFilename name, []) := by
    rcases hdot with h | ⟨ext, h1, h2⟩
    · exact nameParts_no_dot hne h
    · subst h1; exact nameParts_leading_dot ext h2
  rw [derivedName_eq]
  simp [derivedStem, derivedExtension, hp, hs]

/-- An instance of C17 (amended): `my photo` with type `image/gif` gives `my photo.gif`. -/
theorem derivedName_from_mime_witness :
    derivedName 7 (some "my photo".toList) (some "image/gif".toList) =
      "my photo.gif".toList :=
  (derivedName_from_mime 7 "my photo".toList (some "image/gif".toList) (by decide)
    (Or.inl (by decide))).1.trans (by decide)

/-- C18: the derived name is the stem followed by the extension; the stem is `evidence_`
followed by the decimal entry id when the stored file name is null or empty, and these are
the only cases: for a non-empty stored name the sanitized stem is never empty and is the
stem of the derived name. -/
theorem derivedStem_synthesized (entryId : Int) (filenamePtr mimeTypePtr : Option Str) :
    derivedName entryId filenamePtr mimeTypePtr =
        derivedStem entryId filenamePtr ++ derivedExtension filenamePtr mimeTypePtr ∧
      ((filenamePtr = none ∨ filenamePtr = some []) →
        derivedStem entryId filenamePtr = "evidence_".toList ++ to_string entryId ∧
          derivedName entryId filenamePtr mimeTypePtr =
            "evidence_".toList ++ to_string entryId ++ mimeFallback mimeTypePtr) ∧
      (∀ name, filenamePtr = some name → name ≠ [] →
        (nameParts filenamePtr).1 ≠ [] ∧
          derivedStem entryId filenamePtr = (nameParts filenamePtr).1) ∧
      ((nameParts filenamePtr).1 = [] ↔ (filenamePtr = none ∨ filenamePtr = some [])) := by
  have hsyn : (filenamePtr = none ∨ filenamePtr = some []) → nameParts filenamePtr = ([], []) := by
    intro h
    rcases h with h | h <;> subst h <;> rfl
  have hreal : ∀ name, filenamePtr = some name → name ≠ [] → (nameParts filenamePtr).1 ≠ [] := by
    intro name h hne
    subst h
    exact nameParts_stem_ne_nil hne
  refine ⟨derivedName_eq _ _ _, ?_, ?_, ?_⟩
  · intro h
    have hp := hsyn h
    have hs : derivedStem entryId filenamePtr = "evidence_".toList ++ to_string entryId := by
      simp [derivedStem, hp]
    refine ⟨hs, ?_⟩
    rw [derivedName_eq, hs]
    simp [derivedExtension, hp]
  · intro name h hne
    have h1 := hreal name h hne
    refine ⟨h1, ?_⟩
    unfold derivedStem
    rw [if_neg]
    simpa using h1
  · constructor
    · intro h
      cases hf : filenamePtr with
      | none => exact Or.inl rfl
      | some name =>
        right
        by_cases hne : name = []
        · rw [hne]
        · exact absurd h (hreal name hf hne)
    · intro h
      rw [hsyn h]

/-- An instance of C18: entry 7 with a null file name and type `image/png` gives
`evidence_7.png`. -/
theorem derivedStem_synthesized_witness :
    derivedName 7 none (some "image/png".toList) = "evidence_7.png".toList :=
  (((derivedStem_synthesized 7 none (some "image/png".toList)).2.1 (Or.inl rfl)).2).trans
    (by decide)

/-! ## The extracted file -/

theorem find?_of_unique {rows : List Row} {r : Row} {entryId : Int}
    (hmem : r ∈ rows) (hid : r.id = entryId) (hblob : r.evidence_blob.isSome = true)
    (huniq : ∀ r' ∈ rows, r'.id = entryId → r' = r) :
    rows.find? (fun r => r.id == entryId && r.evidence_blob.isSome) = some r := by
  cases hf : rows.find? (fun r => r.id == entryId && r.evidence_blob.isSome) with
  | none =>
    rw [List.find?_eq_none] at hf
    have := hf r hmem
    simp [hid, hblob] at this
  | some r' =>
    have h1 := List.find?_some hf
    have h2 := List.mem_of_find?_eq_some hf
    simp only [Bool.and_eq_true, beq_iff_eq] at h1
    rw [huniq r' h2 h1.1]

theorem ExtractImageToTempFile_ok_path {h : Host} {fs : FileSystem} {db : Database} {now : Int}
    {entryId : Int} {tmp : Str} {fault : SqlFault}
    (hok : (ExtractImageToTempFile h fs db now entryId tmp fault).ok = true) :
    ∃ r, db.rows.find? (fun r => r.id == entryId && r.evidence_blob.isSome) = some r ∧
      (ExtractImageToTempFile h fs db now entryId tmp fault).tempFilePath =
        "temp_evidence".toList ++ "/".toList ++
          Utils.GetUniqueFilename (Utils.CreateDirectoryIfNotExists h fs "temp_evidence".toList).2
            now "temp_evidence".toList
            (derivedName entryId (r.evidence_filename.map c_str)
              (r.evidence_mime_type.map c_str)) := by
  cases fault with
  | prepare e => cases hok
  | step e => cases hok
  | ok =>
    revert hok
    unfold ExtractImageToTempFile
    cases hfind : db.rows.find? (fun r => r.id == entryId && r.evidence_blob.isSome) with
    | none => intro hok; cases hok
    | some r =>
      simp only
      split_ifs <;> intro hok
      all_goals first
        | exact ⟨r, rfl, rfl⟩
        | cases hok

theorem ExtractImageToTempFile_path {h : Host} {fs : FileSystem} {db : Database} {now : Int}
    {entryId : Int} {tmp : Str} {r : Row} {P : Bytes}
    (hfind : db.rows.find? (fun r => r.id == entryId && r.evidence_blob.isSome) = some r)
    (hblob : r.evidence_blob = some P) (hP : P ≠ [])
    (hdir : fs.isDir "temp_evidence".toList = true ∨ h.mkdirOk "temp_evidence".toList = true) :
    (ExtractImageToTempFile h fs db now entryId tmp .ok).tempFilePath =
      "temp_evidence".toList ++ "/".toList ++
        Utils.GetUniqueFilename (Utils.CreateDirectoryIfNotExists h fs "temp_evidence".toList).2
          now "temp_evidence".toList
          (derivedName entryId (r.evidence_filename.map c_str)
            (r.evidence_mime_type.map c_str)) := by
  have hc : c_str "temp_evidence".toList = "temp_evidence".toList := by decide
  have hmade : (Utils.CreateDirectoryIfNotExists h fs "temp_evidence".toList).1 = true :=
    CreateDirectoryIfNotExists_ok (by rw [hc]; exact hdir)
  have hpos : ((P.length : Nat) : Int) > 0 := by
    have := List.length_pos.2 hP
    omega
  unfold ExtractImageToTempFile
  simp only [hfind, hblob, Option.getD_some, hpos, if_true, hmade, Bool.not_true,
    Bool.false_eq_true, if_false]
  split_ifs <;> rfl

namespace Utils

theorem GetUniqueFilename_keeps_extension (fs : FileSystem) (now : Int) (directory S e : Str)
    (he : '.' ∉ e) :
    ('.' :: e) <:+ GetUniqueFilename fs now directory (S ++ '.' :: e) := by
  have hv : ∀ tag, ('.' :: e) <:+ variation (S ++ '.' :: e) tag := by
    intro tag
    unfold variation
    rw [splitName_append S e he]
    exact List.suffix_append _ _
  by_cases h0 : FileExists fs (directory ++ "/".toList ++ (S ++ '.' :: e)) = true
  · simp only [GetUniqueFilename, h0, Bool.not_true, Bool.false_eq_true, if_false]
    cases hl : numberedLoop fs directory (S ++ '.' :: e) 1 999 with
    | some r =>
      obtain ⟨k, _, _, hr, _, _⟩ := numberedLoop_least hl
      rw [hr]
      exact hv _
    | none => exact hv _
  · have h0f : FileExists fs (directory ++ "/".toList ++ (S ++ '.' :: e)) = false := by
      simpa using h0
    simp only [GetUniqueFilename, h0f, Bool.not_false, if_true]
    exact List.suffix_append _ _

end Utils

theorem mem_c_str {s : Str} {c : Char} (h : c ∈ c_str s) : c ∈ s :=
  (List.takeWhile_prefix _).subset h

/-- C15: when the entry's stored file name is non-empty and has no dot and its stored MIME
type is `image/png`, the path returned by a successful `ExtractImageToTempFile` ends with
`.png`, whatever the file system holds. -/
theorem extracted_path_png (h : Host) (fs : FileSystem) (db : Database) (now entryId : Int)
    (tmp : Str) (fault : SqlFault) (r : Row) (name : Str)
    (hmem : r ∈ db.rows) (hid : r.id = entryId)
    (huniq : ∀ r' ∈ db.rows, r'.id = entryId → r' = r)
    (hname : r.evidence_filename = some name) (_hne : name ≠ []) (hdot : '.' ∉ name)
    (hmime : r.evidence_mime_type = some "image/png".toList)
    (hok : (ExtractImageToTempFile h fs db now entryId tmp fault).ok = true) :
    ".png".toList <:+ (ExtractImageToTempFile h fs db now entryId tmp fault).tempFilePath := by
  obtain ⟨r', hfind, hpath⟩ := ExtractImageToTempFile_ok_path hok
  have h1 := List.find?_some hfind
  simp only [Bool.and_eq_true, beq_iff_eq] at h1
  have hr : r' = r := huniq r' (List.mem_of_find?_eq_some hfind) h1.1
  subst hr
  rw [hpath, hname, hmime]
  have hcm : c_str "image/png".toList = "image/png".toList := by decide
  have hd : '.' ∉ c_str name := fun hm => hdot (mem_c_str hm)
  have hparts : (nameParts (some (c_str name))).2 = [] := by
    by_cases h0 : c_str name = []
    · rw [h0]; rfl
    · rw [nameParts_no_dot h0 hd]
  have hname2 : derivedName entryId (some (c_str name)) (some "image/png".toList) =
      derivedStem entryId (some (c_str name)) ++ '.' :: "png".toList := by
    rw [derivedName_eq]
    simp only [derivedExtension, hparts, List.isEmpty_nil, if_true]
    rfl
  simp only [Option.map_some', hcm, hname2]
  exact (Utils.GetUniqueFilename_keeps_extension _ now _ _ "png".toList (by decide)).trans
    (List.suffix_append _ _)

/-- An instance of C15: entry 7 named `scan` of type `image/png` is extracted to
`temp_evidence/scan.png`. -/
theorem extracted_path_png_witness :
    (ExtractImageToTempFile steadyHost (photoFs []) scanDb 0 7 [] .ok).ok = true ∧
      ".png".toList <:+ (ExtractImageToTempFile steadyHost (photoFs []) scanDb 0 7 [] .ok).tempFilePath :=
  ⟨by decide,
    extracted_path_png steadyHost (photoFs []) scanDb 0 7 [] .ok
      (evidenceRow 7 (some [1, 2, 3]) (some "scan".toList) (some "image/png".toList))
      "scan".toList (by decide) rfl (by decide) rfl (by decide) (by decide) rfl (by decide)⟩

/-- C19: when no row with the entry id carries a blob (the entry does not exist or its
`evidence_blob` is null), `ExtractImageToTempFile` returns false, records the message
"No BLOB data found for entry ID" with the id, and leaves the file system as it was: no
file and no directory is created. -/
theorem extract_without_blob (h : Host) (fs : FileSystem) (db : Database) (now entryId : Int)
    (tmp : Str) (hno : ∀ r ∈ db.rows, r.id = entryId → r.evidence_blob = none) :
    (ExtractImageToTempFile h fs db now entryId tmp .ok).ok = false ∧
      (ExtractImageToTempFile h fs db now entryId tmp .ok).db.lastError_ =
        "No BLOB data found for entry ID: ".toList ++ to_string entryId ∧
      (ExtractImageToTempFile h fs db now entryId tmp .ok).fs = fs ∧
      (ExtractImageToTempFile h fs db now entryId tmp .ok).tempFilePath = tmp := by
  have hfind : db.rows.find? (fun r => r.id == entryId && r.evidence_blob.isSome) = none := by
    rw [List.find?_eq_none]
    intro r hr
    by_cases hid : r.id = entryId
    · simp [hno r hr hid]
    · simp [hid]
  unfold ExtractImageToTempFile
  simp only [hfind]
  refine ⟨?_, ?_, ?_, ?_⟩ <;> first | rfl | trivial

/-- An instance of C19: entry 1, created without an evidence path, has no blob to
extract. -/
theorem extract_without_blob_witness :
    (ExtractImageToTempFile steadyHost (photoFs [1, 2, 3])
        (AddEntry steadyHost (photoFs [1, 2, 3]) Database.empty (sampleEntry []) .ok).2
        0 1 [] .ok).ok = false ∧
      (ExtractImageToTempFile steadyHost (photoFs [1, 2, 3])
        (AddEntry steadyHost (photoFs [1, 2, 3]) Database.empty (sampleEntry []) .ok).2
        0 1 [] .ok).db.lastError_ = "No BLOB data found for entry ID: 1".toList :=
  ⟨(extract_without_blob steadyHost (photoFs [1, 2, 3])
      (AddEntry steadyHost (photoFs [1, 2, 3]) Database.empty (sampleEntry []) .ok).2
      0 1 [] (by decide)).1,
    by decide⟩

/-- C20: when the file written to the target path ends up with a size different from the
stored blob size, `ExtractImageToTempFile` returns false with the message "File size
mismatch after writing" and no file is left at the target path. -/
theorem extract_size_mismatch (h : Host) (fs : FileSystem) (db : Database) (now entryId : Int)
    (tmp : Str) (r : Row) (blob : Bytes)
    (hmem : r ∈ db.rows) (hid : r.id = entryId)
    (huniq : ∀ r' ∈ db.rows, r'.id = entryId → r' = r)
    (hblob : r.evidence_blob = some blob) (hne : blob ≠ [])
    (hdir : fs.isDir "temp_evidence".toList = true ∨ h.mkdirOk "temp_evidence".toList = true)
    (hopen : h.openOutOk
      (c_str (ExtractImageToTempFile h fs db now entryId tmp .ok).tempFilePath) = true)
    (hsize : (h.disk (c_str (ExtractImageToTempFile h fs db now entryId tmp .ok).tempFilePath)
      blob).length ≠ blob.length) :
    (ExtractImageToTempFile h fs db now entryId tmp .ok).ok = false ∧
      (ExtractImageToTempFile h fs db now entryId tmp .ok).fs.file
        (c_str (ExtractImageToTempFile h fs db now entryId tmp .ok).tempFilePath) = none ∧
      (ExtractImageToTempFile h fs db now entryId tmp .ok).db.lastError_ =
        "File size mismatch after writing: ".toList ++
          (ExtractImageToTempFile h fs db now entryId tmp .ok).tempFilePath := by
  have hfind := find?_of_unique hmem hid (by rw [hblob]; rfl) huniq
  have hpath := @ExtractImageToTempFile_path h fs db now entryId tmp r blob hfind hblob hne hdir
  rw [hpath] at hopen hsize ⊢
  have hc : c_str "temp_evidence".toList = "temp_evidence".toList := by decide
  have hmade : (Utils.CreateDirectoryIfNotExists h fs "temp_evidence".toList).1 = true :=
    CreateDirectoryIfNotExists_ok (by rw [hc]; exact hdir)
  have hpos : ((blob.length : Nat) : Int) > 0 := by
    have := List.length_pos.2 hne
    omega
  have hsz : ¬ (((h.disk (c_str ("temp_evidence".toList ++ "/".toList ++
      Utils.GetUniqueFilename (Utils.CreateDirectoryIfNotExists h fs "temp_evidence".toList).2
        now "temp_evidence".toList
        (derivedName entryId (r.evidence_filename.map c_str)
          (r.evidence_mime_type.map c_str)))) blob).length : Int) = (blob.length : Int)) := by
    intro e
    exact hsize (by exact_mod_cast e)
  unfold ExtractImageToTempFile
  simp only [hfind, hblob, Option.getD_some, hpos, if_true, hmade, Bool.not_true,
    Bool.false_eq_true, if_false, hopen, Utils.GetFileSize, FileSystem.write, hsz,
    FileSystem.remove]
  refine ⟨?_, ?_, ?_⟩ <;> first | rfl | trivial

/-- An instance of C20: on a disk that keeps one byte of three, the extraction of entry 7
fails and `temp_evidence/scan.png` does not exist afterwards. -/
theorem extract_size_mismatch_witness :
    (ExtractImageToTempFile faultyDiskHost (photoFs []) scanDb 0 7 [] .ok).ok = false ∧
      (ExtractImageToTempFile faultyDiskHost (photoFs []) scanDb 0 7 [] .ok).fs.file
        (c_str (ExtractImageToTempFile faultyDiskHost (photoFs []) scanDb 0 7 []
          .ok).tempFilePath) = none ∧
      (ExtractImageToTempFile faultyDiskHost (photoFs []) scanDb 0 7 [] .ok).tempFilePath =
        "temp_evidence/scan.png".toList :=
  ⟨(extract_size_mismatch faultyDiskHost (photoFs []) scanDb 0 7 []
      (evidenceRow 7 (some [1, 2, 3]) (some "scan".toList) (some "image/png".toList)) [1, 2, 3]
      (by decide) rfl (by decide) rfl (by decide) (Or.inr rfl) (by decide) (by decide)).1,
    (extract_size_mismatch faultyDiskHost (photoFs []) scanDb 0 7 []
      (evidenceRow 7 (some [1, 2, 3]) (some "scan".toList) (some "image/png".toList)) [1, 2, 3]
      (by decide) rfl (by decide) rfl (by decide) (Or.inr rfl) (by decide) (by decide)).2.1,
    by decide⟩

/-! ## Enumerations -/

/-- C22: `IntToFraudType`, `IntToPlatform` and `IntToSeverity` are total; a code in range
(1 to 7, 1 to 8, 1 to 4) gives the variant with that code, and every other integer gives
`OTHER`, `OTHER` and `LOW`. -/
theorem IntTo_folds (v : Int) :
    ((1 ≤ v ∧ v ≤ 7) → (IntToFraudType v).toInt = v) ∧
      (¬ (1 ≤ v ∧ v ≤ 7) → IntToFraudType v = FraudType.OTHER) ∧
      ((1 ≤ v ∧ v ≤ 8) → (IntToPlatform v).toInt = v) ∧
      (¬ (1 ≤ v ∧ v ≤ 8) → IntToPlatform v = Platform.OTHER) ∧
      ((1 ≤ v ∧ v ≤ 4) → (IntToSeverity v).toInt = v) ∧
      (¬ (1 ≤ v ∧ v ≤ 4) → IntToSeverity v = Severity.LOW) := by
  refine ⟨?_, ?_, ?_, ?_, ?_, ?_⟩
  · intro hv
    have h : v = 1 ∨ v = 2 ∨ v = 3 ∨ v = 4 ∨ v = 5 ∨ v = 6 ∨ v = 7 := by omega
    rcases h with h | h | h | h | h | h | h <;> subst h <;> decide
  · intro hv
    have h : ¬ (v ≥ 1 ∧ v ≤ 7) := hv
    simp only [IntToFraudType, h, if_false]
  · intro hv
    have h : v = 1 ∨ v = 2 ∨ v = 3 ∨ v = 4 ∨ v = 5 ∨ v = 6 ∨ v = 7 ∨ v = 8 := by omega
    rcases h with h | h | h | h | h | h | h | h <;> subst h <;> decide
  · intro hv
    have h : ¬ (v ≥ 1 ∧ v ≤ 8) := hv
    simp only [IntToPlatform, h, if_false]
  · intro hv
    have h : v = 1 ∨ v = 2 ∨ v = 3 ∨ v = 4 := by omega
    rcases h with h | h | h | h <;> subst h <;> decide
  · intro hv
    have h : ¬ (v ≥ 1 ∧ v ≤ 4) := hv
    simp only [IntToSeverity, h, if_false]

/-- An instance of C22: code 3 is `IDENTITY_THEFT`, and code 0 folds to `OTHER`. -/
theorem IntTo_folds_witness :
    (IntToFraudType 3).toInt = 3 ∧ IntToFraudType 0 = FraudType.OTHER :=
  ⟨(IntTo_folds 3).1 (by decide), (IntTo_folds 0).2.1 (by decide)⟩

/-! ## Reading an entry back -/

/-- C23 (code at the failing input): an entry created with `date_reported` 1761800000 and
read back by `GetEntryById` when the clock shows 1761900000 comes back with
`date_reported` 1761900000, whatever text the stored column holds.
`RowToFraudEntry` assigns `Utils::Now()` whenever the column is not null. -/
theorem GetEntryById_returns_read_time :
    (sampleEntry "photo.png".toList).date_reported = 1761800000 ∧
      ((GetEntryById
        (AddEntry steadyHost (photoFs [1, 2, 3]) Database.empty
          (sampleEntry "photo.png".toList) .ok).2
        1761900000 1 .ok).1.map (fun e => e.date_reported)) = some 1761900000 ∧
      ((GetEntryById
        (AddEntry steadyHost (photoFs [1, 2, 3]) Database.empty
          (sampleEntry "photo.png".toList) .ok).2
        1762000000 1 .ok).1.map (fun e => e.date_reported)) = some 1762000000 := by
  decide

/-! ## Error messages -/

/-- C24 (code at the failing input): `UpdateEntry` and `DeleteEntry` on the id 99, which
does not exist, return false and leave `lastError_` as it was: empty on the fresh table,
and the stale message of an earlier failed insert afterwards. -/
theorem missing_id_sets_no_message :
    (UpdateEntry steadyHost (photoFs []) Database.empty 99 (sampleEntry []) .ok).1 = false ∧
      (UpdateEntry steadyHost (photoFs []) Database.empty 99 (sampleEntry []) .ok).2.lastError_ =
        [] ∧
      (DeleteEntry Database.empty 99 .ok).1 = false ∧
      (DeleteEntry Database.empty 99 .ok).2.lastError_ = [] ∧
      (UpdateEntry steadyHost (photoFs [])
        (AddEntry steadyHost (photoFs []) Database.empty (sampleEntry [])
          (.step "disk full".toList)).2 99 (sampleEntry []) .ok).1 = false ∧
      (UpdateEntry steadyHost (photoFs [])
        (AddEntry steadyHost (photoFs []) Database.empty (sampleEntry [])
          (.step "disk full".toList)).2 99 (sampleEntry []) .ok).2.lastError_ =
        "Failed to insert entry: disk full".toList := by
  decide

/-! ## Export -/

namespace Utils

theorem CopyFile_ok {h : Host} {fs : FileSystem} {source destination : Str}
    (hok : (CopyFile h fs source destination).1 = true) :
    c_str destination ≠ c_str source ∧
      ∃ data, fs.file (c_str source) = some data ∧
        (CopyFile h fs source destination).2.file (c_str destination) =
          some (h.disk (c_str destination) data) := by
  revert hok
  unfold CopyFile
  cases hsrc : fs.file (c_str source) with
  | none => intro hok; cases hok
  | some data =>
    simp only
    by_cases hopen : h.openOutOk (c_str destination) = true
    · simp only [hopen, if_true]
      by_cases hsame : c_str destination = c_str source
      · have hfile : (fs.write (c_str destination) []).file (c_str source) = some [] := by
          simp [FileSystem.write, hsame]
        simp only [hfile, Option.getD_some]
        have hd : (if h.readOk (c_str source) = true then ([] : Bytes) else []) = [] := by
          split <;> rfl
        rw [hd]
        intro hok
        cases hok
      · have hne : c_str source ≠ c_str destination := fun e => hsame e.symm
        have hfile : (fs.write (c_str destination) []).file (c_str source) = some data := by
          simp [FileSystem.write, hne, hsrc]
        simp only [hfile, Option.getD_some]
        by_cases hread : h.readOk (c_str source) = true
        · simp only [hread, if_true]
          by_cases hemp : data.isEmpty = true
          · simp only [hemp, if_true]
            intro hok; cases hok
          · simp only [hemp, if_false]
            intro _
            exact ⟨hsame, data, rfl, by simp [FileSystem.write]⟩
        · simp only [hread, if_false]
          intro hok
          cases hok
    · simp only [hopen, if_false]
      intro hok; cases hok

end Utils

theorem ExtractImageToTempFile_ok_file {h : Host} {fs : FileSystem} {db : Database} {now : Int}
    {entryId : Int} {tmp : Str} {fault : SqlFault}
    (hok : (ExtractImageToTempFile h fs db now entryId tmp fault).ok = true) :
    ∃ r blob, r ∈ db.rows ∧ r.id = entryId ∧ r.evidence_blob = some blob ∧
      (ExtractImageToTempFile h fs db now entryId tmp fault).fs.file
          (c_str (ExtractImageToTempFile h fs db now entryId tmp fault).tempFilePath) =
        some (h.disk (c_str (ExtractImageToTempFile h fs db now entryId tmp fault).tempFilePath)
          blob) := by
  cases fault with
  | prepare e => cases hok
  | step e => cases hok
  | ok =>
    revert hok
    unfold ExtractImageToTempFile
    cases hfind : db.rows.find? (fun r => r.id == entryId && r.evidence_blob.isSome) with
    | none => intro hok; cases hok
    | some r =>
      have h1 := List.find?_some hfind
      have hmem := List.mem_of_find?_eq_some hfind
      simp only [Bool.and_eq_true, beq_iff_eq] at h1
      obtain ⟨blob, hblob⟩ := Option.isSome_iff_exists.1 h1.2
      simp only [hblob, Option.getD_some]
      split_ifs <;> intro hok
      all_goals first
        | (cases hok; done)
        | exact ⟨r, blob, hmem, h1.1, hblob, by simp [FileSystem.write]⟩

/-- C21 (code at the failing input): on a host whose disk keeps only the first byte of what
is written to `out.png`, extraction of the three-byte blob of entry 1 succeeds and
`ExportEmbeddedImage` returns true, yet `out.png` holds one byte: the copy has failed and
is reported as a success. `CopyFile` tests the stream right after the insertion
(utils.cpp:414), when the bytes have only reached the buffer, and never looks at the file,
whereas extraction closes its file and compares its size with the blob size
(database.cpp:238-245). -/
theorem export_short_output :
    (AddEntry steadyHost (photoFs [1, 2, 3]) Database.empty
        (sampleEntry "photo.png".toList) .ok).2.rows.map
        (fun r => (r.id, r.evidence_blob)) = [(1, some [1, 2, 3])] ∧
      (ExtractImageToTempFile shortOutputHost (photoFs [1, 2, 3])
        (AddEntry steadyHost (photoFs [1, 2, 3]) Database.empty
          (sampleEntry "photo.png".toList) .ok).2 0 1 [] .ok).ok = true ∧
      (ExportEmbeddedImage shortOutputHost (photoFs [1, 2, 3])
        (AddEntry steadyHost (photoFs [1, 2, 3]) Database.empty
          (sampleEntry "photo.png".toList) .ok).2 0 1 "out.png".toList .ok).ok = true ∧
      (ExportEmbeddedImage shortOutputHost (photoFs [1, 2, 3])
        (AddEntry steadyHost (photoFs [1, 2, 3]) Database.empty
          (sampleEntry "photo.png".toList) .ok).2 0 1 "out.png".toList .ok).fs.file
        "out.png".toList = some [1] := by
  decide

/-- When extraction succeeds, `ExportEmbeddedImage` returns what `CopyFile`
returns, and the intermediate file does not exist afterwards in either case. When it
returns true, the output path is not the intermediate path and holds what the disk kept of
the intermediate file; this is exactly the blob of the entry when the disk keeps unchanged
what is written to the intermediate path and to the output path. -/
theorem export_after_extraction (h : Host) (fs : FileSystem) (db : Database) (now entryId : Int)
    (outputPath : Str) (fault : SqlFault) (x : Extracted) (e : Exported)
    (hx : ExtractImageToTempFile h fs db now entryId [] fault = x)
    (he : ExportEmbeddedImage h fs db now entryId outputPath fault = e)
    (hok : x.ok = true) :
    e.ok = (Utils.CopyFile h x.fs x.tempFilePath outputPath).1 ∧
      e.fs.file (c_str x.tempFilePath) = none ∧
      (e.ok = true →
        c_str outputPath ≠ c_str x.tempFilePath ∧
          ∃ r blob, r ∈ db.rows ∧ r.id = entryId ∧ r.evidence_blob = some blob ∧
            e.fs.file (c_str outputPath) =
              some (h.disk (c_str outputPath) (h.disk (c_str x.tempFilePath) blob)) ∧
            ((∀ data, h.disk (c_str x.tempFilePath) data = data) →
              (∀ data, h.disk (c_str outputPath) data = data) →
                e.fs.file (c_str outputPath) = some blob)) := by
  have hform : e = (if (Utils.CopyFile h x.fs x.tempFilePath outputPath).1 = true then
      { ok := true, db := x.db
        fs := (Utils.CopyFile h x.fs x.tempFilePath outputPath).2.remove (c_str x.tempFilePath) }
      else
      { ok := false
        db := x.db.SetError ("Failed to copy extracted image to: ".toList ++ outputPath)
        fs := (Utils.CopyFile h x.fs x.tempFilePath outputPath).2.remove
          (c_str x.tempFilePath) }) := by
    rw [← he]
    unfold ExportEmbeddedImage
    simp only [hx, hok, if_true]
  have hgone : e.fs.file (c_str x.tempFilePath) = none := by
    rw [hform]
    split <;> simp [FileSystem.remove]
  have hres : e.ok = (Utils.CopyFile h x.fs x.tempFilePath outputPath).1 := by
    rw [hform]
    by_cases hc : (Utils.CopyFile h x.fs x.tempFilePath outputPath).1 = true
    · rw [hc]; rfl
    · rw [Bool.eq_false_iff.2 hc]; rfl
  refine ⟨hres, hgone, ?_⟩
  intro heok
  have hc : (Utils.CopyFile h x.fs x.tempFilePath outputPath).1 = true := by
    rw [← hres]; exact heok
  obtain ⟨hne, data, hdata, hout⟩ := Utils.CopyFile_ok hc
  have hok2 : (ExtractImageToTempFile h fs db now entryId [] fault).ok = true := by
    rw [hx]; exact hok
  obtain ⟨r, blob, hmem, hid, hblob, hfile⟩ := ExtractImageToTempFile_ok_file hok2
  rw [hx] at hfile
  rw [hfile] at hdata
  simp only [Option.some.injEq] at hdata
  have hefile : e.fs.file (c_str outputPath) =
      some (h.disk (c_str outputPath) (h.disk (c_str x.tempFilePath) blob)) := by
    rw [hform]
    simp only [hc, if_true, FileSystem.remove, hne, if_false]
    rw [hout, hdata]
  refine ⟨hne, r, blob, hmem, hid, hblob, hefile, ?_⟩
  intro h1 h2
  rw [hefile, h1, h2]

/-- On a host where nothing fails, exporting entry 1 to `out.png` returns true, leaves the three bytes of the blob in `out.png` and no file at
`temp_evidence/photo.png`. -/
theorem export_after_extraction_witness :
    (ExportEmbeddedImage steadyHost (photoFs [1, 2, 3])
        (AddEntry steadyHost (photoFs [1, 2, 3]) Database.empty
          (sampleEntry "photo.png".toList) .ok).2 0 1 "out.png".toList .ok).ok = true ∧
      (ExportEmbeddedImage steadyHost (photoFs [1, 2, 3])
        (AddEntry steadyHost (photoFs [1, 2, 3]) Database.empty
          (sampleEntry "photo.png".toList) .ok).2 0 1 "out.png".toList .ok).fs.file
        "temp_evidence/photo.png".toList = none ∧
      (ExportEmbeddedImage steadyHost (photoFs [1, 2, 3])
        (AddEntry steadyHost (photoFs [1, 2, 3]) Database.empty
          (sampleEntry "photo.png".toList) .ok).2 0 1 "out.png".toList .ok).fs.file
        "out.png".toList = some [1, 2, 3] :=
  ⟨by decide,
    (export_after_extraction steadyHost (photoFs [1, 2, 3])
      (AddEntry steadyHost (photoFs [1, 2, 3]) Database.empty
        (sampleEntry "photo.png".toList) .ok).2 0 1 "out.png".toList .ok _ _ rfl rfl
      (by decide)).2.1,
    by decide⟩

/-! ## The characters of a reconstructed name -/

theorem safeChar_notSeparator {c : Char} (h : safeChar c) : notSeparator c := by
  constructor
  · intro e
    subst e
    have := h.1
    revert this
    decide
  · intro e
    subst e
    have := h.1
    revert this
    decide

theorem tag_safe : ∀ c, (c = '_' ∨ c = '-' ∨ c ∈ digitChars) → safeChar c := by
  intro c hc
  have h1 : safeChar '_' := by unfold safeChar; decide
  have h2 : safeChar '-' := by unfold safeChar; decide
  have h3 : ∀ d ∈ digitChars, Utils.isInvalid d = false ∧ iscntrl d = false := by decide
  rcases hc with h | h | h
  · rw [h]; exact h1
  · rw [h]; exact h2
  · exact h3 c h

theorem mimeExtension_safe (m : Str) : ∀ c ∈ mimeExtension m, safeChar c := by
  have hall : ∀ s ∈ [".jpg".toList, ".png".toList, ".gif".toList, ".bmp".toList,
      ".tiff".toList, ".webp".toList, ".bin".toList],
      ∀ c ∈ s, Utils.isInvalid c = false ∧ iscntrl c = false := by decide
  have hm : mimeExtension m ∈ [".jpg".toList, ".png".toList, ".gif".toList, ".bmp".toList,
      ".tiff".toList, ".webp".toList, ".bin".toList] := by
    unfold mimeExtension
    split_ifs <;> simp
  exact hall _ hm

theorem mimeFallback_safe (mimeTypePtr : Option Str) :
    ∀ c ∈ mimeFallback mimeTypePtr, safeChar c := by
  cases mimeTypePtr with
  | none =>
    have : ∀ c ∈ ".bin".toList, Utils.isInvalid c = false ∧ iscntrl c = false := by decide
    exact this
  | some m => exact mimeExtension_safe m

theorem nameParts_stem_safe (filenamePtr : Option Str) :
    ∀ c ∈ (nameParts filenamePtr).1, safeChar c := by
  unfold nameParts
  cases filenamePtr with
  | none => intro c hc; cases hc
  | some f =>
    simp only
    by_cases hlen : f.length > 0
    · simp only [hlen, if_true]
      cases find_last_of f ['.'] with
      | none =>
        dsimp only
        intro c hc
        exact Utils.SanitizeFilename_good hc
      | some i =>
        by_cases hi : i > 0
        · simp only [hi, if_true]
          intro c hc
          exact Utils.SanitizeFilename_good hc
        · simp only [hi, if_false]
          intro c hc
          exact Utils.SanitizeFilename_good hc
    · simp only [hlen, if_false]
      intro c hc; cases hc

theorem nameParts_ext_suffix (filenamePtr : Option Str) (hne : (nameParts filenamePtr).2 ≠ []) :
    ∃ name, filenamePtr = some name ∧ (nameParts filenamePtr).2 <:+ name := by
  revert hne
  unfold nameParts
  cases filenamePtr with
  | none => intro hne; exact absurd rfl hne
  | some f =>
    simp only
    by_cases hlen : f.length > 0
    · simp only [hlen, if_true]
      cases find_last_of f ['.'] with
      | none => dsimp only; intro hne; exact absurd rfl hne
      | some i =>
        by_cases hi : i > 0
        · simp only [hi, if_true, substrFrom]
          intro _
          exact ⟨f, rfl, List.drop_suffix i f⟩
        · simp only [hi, if_false]
          intro hne; exact absurd rfl hne
    · simp only [hlen, if_false]
      intro hne; exact absurd rfl hne

theorem derivedStem_safe (entryId : Int) (filenamePtr : Option Str) :
    ∀ c ∈ derivedStem entryId filenamePtr, safeChar c := by
  unfold derivedStem
  split
  · intro c hc
    have he : ∀ c ∈ "evidence_".toList, Utils.isInvalid c = false ∧ iscntrl c = false := by
      decide
    rcases List.mem_append.1 hc with h | h
    · exact he c h
    · rcases to_string_mem entryId c h with h1 | h1
      · exact tag_safe c (Or.inr (Or.inl h1))
      · exact tag_safe c (Or.inr (Or.inr h1))
  · exact nameParts_stem_safe filenamePtr

namespace Utils

theorem mem_variation {name tag : Str} {c : Char} (h : c ∈ variation name tag) :
    c ∈ name ∨ c = '_' ∨ c ∈ tag := by
  have hs := (splitName_spec name).1
  unfold variation at h
  simp only [List.mem_append] at h
  rcases h with ((h | h) | h) | h
  · left; rw [← hs]; exact List.mem_append_left _ h
  · right; left
    have : ∀ d ∈ "_".toList, d = '_' := by decide
    exact this c h
  · right; right; exact h
  · left; rw [← hs]; exact List.mem_append_right _ h

theorem GetUniqueFilename_form (fs : FileSystem) (now : Int) (directory name : Str) :
    GetUniqueFilename fs now directory name = name ∨
      ∃ n : Int, GetUniqueFilename fs now directory name = variation name (to_string n) := by
  by_cases h0 : FileExists fs (directory ++ "/".toList ++ name) = true
  · right
    simp only [GetUniqueFilename, h0, Bool.not_true, Bool.false_eq_true, if_false]
    cases hl : numberedLoop fs directory name 1 999 with
    | some r =>
      obtain ⟨k, _, _, hr, _, _⟩ := numberedLoop_least hl
      exact ⟨(k : Int), hr⟩
    | none => exact ⟨now, rfl⟩
  · left
    have h0f : FileExists fs (directory ++ "/".toList ++ name) = false := by simpa using h0
    simp only [GetUniqueFilename, h0f, Bool.not_false, if_true]

theorem mem_GetUniqueFilename {fs : FileSystem} {now : Int} {directory name : Str} {c : Char}
    (h : c ∈ GetUniqueFilename fs now directory name) :
    c ∈ name ∨ c = '_' ∨ c = '-' ∨ c ∈ digitChars := by
  rcases GetUniqueFilename_form fs now directory name with e | ⟨n, e⟩
  · rw [e] at h; exact Or.inl h
  · rw [e] at h
    rcases mem_variation h with h1 | h1 | h1
    · exact Or.inl h1
    · exact Or.inr (Or.inl h1)
    · exact Or.inr (Or.inr (to_string_mem n c h1))

end Utils

/-- C25 (as stated, refuted): the stored name `a.b:c` gives the derived name `a.b:c`; the
colon of its extension is kept, also after `GetUniqueFilename`. -/
theorem derived_extension_keeps_colon :
    derivedName 7 (some "a.b:c".toList) (some "image/png".toList) = "a.b:c".toList ∧
      Utils.GetUniqueFilename (photoFs []) 0 "temp_evidence".toList
        (derivedName 7 (some "a.b:c".toList) (some "image/png".toList)) = "a.b:c".toList ∧
      ':' ∈ Utils.GetUniqueFilename (photoFs []) 0 "temp_evidence".toList
        (derivedName 7 (some "a.b:c".toList) (some "image/png".toList)) ∧
      Utils.isInvalid ':' = true := by
  decide

/-- C25 (amended): the stem of the derived name and an extension derived from the MIME
type contain none of `<>:"/\|?*` and no control character; an extension taken from the
stored name is the end of that name from its last dot on, unchanged; so the name that
extraction passes through `GetUniqueFilename` is free of these characters whenever the
extension of the stored name is. -/
theorem derived_name_safety (fs : FileSystem) (now entryId : Int) (directory : Str)
    (filenamePtr mimeTypePtr : Option Str) :
    (∀ c ∈ derivedStem entryId filenamePtr, safeChar c) ∧
      (∀ c ∈ mimeFallback mimeTypePtr, safeChar c) ∧
      ((nameParts filenamePtr).2 ≠ [] →
        derivedExtension filenamePtr mimeTypePtr = (nameParts filenamePtr).2 ∧
          ∃ name, filenamePtr = some name ∧ (nameParts filenamePtr).2 <:+ name) ∧
      ((∀ c ∈ (nameParts filenamePtr).2, safeChar c) →
        ∀ c ∈ Utils.GetUniqueFilename fs now directory
          (derivedName entryId filenamePtr mimeTypePtr), safeChar c) := by
  refine ⟨derivedStem_safe entryId filenamePtr, mimeFallback_safe mimeTypePtr, ?_, ?_⟩
  · intro hne
    refine ⟨?_, nameParts_ext_suffix filenamePtr hne⟩
    unfold derivedExtension
    rw [if_neg]
    simpa using hne
  · intro hext c hc
    rcases Utils.mem_GetUniqueFilename hc with h | h
    · rw [derivedName_eq] at h
      rcases List.mem_append.1 h with h1 | h1
      · exact derivedStem_safe entryId filenamePtr c h1
      · unfold derivedExtension at h1
        split at h1
        · exact mimeFallback_safe mimeTypePtr c h1
        · exact hext c h1
    · exact tag_safe c h

/-- An instance of C25 (amended): `my:shot.png` is reconstructed as `my_shot.png`, whose
underscore stands where the colon was. -/
theorem derived_name_safety_witness :
    Utils.GetUniqueFilename (photoFs []) 0 "temp_evidence".toList
        (derivedName 7 (some "my:shot.png".toList) (some "image/png".toList)) =
        "my_shot.png".toList ∧
      safeChar '_' :=
  ⟨by decide,
    (derived_name_safety (photoFs []) 0 7 "temp_evidence".toList (some "my:shot.png".toList)
      (some "image/png".toList)).2.2.2 (by
        have h : (nameParts (some "my:shot.png".toList)).2 = ".png".toList := by decide
        rw [h]
        have : ∀ c ∈ ".png".toList, Utils.isInvalid c = false ∧ iscntrl c = false := by decide
        exact this) '_' (by decide)⟩

/-! ## Path separators -/

theorem storedFilename_notSeparator (path : Str) : ∀ c ∈ storedFilename path, notSeparator c := by
  unfold storedFilename find_last_of
  cases hf : findLast (fun c => ['/', Char.ofNat 92].contains c) path with
  | none =>
    dsimp only
    intro c hc
    have := findLast_eq_none.1 hf c hc
    constructor
    · intro e; subst e; revert this; decide
    · intro e; subst e; revert this; decide
  | some i =>
    dsimp only
    obtain ⟨s, rest, hd, _, hr⟩ := findLast_drop hf
    have hdrop : path.drop (i + 1) = rest := by
      rw [← List.drop_drop, hd]; rfl
    simp only [substrFrom, hdrop]
    intro c hc
    have := hr c hc
    constructor
    · intro e; subst e; revert this; decide
    · intro e; subst e; revert this; decide

theorem derivedName_notSeparator (entryId : Int) (filenamePtr mimeTypePtr : Option Str)
    (hname : ∀ name, filenamePtr = some name → ∀ c ∈ name, notSeparator c) :
    ∀ c ∈ derivedName entryId filenamePtr mimeTypePtr, notSeparator c := by
  intro c hc
  rw [derivedName_eq] at hc
  rcases List.mem_append.1 hc with h | h
  · exact safeChar_notSeparator (derivedStem_safe entryId filenamePtr c h)
  · unfold derivedExtension at h
    split at h
    · exact safeChar_notSeparator (mimeFallback_safe mimeTypePtr c h)
    · rename_i hne
      obtain ⟨name, hn, hsuf⟩ := nameParts_ext_suffix filenamePtr (by simpa using hne)
      exact hname name hn c (hsuf.subset h)

/-- The file name that ingestion computes, the text after the last slash or backslash
of the evidence path, contains neither; and for a stored name without them, the name
derived by extraction and the name returned by `GetUniqueFilename` for it contain neither,
so `temp_evidence/` followed by that name is a direct child of `temp_evidence`. -/
theorem stored_and_derived_without_separator (path : Str) (fs : FileSystem)
    (now entryId : Int) (directory : Str) (filenamePtr mimeTypePtr : Option Str) :
    (∀ c ∈ storedFilename path, notSeparator c) ∧
      (∀ c ∈ c_str (storedFilename path), notSeparator c) ∧
      ((∀ name, filenamePtr = some name → ∀ c ∈ name, notSeparator c) →
        (∀ c ∈ derivedName entryId filenamePtr mimeTypePtr, notSeparator c) ∧
          ∀ c ∈ Utils.GetUniqueFilename fs now directory
            (derivedName entryId filenamePtr mimeTypePtr), notSeparator c) := by
  refine ⟨storedFilename_notSeparator path,
    fun c hc => storedFilename_notSeparator path c (mem_c_str hc), ?_⟩
  intro hname
  have hd := derivedName_notSeparator entryId filenamePtr mimeTypePtr hname
  refine ⟨hd, ?_⟩
  intro c hc
  rcases Utils.mem_GetUniqueFilename hc with h | h
  · exact hd c h
  · exact safeChar_notSeparator (tag_safe c h)

/-- Of the path `scans/2024/photo.png` the name `photo.png` is computed, and the name
reconstructed for a stored `photo.png` has no slash. -/
theorem stored_and_derived_without_separator_witness :
    storedFilename "scans/2024/photo.png".toList = "photo.png".toList ∧
      Utils.GetUniqueFilename (photoFs []) 0 "temp_evidence".toList
        (derivedName 7 (some "photo.png".toList) (some "image/png".toList)) =
        "photo.png".toList ∧
      notSeparator 'p' :=
  ⟨by decide, by decide,
    ((stored_and_derived_without_separator "scans/2024/photo.png".toList (photoFs []) 0 7
      "temp_evidence".toList (some "photo.png".toList) (some "image/png".toList)).2.2
      (by
        intro name hn c hc
        cases hn
        have : ∀ c ∈ "photo.png".toList, c ≠ '/' ∧ c ≠ Char.ofNat 92 := by decide
        exact this c hc)).2 'p' (by decide)⟩

/-! ## The extension of a path and of a unique name -/

namespace Utils

theorem GetFileExtension_append (S e : Str) (he : '.' ∉ e) :
    GetFileExtension (S ++ '.' :: e) = e.map tolower := by
  unfold GetFileExtension find_last_of
  rw [findLast_dot_append S e he]
  simp [substrFrom]

theorem GetFileExtension_of_no_dot {f : Str} (h : '.' ∉ f) : GetFileExtension f = [] := by
  unfold GetFileExtension find_last_of
  rw [findLast_dot_none h]

theorem tolower_separator (c : Char) (h : c = '/' ∨ c = Char.ofNat 92) : tolower c = c := by
  rcases h with h | h <;> subst h <;> decide

end Utils

theorem specMime_of_separator {ext : Str} {c : Char} (hc : c ∈ ext)
    (hs : c = '/' ∨ c = Char.ofNat 92) : specMime ext = "application/octet-stream".toList := by
  have hkeys : ∀ p ∈ specMimeTable, ∀ d ∈ p.1, d ≠ '/' ∧ d ≠ Char.ofNat 92 := by decide
  have hfind : specMimeTable.find? (fun p => p.1 == ext) = none := by
    rw [List.find?_eq_none]
    intro p hp
    simp only [beq_iff_eq]
    intro e
    have := hkeys p hp c (e ▸ hc)
    rcases hs with h | h
    · exact this.1 h
    · exact this.2 h
  simp only [specMime, hfind]

/-- C27: for every evidence path, `GetMimeType` of the full path equals `GetMimeType` of
the text after its last slash or backslash; that text is the file name that ingestion
binds when the path contains no NUL character. -/
theorem GetMimeType_of_basename (p : Str) :
    GetMimeType p = GetMimeType (storedFilename p) ∧
      ((∀ c ∈ p, c ≠ Char.ofNat 0) → c_str (storedFilename p) = storedFilename p) := by
  constructor
  · unfold storedFilename find_last_of
    cases hf : findLast (fun c => ['/', Char.ofNat 92].contains c) p with
    | none => rfl
    | some i =>
      dsimp only
      obtain ⟨s, rest, hd, hs, hr⟩ := findLast_drop hf
      have hs2 : s = '/' ∨ s = Char.ofNat 92 := by simpa using hs
      have hdrop : p.drop (i + 1) = rest := by
        rw [← List.drop_drop, hd]; rfl
      have hp : p = p.take i ++ s :: rest := by
        rw [← hd, List.take_append_drop]
      simp only [substrFrom, hdrop]
      by_cases hdot : '.' ∈ rest
      · cases hfl : findLast (fun c => ['.'].contains c) rest with
        | none =>
          have := findLast_eq_none.1 hfl '.' hdot
          simp at this
        | some j =>
          obtain ⟨e, h1, _, h3⟩ := findLast_dot_split hfl
          have hp2 : p = (p.take i ++ s :: rest.take j) ++ '.' :: e := by
            rw [List.append_assoc, List.cons_append, ← h1]
            exact hp
          rw [GetMimeType_eq_specMime, GetMimeType_eq_specMime]
          conv_lhs => rw [hp2, Utils.GetFileExtension_append _ e h3]
          conv_rhs => rw [h1, Utils.GetFileExtension_append _ e h3]
      · have hbase : GetMimeType rest = "application/octet-stream".toList := by
          rw [GetMimeType_eq_specMime, Utils.GetFileExtension_of_no_dot hdot]
          decide
        rw [hbase]
        by_cases hpd : '.' ∈ p
        · cases hfl : findLast (fun c => ['.'].contains c) p with
          | none =>
            have := findLast_eq_none.1 hfl '.' hpd
            simp at this
          | some j =>
            obtain ⟨e, h1, _, h3⟩ := findLast_dot_split hfl
            have hse : s ∈ e := by
              have hsd : s ≠ '.' := by
                rcases hs2 with h | h <;> subst h <;> decide
              have hsuf : (s :: rest) <:+ p := ⟨p.take i, hp.symm⟩
              have hsuf2 : ('.' :: e) <:+ p := ⟨p.take j, h1.symm⟩
              rcases List.suffix_or_suffix_of_suffix hsuf hsuf2 with h | h
              · rcases List.eq_or_mem_of_mem_cons (h.subset (List.mem_cons_self s rest)) with h4 | h4
                · exact absurd h4 hsd
                · exact h4
              · have : '.' ∈ s :: rest := h.subset (List.mem_cons_self '.' e)
                rcases List.mem_cons.1 this with h4 | h4
                · exact absurd h4.symm hsd
                · exact absurd h4 hdot
            rw [GetMimeType_eq_specMime]
            conv_lhs => rw [h1, Utils.GetFileExtension_append _ e h3]
            exact specMime_of_separator (c := s)
              (List.mem_map.2 ⟨s, hse, Utils.tolower_separator s hs2⟩) hs2
        · rw [GetMimeType_eq_specMime, Utils.GetFileExtension_of_no_dot hpd]
          decide
  · intro hnul
    apply c_str_of_no_nul
    intro c hc
    have hsub : c ∈ p := by
      unfold storedFilename at hc
      split at hc
      · exact List.mem_of_mem_drop hc
      · exact hc
    exact hnul c hsub

/-- An instance of C27: the dot of the directory `my.dir` selects nothing, the path
`my.dir/photo` and its base name `photo` both get `application/octet-stream`. -/
theorem GetMimeType_of_basename_witness :
    GetMimeType "my.dir/photo".toList = "application/octet-stream".toList ∧
      c_str (storedFilename "my.dir/photo".toList) = "photo".toList :=
  ⟨(GetMimeType_of_basename "my.dir/photo".toList).1.trans (by decide),
    ((GetMimeType_of_basename "my.dir/photo".toList).2 (by decide)).trans (by decide)⟩

/-- C28: `GetFileExtension` of the name returned by `GetUniqueFilename` equals
`GetFileExtension` of the desired name, whether the name is returned unchanged, numbered or
with the timestamp. -/
theorem GetUniqueFilename_same_extension (fs : FileSystem) (now : Int) (directory name : Str) :
    Utils.GetFileExtension (Utils.GetUniqueFilename fs now directory name) =
      Utils.GetFileExtension name := by
  rcases Utils.GetUniqueFilename_form fs now directory name with e | ⟨n, e⟩
  · rw [e]
  · rw [e]
    have htag : '.' ∉ to_string n := by
      intro hm
      have hd : ∀ c ∈ digitChars, c ≠ '.' := by decide
      rcases to_string_mem n '.' hm with h | h
      · revert h; decide
      · exact hd '.' h rfl
    rcases (Utils.splitName_spec name).2 with ⟨hno, hext⟩ | ⟨ext, hext, hdot⟩
    · have hs : (Utils.splitName name).1 = name := by
        have := (Utils.splitName_spec name).1
        rw [hext, List.append_nil] at this
        exact this
      have hv : '.' ∉ Utils.variation name (to_string n) := by
        intro hm
        rcases Utils.mem_variation hm with h | h | h
        · exact hno h
        · revert h; decide
        · exact htag h
      rw [Utils.GetFileExtension_of_no_dot hv, Utils.GetFileExtension_of_no_dot hno]
    · have hname : name = (Utils.splitName name).1 ++ '.' :: ext := by
        have := (Utils.splitName_spec name).1
        rw [hext] at this
        exact this.symm
      have hv : Utils.variation name (to_string n) =
          ((Utils.splitName name).1 ++ "_".toList ++ to_string n) ++ '.' :: ext := by
        unfold Utils.variation
        rw [hext]
      rw [hv, Utils.GetFileExtension_append _ ext hdot]
      conv_rhs => rw [hname, Utils.GetFileExtension_append _ ext hdot]

/-! ## Blobs of reachable tables -/

theorem append_ne_of_head {a b x y : Str} (ha : a ≠ []) (hb : b ≠ [])
    (h : a.head? ≠ b.head?) : a ++ x ≠ b ++ y := by
  intro e
  apply h
  cases a with
  | nil => exact absurd rfl ha
  | cons c s =>
    cases b with
    | nil => exact absurd rfl hb
    | cons d t =>
      simp only [List.cons_append, List.cons.injEq] at e
      simp [e.1]

/-- C29: in every state reachable from the empty table by `AddEntry`, `UpdateEntry` and
`DeleteEntry` a non-null `evidence_blob` has at least one byte; hence, when
`HasEmbeddedImage` is true for an id, a failing `ExtractImageToTempFile` for that id does
not leave the message "Invalid BLOB data for entry ID". -/
theorem stored_blob_not_empty (db : Database) (hdb : Reachable db) :
    (∀ r ∈ db.rows, ∀ b, r.evidence_blob = some b → 1 ≤ b.length) ∧
      ∀ (h : Host) (fs : FileSystem) (now entryId : Int) (tmp : Str) (f1 f2 : SqlFault),
        HasEmbeddedImage db entryId f1 = true →
        (ExtractImageToTempFile h fs db now entryId tmp f2).ok = false →
        (ExtractImageToTempFile h fs db now entryId tmp f2).db.lastError_ ≠
          "Invalid BLOB data for entry ID: ".toList ++ to_string entryId := by
  have hblob : ∀ r ∈ db.rows, ∀ b, r.evidence_blob = some b → 1 ≤ b.length := by
    intro r hr b hb
    rcases hdb.rows_sound r hr with h0 | ⟨P, h1, hP, _⟩
    · rw [h0.1] at hb; cases hb
    · rw [h1] at hb
      simp only [Option.some.injEq] at hb
      subst hb
      exact List.length_pos.2 hP
  refine ⟨hblob, ?_⟩
  intro h fs now entryId tmp f1 f2 _ hfail
  cases f2 with
  | prepare e => exact append_ne_of_head (by decide) (by decide) (by decide)
  | step e => exact append_ne_of_head (by decide) (by decide) (by decide)
  | ok =>
    revert hfail
    unfold ExtractImageToTempFile
    cases hfind : db.rows.find? (fun r => r.id == entryId && r.evidence_blob.isSome) with
    | none => intro _; exact append_ne_of_head (by decide) (by decide) (by decide)
    | some r =>
      have h1 := List.find?_some hfind
      have hmem := List.mem_of_find?_eq_some hfind
      simp only [Bool.and_eq_true, beq_iff_eq] at h1
      obtain ⟨blob, hb⟩ := Option.isSome_iff_exists.1 h1.2
      have hpos : ((blob.length : Nat) : Int) > 0 := by
        have := hblob r hmem blob hb
        omega
      simp only [hb, Option.getD_some, hpos, if_true]
      split_ifs <;> intro hfail
      all_goals first
        | (cases hfail; done)
        | exact append_ne_of_head (by decide) (by decide) (by decide)

/-- An instance of C29: entry 1 carries the blob of `photo.png`; on a disk that keeps one
byte of three its extraction fails, and not with "Invalid BLOB data". -/
theorem stored_blob_not_empty_witness :
    HasEmbeddedImage
        (AddEntry steadyHost (photoFs [1, 2, 3]) Database.empty
          (sampleEntry "photo.png".toList) .ok).2 1 .ok = true ∧
      (ExtractImageToTempFile faultyDiskHost (photoFs [1, 2, 3])
        (AddEntry steadyHost (photoFs [1, 2, 3]) Database.empty
          (sampleEntry "photo.png".toList) .ok).2 0 1 [] .ok).db.lastError_ ≠
        "Invalid BLOB data for entry ID: ".toList ++ to_string 1 :=
  ⟨by decide,
    (stored_blob_not_empty
      (AddEntry steadyHost (photoFs [1, 2, 3]) Database.empty
        (sampleEntry "photo.png".toList) .ok).2
      (Reachable.add _ _ _ _ _ Reachable.empty)).2 faultyDiskHost (photoFs [1, 2, 3]) 0 1 []
      .ok .ok (by decide) (by decide)⟩

/-! ## `IsNumber` -/

namespace Utils

theorem digitsLoop_eq (str : Str) (fuel i : Nat) (h : str.length ≤ i + fuel) :
    digitsLoop str i fuel = (str.drop i).all isdigit := by
  induction fuel generalizing i with
  | zero =>
    have : str.drop i = [] := List.drop_eq_nil_of_le (by omega)
    simp [digitsLoop, this]
  | succ n ih =>
    by_cases hi : i < str.length
    · have hd : str.drop i = str[i] :: str.drop (i + 1) := List.drop_eq_getElem_cons hi
      have hg : str.getD i (Char.ofNat 0) = str[i] := by
        simp [List.getD, List.getElem?_eq_getElem hi]
      simp only [digitsLoop, hi, if_true, hg, hd, List.all_cons]
      rw [ih (i + 1) (by omega)]
      cases isdigit str[i] <;> simp
    · have : str.drop i = [] := List.drop_eq_nil_of_le (by omega)
      simp [digitsLoop, hi, this]

theorem IsNumber_minus (t : Str) : IsNumber ('-' :: t) = t.all isdigit := by
  simp only [IsNumber, List.isEmpty_cons, Bool.false_eq_true, if_false, List.head?_cons,
    if_true]
  rw [digitsLoop_eq _ _ _ (by simp)]
  rfl

theorem IsNumber_plain (c : Char) (t : Str) (hc : c ≠ '-') :
    IsNumber (c :: t) = (c :: t).all isdigit := by
  have hh : ¬ (some c = some '-') := by simpa using hc
  simp only [IsNumber, List.isEmpty_cons, Bool.false_eq_true, if_false, List.head?_cons, hh]
  rw [digitsLoop_eq _ _ _ (by simp)]
  rfl

theorem IsNumber_iff (s : Str) : IsNumber s = true ↔ (wellFormedInteger s ∨ s = ['-']) := by
  have hminus : isdigit '-' = false := by decide
  cases s with
  | nil =>
    constructor
    · intro h; cases h
    · intro h
      rcases h with ⟨ds, hne, _, h1 | h1⟩ | h
      · exact absurd h1.symm hne
      · cases h1
      · cases h
  | cons c t =>
    by_cases hc : c = '-'
    · subst hc
      rw [IsNumber_minus]
      constructor
      · intro h
        by_cases ht : t = []
        · right; rw [ht]
        · left
          exact ⟨t, ht, fun d hd => List.all_eq_true.1 h d hd, Or.inr rfl⟩
      · intro h
        rcases h with ⟨ds, _, hall, h1 | h1⟩ | h
        · have := hall '-' (by rw [← h1]; simp)
          rw [hminus] at this; cases this
        · simp only [List.cons.injEq, true_and] at h1
          rw [h1]
          exact List.all_eq_true.2 hall
        · simp only [List.cons.injEq, true_and] at h
          rw [h]; rfl
    · rw [IsNumber_plain c t hc]
      constructor
      · intro h
        left
        exact ⟨c :: t, by simp, fun d hd => List.all_eq_true.1 h d hd, Or.inl rfl⟩
      · intro h
        rcases h with ⟨ds, _, hall, h1 | h1⟩ | h
        · rw [h1]; exact List.all_eq_true.2 hall
        · simp only [List.cons.injEq] at h1
          exact absurd h1.1 hc
        · simp only [List.cons.injEq] at h
          exact absurd h.1 hc

/-- C30 (code at the failing input): `IsNumber` accepts the lone minus sign `-`, which
contains no digit; it also accepts `-12` and `7` and rejects the empty string and
`12a`. -/
theorem IsNumber_accepts_lone_minus :
    IsNumber "-".toList = true ∧ "-".toList.any isdigit = false ∧
      IsNumber "-12".toList = true ∧ IsNumber "7".toList = true ∧
      IsNumber [] = false ∧ IsNumber "12a".toList = false := by
  decide

end Utils

/-! ## Texts bound to strings that are destroyed before the step -/

/-- The rows that `AddEntry` and `UpdateEntry` write for an evidence file that is read hold
in `evidence_filename` and `evidence_mime_type` what the host finds in the freed memory of
the two block-local strings, not a copy of their text; the blob is a copy. -/
theorem bindEvidence_stores_freed (h : Host) (fs : FileSystem) (path : Str)
    (hne : path ≠ []) (hex : Utils.FileExists fs path = true)
    (hdata : ReadImageFile h fs path ≠ []) :
    (bindEvidence h fs path).blob = some (ReadImageFile h fs path) ∧
      (bindEvidence h fs path).filename = some (h.freed (c_str (storedFilename path))) ∧
      (bindEvidence h fs path).mime_type = some (h.freed (c_str (GetMimeType path))) := by
  rw [bindEvidence_of_data hne hex hdata]
  exact ⟨rfl, rfl, rfl⟩

/-- C26 (code at the failing input): of the evidence path `scans/photo.png` ingestion
computes the name `photo.png` and binds it with `SQLITE_STATIC` to a block-local string
that is destroyed before `sqlite3_step` (database.cpp:125-127, 156, 337-339, 363). On a
host where the freed memory holds `x.y/photo` at the step, `AddEntry` and `UpdateEntry`
store that text, which has a slash, next to the intact copy of the blob; extraction then
derives the name `x.y/photo` and writes the blob to `temp_evidence/x.y/photo`, which is no
direct child of `temp_evidence`. -/
theorem stored_filename_read_after_free :
    storedFilename "scans/photo.png".toList = "photo.png".toList ∧
      (AddEntry reusedMemoryHost (scansFs [1, 2, 3]) Database.empty
        (sampleEntry "scans/photo.png".toList) .ok).2.rows.map
        (fun r => (r.evidence_blob, r.evidence_filename, r.evidence_mime_type)) =
        [(some [1, 2, 3], some "x.y/photo".toList, some "image/png".toList)] ∧
      (UpdateEntry reusedMemoryHost (scansFs [1, 2, 3])
        (AddEntry steadyHost (scansFs [1, 2, 3]) Database.empty
          (sampleEntry "scans/photo.png".toList) .ok).2 1
        (sampleEntry "scans/photo.png".toList) .ok).2.rows.map
        (fun r => (r.evidence_blob, r.evidence_filename, r.evidence_mime_type)) =
        [(some [1, 2, 3], some "x.y/photo".toList, some "image/png".toList)] ∧
      '/' ∈ "x.y/photo".toList ∧
      derivedName 1 (some "x.y/photo".toList) (some "image/png".toList) =
        "x.y/photo".toList ∧
      (ExtractImageToTempFile reusedMemoryHost (scansFs [1, 2, 3])
        (AddEntry reusedMemoryHost (scansFs [1, 2, 3]) Database.empty
          (sampleEntry "scans/photo.png".toList) .ok).2 0 1 [] .ok).ok = true ∧
      (ExtractImageToTempFile reusedMemoryHost (scansFs [1, 2, 3])
        (AddEntry reusedMemoryHost (scansFs [1, 2, 3]) Database.empty
          (sampleEntry "scans/photo.png".toList) .ok).2 0 1 [] .ok).tempFilePath =
        "temp_evidence/x.y/photo".toList := by
  decide

/-! ## A write that fails during the copy -/

/-- Function `CopyFile` returns false when the write fails during the copy, whatever the
source holds. -/
theorem Utils.CopyFile_write_fails (h : Host) (fs : FileSystem) (source destination : Str)
    (hfail : ∀ data, h.insertOk (c_str destination) data = false) :
    (Utils.CopyFile h fs source destination).1 = false := by
  unfold Utils.CopyFile
  cases fs.file (c_str source) with
  | none => rfl
  | some data =>
    simp only
    split_ifs <;> first | rfl | exact hfail _

/-- On a host where every write to `out.png` fails during the copy, exporting entry 1 to
`out.png` returns false, records the failure, and leaves no intermediate file. -/
theorem export_full_device :
    (ExportEmbeddedImage fullDeviceHost (photoFs [1, 2, 3])
        (AddEntry steadyHost (photoFs [1, 2, 3]) Database.empty
          (sampleEntry "photo.png".toList) .ok).2 0 1 "out.png".toList .ok).ok = false ∧
      (ExportEmbeddedImage fullDeviceHost (photoFs [1, 2, 3])
        (AddEntry steadyHost (photoFs [1, 2, 3]) Database.empty
          (sampleEntry "photo.png".toList) .ok).2 0 1 "out.png".toList .ok).db.lastError_ =
        "Failed to copy extracted image to: out.png".toList ∧
      (ExportEmbeddedImage fullDeviceHost (photoFs [1, 2, 3])
        (AddEntry steadyHost (photoFs [1, 2, 3]) Database.empty
          (sampleEntry "photo.png".toList) .ok).2 0 1 "out.png".toList .ok).fs.file
        "temp_evidence/photo.png".toList = none ∧
      (Utils.CopyFile fullDeviceHost (photoFs [1, 2, 3]) "photo.png".toList
        "out.png".toList).1 = false := by
  decide

end FraudFinder
